import Mathlib

/-!
Verification development for the GAM+Sync coordination engine.

The Go sources are shallowly embedded as pure Lean functions:

* the region scanner (`internal/region/scanner.go`) works line by line on
  `List Char`, mirroring the `strings` helpers it uses;
* the relational store is a record of lists of rows, and each SQL statement
  of the validator / memorizer becomes a pure function on that record;
* queue pushes become list appends, and the nondeterministic identifier
  generators become explicit id-supply parameters.

Postgres transaction semantics are modelled faithfully: a statement error
inside a transaction (the Go code discards the returned error values, but a
failed statement aborts the surrounding transaction, so the commit fails)
makes the whole transition return `none`.
-/

namespace GamSync

/-! ### Go string helpers (strings.TrimSpace, Index, TrimSuffix, Fields)

Characters are processed as `List Char`.  `goSpace` is the ASCII whitespace
set recognised by Go's `unicode.IsSpace` (the non-ASCII whitespace code
points cannot occur in the byte-oriented scanners embedded here). -/
def goSpace (c : Char) : Bool :=
  c = ' ' || c = '\t' || c = '\n' || c = '\x0b' || c = '\x0c' || c = '\r'

/-- strings.TrimLeft with the whitespace cutset. -/
def trimLeftSpace (s : List Char) : List Char := s.dropWhile goSpace

/-- strings.TrimRight with the whitespace cutset. -/
def trimRightSpace (s : List Char) : List Char :=
  (s.reverse.dropWhile goSpace).reverse

/-- strings.TrimSpace. -/
def trimSpace (s : List Char) : List Char := trimRightSpace (trimLeftSpace s)

/-- strings.TrimRight with an explicit cutset. -/
def trimRightIn (cut : List Char) (s : List Char) : List Char :=
  (s.reverse.dropWhile (fun c => cut.contains c)).reverse

/-- strings.TrimSuffix. -/
def trimSuffix (suf s : List Char) : List Char :=
  if suf.isSuffixOf s then s.take (s.length - suf.length) else s

/-- strings.Index: first index at which `sub` occurs in `s`. -/
def indexOfSub (s sub : List Char) : Option Nat :=
  if sub.isPrefixOf s then some 0
  else
    match s with
    | [] => none
    | _ :: t => (indexOfSub t sub).map (· + 1)

/-- strings.Fields, via an accumulator for the word being read (reversed). -/
def fieldsAux : List Char → List Char → List (List Char)
  | [], acc => if acc.isEmpty then [] else [acc.reverse]
  | c :: rest, acc =>
      if goSpace c then
        if acc.isEmpty then fieldsAux rest [] else acc.reverse :: fieldsAux rest []
      else fieldsAux rest (c :: acc)

/-- strings.Fields. -/
def fields (s : List Char) : List (List Char) := fieldsAux s []

/-- strings.Contains, used for the `LIKE '%TODO%'` filter of the gardener. -/
def containsSub (s sub : String) : Bool := (indexOfSub s.data sub.data).isSome

/-! ### Region scanner (`internal/region/scanner.go`) -/
/-- extractRegionPath: extract the region path from a line like
`// @region:app.search`.  Returns `none` where the Go function returns
`("", false)`. -/
def extractRegionPath (line : List Char) (tag : List Char) : Option (List Char) :=
  let marker := '@' :: (tag ++ [':'])
  match indexOfSub line marker with
  | none => none
  | some idx =>
      let rest := line.drop (idx + marker.length)
      let rest := trimRightIn [' ', '\t'] rest
      let rest := trimSuffix ['-', '-', '>'] rest
      let rest := trimSuffix ['*', '/'] rest
      let rest := trimSpace rest
      match fields rest with
      | [] => none
      | w :: _ => some w

/-- RegionMarker (the `Children` field is never populated by `ScanFile` and
is omitted). `endLine = 0` means the region was never closed. -/
structure RegionMarker where
  path : String
  file : String
  startLine : Nat
  endLine : Nat
deriving DecidableEq, Repr

/-- The pair of extraction results ScanFile computes for one (trimmed) input
line: the `@region:` path and the `@endregion:` path, if present. -/
def lineEvents (line : String) : Option String × Option String :=
  let l := trimSpace line.data
  ((extractRegionPath l "region".data).map String.mk,
   (extractRegionPath l "endregion".data).map String.mk)

/-- The `@region:` event of line `n` (1-based), if any. -/
def openEventAt (lines : List String) (n : Nat) : Option String :=
  match lines.get? (n - 1) with
  | some l => (lineEvents l).1
  | none => none

/-- The `@endregion:` event of line `n` (1-based), if any. -/
def closeEventAt (lines : List String) (n : Nat) : Option String :=
  match lines.get? (n - 1) with
  | some l => (lineEvents l).2
  | none => none

/-- State of ScanFile's loop: markers emitted so far, the `openRegions` map
(path, index of the marker in `markers`; the Go map is keyed by path and a
re-open overwrites), and warnings emitted so far. -/
structure ScanState where
  markers : List RegionMarker
  openR : List (String × Nat)
  warnings : List String
deriving Repr

/-- Insert-or-overwrite in the `openRegions` association list. -/
def assocUpsert (k : String) (v : Nat) : List (String × Nat) → List (String × Nat)
  | [] => [(k, v)]
  | (k', v') :: rest =>
      if k' = k then (k, v) :: rest else (k', v') :: assocUpsert k v rest

/-- Delete a key from the `openRegions` association list. -/
def assocDrop (k : String) : List (String × Nat) → List (String × Nat)
  | [] => []
  | (k', v') :: rest =>
      if k' = k then assocDrop k rest else (k', v') :: assocDrop k rest

/-- Set `endLine` of the marker at position `idx` (mirrors `m.EndLine = lineNum`
through the pointer stored in the Go map). -/
def setEndLine (ms : List RegionMarker) (idx lineNum : Nat) : List RegionMarker :=
  match ms.get? idx with
  | some m => ms.set idx { m with endLine := lineNum }
  | none => ms

/-- Warning text for an `@endregion` without a matching open. -/
def warnUnmatchedEnd (file : String) (line : Nat) (path : String) : String :=
  file ++ ":" ++ toString line ++ ": @endregion:" ++ path ++ " without matching @region"

/-- Warning text for a region still open at end of file. -/
def warnNeverClosed (file : String) (line : Nat) (path : String) : String :=
  file ++ ":" ++ toString line ++ ": @region:" ++ path ++ " never closed"

/-- startLine of the marker at `idx` (0 if out of range; never out of range in
reachable states). -/
def markerStartAt (ms : List RegionMarker) (idx : Nat) : Nat :=
  ((ms.get? idx).map (·.startLine)).getD 0

/-- One iteration of ScanFile's line loop. -/
def scanLine (file : String) (lineNum : Nat) (line : String) (st : ScanState) : ScanState :=
  let ev := lineEvents line
  let st1 :=
    match ev.1 with
    | some p =>
        { st with
          markers := st.markers ++ [{ path := p, file := file, startLine := lineNum, endLine := 0 }]
          openR := assocUpsert p st.markers.length st.openR }
    | none => st
  match ev.2 with
  | some p =>
      match st1.openR.lookup p with
      | some idx =>
          { st1 with markers := setEndLine st1.markers idx lineNum, openR := assocDrop p st1.openR }
      | none =>
          { st1 with warnings := st1.warnings ++ [warnUnmatchedEnd file lineNum p] }
  | none => st1

/-- ScanFile's loop over the remaining lines, starting at line number `lineNum`. -/
def scanLinesFrom (file : String) (lineNum : Nat) : List String → ScanState → ScanState
  | [], st => st
  | l :: rest, st => scanLinesFrom file (lineNum + 1) rest (scanLine file lineNum l st)

/-- ScanFile: scan a source file (given as its list of lines) for region
markers.  Returns the markers and the warnings.  The Go iteration order over
the `openRegions` map at EOF is unspecified; the insertion order of the
association list is used here (all claims about warnings are order-insensitive). -/
def ScanFile (file : String) (lines : List String) : List RegionMarker × List String :=
  let st := scanLinesFrom file 1 lines { markers := [], openR := [], warnings := [] }
  (st.markers,
   st.warnings ++ st.openR.map (fun pr => warnNeverClosed file (markerStartAt st.markers pr.2) pr.1))

/-- A file's markers are well formed when every line carries at most one
marker, no `@region:X` opens a path that is already open, every
`@endregion:X` closes a currently open path, and nothing stays open at end
of file.  `opens` is the list of currently open paths. -/
def wfFrom : List String → List String → Bool
  | [], opens => opens.isEmpty
  | l :: rest, opens =>
      match lineEvents l with
      | (none, none) => wfFrom rest opens
      | (some p, none) => !(opens.contains p) && wfFrom rest (p :: opens)
      | (none, some p) => opens.contains p && wfFrom rest (opens.erase p)
      | (some _, some _) => false

/-- A source file contains only well-formed markers. -/
def wellFormedMarkers (lines : List String) : Bool := wfFrom lines []

/-! ### Scan loop invariant under well-formed input (claim about marker pairing) -/
/-- Invariant of ScanFile's line loop after `k` lines have been processed,
with `opens` the well-formedness tracker's list of currently open paths. -/
def ScanInvWf (lines : List String) (k : Nat) (st : ScanState) (opens : List String) : Prop :=
  st.warnings = [] ∧
  opens.Nodup ∧
  (∀ p, p ∈ opens ↔ (st.openR.lookup p).isSome) ∧
  (∀ pr ∈ st.openR, ∃ m, st.markers.get? pr.2 = some m ∧ m.path = pr.1 ∧ m.endLine = 0) ∧
  (∀ i m, st.markers.get? i = some m → m.endLine = 0 → st.openR.lookup m.path = some i) ∧
  (∀ i m, st.markers.get? i = some m →
      1 ≤ m.startLine ∧ m.startLine ≤ k ∧
      (m.endLine ≠ 0 → m.startLine < m.endLine ∧ m.endLine ≤ k ∧
        closeEventAt lines m.endLine = some m.path))

/-! ### Scan loop invariant for warning soundness (no well-formedness assumed) -/
/-- Every warning emitted so far is the text for a real `@endregion` line that
paired with nothing: line `n` carries that close event and no emitted marker
was closed at line `n`. -/
def WarnSound (file : String) (lines : List String) (k : Nat) (st : ScanState) : Prop :=
  ∀ w ∈ st.warnings, ∃ n p, 1 ≤ n ∧ n ≤ k ∧ w = warnUnmatchedEnd file n p ∧
    closeEventAt lines n = some p ∧ ∀ m ∈ st.markers, m.endLine ≠ n

/-- Every open-map entry points at an emitted marker with that path, still
unclosed. -/
def EntSound (st : ScanState) : Prop :=
  ∀ pr ∈ st.openR, ∃ m, st.markers.get? pr.2 = some m ∧ m.path = pr.1 ∧ m.endLine = 0

/-- Marker bounds: start lines are real open-event lines at most `ks`, end
lines are at most `ke`. -/
def BndSound (lines : List String) (ke ks : Nat) (st : ScanState) : Prop :=
  ∀ m ∈ st.markers, 1 ≤ m.startLine ∧ m.startLine ≤ ks ∧
    openEventAt lines m.startLine = some m.path ∧ m.endLine ≤ ke

/-! ### Data model (`internal/gam/types.go`, fields consulted by the embedded code) -/
/-- A legal state transition of a concept state machine. -/
structure Transition where
  fromState : String
  toState : String
  action : String
deriving DecidableEq, Repr

/-- StateMachine of a concept. -/
structure StateMachine where
  states : List String
  transitions : List Transition
deriving DecidableEq, Repr

/-- The configuration entries of an invariant the validator consults:
`cfg["no_removals"].(bool)` and `cfg["forbidden"].([]string)`.  `none` models
a missing key (or one of the wrong dynamic type, which the type assertion
rejects). -/
structure InvariantConfig where
  noRemovals : Option Bool
  forbidden : Option (List String)
deriving DecidableEq, Repr

/-- Invariant of a concept. -/
structure Invariant where
  name : String
  rule : String
  config : Option InvariantConfig
  itype : String
deriving DecidableEq, Repr

/-- The two key sets of a concept spec the validator consults:
`spec->'actions' ? X` and `spec->'state' ? X`. -/
structure ConceptSpec where
  actions : List String
  stateFields : List String
deriving DecidableEq, Repr

/-- A concepts-table row.  UUIDs are abstracted to `Nat`. -/
structure Concept where
  id : Nat
  name : String
  purpose : String
  spec : ConceptSpec
  stateMachine : StateMachine
  invariants : List Invariant
deriving DecidableEq, Repr

/-- When-clause pattern (the input/output matches are not consulted by the
embedded checks). -/
structure WhenPattern where
  concept : String
  action : String
deriving DecidableEq, Repr

/-- Then-clause invocation (args are not consulted). -/
structure ThenAction where
  concept : String
  action : String
deriving DecidableEq, Repr

/-- A value of the where-clause pattern map: either a nested JSON object
(given by its list of field names, the only part the code reads) or any
other value. -/
inductive WhereValue where
  | fieldsMap (fieldNames : List String)
  | scalar
deriving DecidableEq, Repr

/-- Where-clause pattern; the pattern map is modelled by its list of values
(the `?var` keys are never consulted). -/
structure WherePattern where
  concept : String
  pattern : List WhereValue
deriving DecidableEq, Repr

/-- Synchronization rule. -/
structure Synchronization where
  name : String
  whenClause : List WhenPattern
  whereClause : List WherePattern
  thenClause : List ThenAction
  description : String
  enabled : Bool
deriving DecidableEq, Repr

/-- regions-table row. -/
structure RegionRow where
  id : Nat
  path : String
  lifecycleState : String
deriving DecidableEq, Repr

/-- concept_region_assignments row. -/
structure AssignRow where
  conceptId : Nat
  regionId : Nat
  role : String
deriving DecidableEq, Repr

/-- synchronizations-table row: stored sync with its generated id. -/
structure SyncRow where
  id : Nat
  sync : Synchronization
deriving DecidableEq, Repr

/-- sync_refs-table row. -/
structure SyncRefRow where
  syncId : Nat
  conceptName : String
  actionName : Option String
  stateField : Option String
  clauseType : String
deriving DecidableEq, Repr

/-- A `region path to list of "file:start-end" locations` tree snapshot. -/
abbrev Snapshot : Type := List (String × List String)

/-- turns-table row.  Timestamps are abstract ticks. -/
structure TurnRow where
  id : String
  agentRole : String
  scopePath : String
  taskType : String
  scratchpad : Option String
  status : String
  treeBefore : Option Snapshot
  treeAfter : Option Snapshot
  createdAt : Nat
  completedAt : Option Nat
deriving DecidableEq

/-- turn_regions row. -/
structure TurnRegionRow where
  turnId : String
  regionId : Nat
  action : String
deriving DecidableEq, Repr

/-- proposals-table row (the columns the embedded operations write). -/
structure ProposalRow where
  id : String
  status : String
deriving DecidableEq, Repr

/-- execution_plans row. -/
structure PlanRow where
  id : String
  name : String
  goal : String
  status : String
  completedAt : Option Nat
deriving DecidableEq, Repr

/-- plan_turns row. -/
structure PlanTurnRow where
  planId : String
  turnId : String
  regionPath : String
  ordering : Int
  dependsOn : List String
  status : String
deriving DecidableEq, Repr

/-- flow_log row (columns the gardener consults). -/
structure FlowRow where
  conceptName : String
  actionName : String
  syncName : Option String
  createdAt : Nat
deriving DecidableEq, Repr

/-- A task message pushed on the Redis task stream. -/
structure TaskMessage where
  turnId : String
  regionPath : String
  contextRef : String
  taskType : String
  prompt : String
deriving DecidableEq, Repr

/-- The relational store plus the task queue, as one record of row lists.
`nextSyncId` supplies generated synchronization ids. -/
structure Store where
  regions : List RegionRow
  assignments : List AssignRow
  concepts : List Concept
  syncs : List SyncRow
  syncRefs : List SyncRefRow
  turns : List TurnRow
  turnRegions : List TurnRegionRow
  proposals : List ProposalRow
  plans : List PlanRow
  planTurns : List PlanTurnRow
  flowLog : List FlowRow
  queue : List TaskMessage
  nextSyncId : Nat
deriving DecidableEq

/-- Character-level split on dots (strings.Split with a one-character
separator), with the accumulator holding the current segment reversed. -/
def splitDotAux : List Char → List Char → List (List Char)
  | [], acc => [acc.reverse]
  | c :: rest, acc =>
      if c = '.' then acc.reverse :: splitDotAux rest [] else splitDotAux rest (c :: acc)

/-- ltree segments of a dotted path. -/
def pathSegments (p : String) : List String := (splitDotAux p.data []).map String.mk

/-- ltree `a @> b`: `a` is an ancestor of `b` (inclusive). -/
def ltreeAncestor (a b : String) : Bool :=
  (pathSegments a).isPrefixOf (pathSegments b)

/-! ### Proposal and validation result types -/
structure APIAnalysis where
  exportsBefore : List String
  exportsAfter : List String
  removals : List String
  additions : List String
deriving DecidableEq, Repr

structure MigrationAnalysis where
  operations : List String
  reversible : Bool
  dataLoss : Bool
deriving DecidableEq, Repr

structure DependencyAnalysis where
  added : List String
  removed : List String
  changed : List String
deriving DecidableEq, Repr

structure ModifiedRegion where
  path : String
  file : String
deriving DecidableEq, Repr

structure ProposalEvidence where
  apiAnalysis : Option APIAnalysis
  migrationAnalysis : Option MigrationAnalysis
  dependencyAnalysis : Option DependencyAnalysis
  modifiedRegions : List ModifiedRegion
  summary : String
deriving DecidableEq, Repr

structure SyncChanges where
  added : List Synchronization
  modified : List Synchronization
  deleted : List String
deriving DecidableEq, Repr

structure DeferredAction where
  taskType : String
  reason : String
  targetRegion : String
deriving DecidableEq, Repr

structure Proposal where
  id : String
  turnId : String
  regionPath : String
  actionTaken : String
  currentState : String
  proposedState : String
  syncChanges : Option SyncChanges
  evidence : ProposalEvidence
  deferredActions : List DeferredAction
deriving DecidableEq, Repr

structure ValidationDetail where
  check : String
  passed : Bool
  expected : String
  got : String
  fix : String
deriving DecidableEq, Repr

structure ValidationResult where
  tier : Int
  passed : Bool
  code : Int
  message : String
  details : List ValidationDetail
deriving DecidableEq, Repr

/-! ### Validator (`internal/validator/validator.go`) -/
/-- joinStrings from validator.go. -/
def joinStrings (ss : List String) (sep : String) : String :=
  match ss with
  | [] => ""
  | s :: rest => rest.foldl (fun acc x => acc ++ sep ++ x) s

/-- The `%v` rendering of a Go string slice. -/
def goSliceFmt (ss : List String) : String := "[" ++ joinStrings ss " " ++ "]"

/-- isLegalTransition. -/
def isLegalTransition (sm : StateMachine) (f t a : String) : Bool :=
  sm.transitions.any fun tr => tr.fromState == f && tr.toState == t && tr.action == a

/-- legalTransitionsFrom. -/
def legalTransitionsFrom (sm : StateMachine) (f : String) : String :=
  let ts := (sm.transitions.filter fun t => t.fromState == f).map
    fun t => t.fromState ++ "->" ++ t.toState ++ " via " ++ t.action
  if ts.isEmpty then "(none)" else "[" ++ joinStrings ts ", " ++ "]"

/-- A passing detail with only the check name set. -/
def passDetail (name : String) : ValidationDetail :=
  { check := name, passed := true, expected := "", got := "", fix := "" }

/-- checkInvariant.  For the migration invariant the Go loop keeps overwriting
the detail fields without returning, so the last matching (operation,
forbidden) pair in iteration order determines the recorded text. -/
def checkInvariant (inv : Invariant) (evidence : ProposalEvidence) : ValidationDetail :=
  match inv.itype with
  | "api" =>
      match evidence.apiAnalysis with
      | none =>
          { check := inv.name, passed := false,
            expected := "APIAnalysis block required by api invariant", got := "missing",
            fix := "Add api_analysis to proposal evidence with exports_before, exports_after, removals, and additions fields." }
      | some api =>
          match inv.config with
          | some cfg =>
              match cfg.noRemovals with
              | some true =>
                  if api.removals.isEmpty then passDetail inv.name
                  else
                    { check := inv.name, passed := false,
                      expected := "no API removals (no_removals invariant)",
                      got := "removed: " ++ goSliceFmt api.removals,
                      fix := "Restore removed exports or update the concept's api invariant to allow removals." }
              | _ => passDetail inv.name
          | none => passDetail inv.name
  | "migration" =>
      match evidence.migrationAnalysis with
      | none =>
          { check := inv.name, passed := false,
            expected := "MigrationAnalysis block required by migration invariant", got := "missing",
            fix := "Add migration_analysis to proposal evidence with operations, reversible, and data_loss fields." }
      | some ma =>
          match inv.config with
          | some cfg =>
              match cfg.forbidden with
              | some forbidden =>
                  let hits := ma.operations.flatMap fun op =>
                    forbidden.filterMap fun f => if op = f then some op else none
                  match hits.getLast? with
                  | none => passDetail inv.name
                  | some op =>
                      { check := inv.name, passed := false,
                        expected := "operation " ++ op ++ " forbidden by migration invariant",
                        got := op,
                        fix := "Use a non-destructive migration strategy instead of " ++ op ++
                          ". Consider ADD_COLUMN + backfill instead." }
              | none => passDetail inv.name
          | none => passDetail inv.name
  | _ => passDetail inv.name

/-- Does concept `cName` declare action `aName` (`c.spec->'actions' ? $2`)? -/
def conceptHasAction (db : Store) (cName aName : String) : Bool :=
  db.concepts.any fun c => c.name == cName && c.spec.actions.contains aName

/-- Does concept `cName` declare state field `fName` (`c.spec->'state' ? $2`)? -/
def conceptHasStateField (db : Store) (cName fName : String) : Bool :=
  db.concepts.any fun c => c.name == cName && c.spec.stateFields.contains fName

/-- First missing state field inside one where pattern's values. -/
def whereFieldBad (db : Store) (cName : String) : List WhereValue → Option String
  | [] => none
  | WhereValue.fieldsMap fieldNames :: rest =>
      match fieldNames.find? (fun f => !conceptHasStateField db cName f) with
      | some f => some f
      | none => whereFieldBad db cName rest
  | WhereValue.scalar :: rest => whereFieldBad db cName rest

/-- First missing (concept, state field) over the where clause. -/
def whereFirstBad (db : Store) : List WherePattern → Option (String × String)
  | [] => none
  | w :: rest =>
      match whereFieldBad db w.concept w.pattern with
      | some f => some (w.concept, f)
      | none => whereFirstBad db rest

/-- validateSyncRefs: when/then references must name existing concept
actions, where references must name existing concept state fields. -/
def validateSyncRefs (db : Store) (sync : Synchronization) : ValidationDetail :=
  match sync.whenClause.find? (fun w => !conceptHasAction db w.concept w.action) with
  | some w =>
      { check := "sync_refs_" ++ sync.name, passed := false,
        expected := "action " ++ w.concept ++ "/" ++ w.action ++ " exists", got := "not found",
        fix := "Define action '" ++ w.action ++ "' in concept '" ++ w.concept ++
          "' spec, or fix the sync's when clause reference." }
  | none =>
  match sync.thenClause.find? (fun t => !conceptHasAction db t.concept t.action) with
  | some t =>
      { check := "sync_refs_" ++ sync.name, passed := false,
        expected := "action " ++ t.concept ++ "/" ++ t.action ++ " exists", got := "not found",
        fix := "Define action '" ++ t.action ++ "' in concept '" ++ t.concept ++
          "' spec, or fix the sync's then clause reference." }
  | none =>
  match whereFirstBad db sync.whereClause with
  | some (cName, fName) =>
      { check := "sync_refs_" ++ sync.name, passed := false,
        expected := "state field " ++ cName ++ "." ++ fName ++ " exists", got := "not found",
        fix := "Add state field '" ++ fName ++ "' to concept '" ++ cName ++
          "' spec, or fix the sync's where clause." }
  | none => passDetail ("sync_refs_" ++ sync.name)

/-- findSyncRefsForAction: names of enabled syncs holding a sync-ref on the
action (`SELECT DISTINCT`; result order in SQL is unspecified, the
deduplicated join order is used here). -/
def findSyncRefsForAction (db : Store) (actionRef : String) : List String :=
  (((db.syncRefs.filter fun sr => sr.actionName == some actionRef).filterMap
    fun sr => (db.syncs.find? fun s => s.id == sr.syncId && s.sync.enabled).map
      fun s => s.sync.name)).dedup

/-- Lexicographic code-point comparison of names (the collation of
`ORDER BY c.name`). -/
def strLeChars : List Char → List Char → Bool
  | [], _ => true
  | _ :: _, [] => false
  | a :: as, b :: bs =>
      if a.toNat < b.toNat then true
      else if b.toNat < a.toNat then false
      else strLeChars as bs

/-- Name order used by `ORDER BY c.name`. -/
def strLe (a b : String) : Bool := strLeChars a.data b.data

/-- Insertion into a name-sorted concept list (`ORDER BY c.name`). -/
def insertByName (c : Concept) : List Concept → List Concept
  | [] => [c]
  | c' :: rest => if strLe c.name c'.name then c :: c' :: rest else c' :: insertByName c rest

/-- Name-ordered sort of concepts. -/
def sortByName : List Concept → List Concept
  | [] => []
  | c :: rest => insertByName c (sortByName rest)

/-- GetConceptsForRegion: concepts assigned to the region or an ancestor,
ordered by name (rows are unique per concept in a well-formed store, so
`DISTINCT` is the identity). -/
def GetConceptsForRegion (db : Store) (path : String) : List Concept :=
  sortByName (db.concepts.filter fun c =>
    db.assignments.any fun a =>
      a.conceptId == c.id && db.regions.any fun r =>
        r.id == a.regionId && (ltreeAncestor r.path path || r.path == path))

/-- The state-transition failure detail. -/
def transFailDetail (p : Proposal) (c : Concept) : ValidationDetail :=
  { check := "state_transition", passed := false,
    expected := "legal transition from " ++ p.currentState ++ " via " ++ p.actionTaken,
    got := "proposed " ++ p.currentState ++ " -> " ++ p.proposedState,
    fix := "Check the state machine for concept " ++ c.name ++ ". Legal transitions from " ++
      p.currentState ++ ": " ++ legalTransitionsFrom c.stateMachine p.currentState }

/-- The Tier-1 result for an illegal transition in concept `c`, with the
details accumulated so far. -/
def transFailResult (p : Proposal) (c : Concept) (acc : List ValidationDetail) :
    ValidationResult :=
  { tier := 1, passed := false, code := -2,
    message := "Illegal transition: " ++ p.currentState ++ " -> " ++ p.proposedState ++
      " via " ++ p.actionTaken ++ " in concept " ++ c.name,
    details := acc ++ [transFailDetail p c] }

/-- The invariant half of Tier 1's concept loop: every invariant's detail is
appended; the first non-passing one fails with code -1. -/
def tier1Invariants (evidence : ProposalEvidence) (cname : String) :
    List Invariant → List ValidationDetail → Except ValidationResult (List ValidationDetail)
  | [], acc => Except.ok acc
  | inv :: rest, acc =>
      let d := checkInvariant inv evidence
      if d.passed then tier1Invariants evidence cname rest (acc ++ [d])
      else Except.error
        { tier := 1, passed := false, code := -1,
          message := "Invariant violation: " ++ inv.name ++ " in concept " ++ cname,
          details := acc ++ [d] }

/-- Tier 1's loop over governing concepts: per concept, the transition check
(when both states are declared) then the invariant checks. -/
def tier1Concepts (p : Proposal) :
    List Concept → List ValidationDetail → Except ValidationResult (List ValidationDetail)
  | [], acc => Except.ok acc
  | c :: rest, acc =>
      if p.currentState ≠ "" ∧ p.proposedState ≠ "" ∧
          isLegalTransition c.stateMachine p.currentState p.proposedState p.actionTaken = false
      then Except.error (transFailResult p c acc)
      else
        match tier1Invariants p.evidence c.name c.invariants acc with
        | Except.error r => Except.error r
        | Except.ok acc2 => tier1Concepts p rest acc2

/-- The sync-reference-integrity section of Tier 1 (code -3). -/
def tier1SyncSection (db : Store) (p : Proposal) (acc : List ValidationDetail) :
    Except ValidationResult Unit :=
  match p.syncChanges with
  | none => Except.ok ()
  | some sc =>
      match (sc.added ++ sc.modified).find? (fun s => !(validateSyncRefs db s).passed) with
      | some s => Except.error
          { tier := 1, passed := false, code := -3,
            message := "Sync " ++ s.name ++ " references invalid action or state field",
            details := acc ++ [validateSyncRefs db s] }
      | none => Except.ok ()

/-- The orphan-prevention failure detail for action `removed` with the
affected enabled-sync names `refs`. -/
def removalFailDetail (refs : List String) (removed : String) : ValidationDetail :=
  { check := "action_removal", passed := false,
    expected := "no syncs reference removed action",
    got := toString refs.length ++ " syncs reference " ++ removed,
    fix := "Update syncs " ++ goSliceFmt refs ++ " before removing action " ++ removed }

/-- The Tier-1 result for a removal that would orphan enabled syncs. -/
def removalFailResult (db : Store) (removed : String) (acc : List ValidationDetail) :
    ValidationResult :=
  let refs := findSyncRefsForAction db removed
  { tier := 1, passed := false, code := -4,
    message := "Removing action " ++ removed ++ " would break " ++
      toString refs.length ++ " sync(s): " ++ goSliceFmt refs ++
      ". Update or delete the affected syncs first. " ++
      "Run 'gam sync list --concept <name>' to see all affected syncs.",
    details := acc ++ [removalFailDetail refs removed] }

/-- The orphan-prevention section of Tier 1 (code -4). -/
def tier1RemovalSection (db : Store) (p : Proposal) (acc : List ValidationDetail) :
    Except ValidationResult Unit :=
  match p.evidence.apiAnalysis with
  | none => Except.ok ()
  | some api =>
      match api.removals.find? (fun r => !(findSyncRefsForAction db r).isEmpty) with
      | some removed => Except.error (removalFailResult db removed acc)
      | none => Except.ok ()

/-- Tier1StateMachine: transition legality, invariant rules, sync reference
integrity, orphan prevention on removal (in this order, first failure wins).
The Go function's `error` return covers only store I/O failures, which are
outside this embedding. -/
def Tier1StateMachine (db : Store) (p : Proposal) : ValidationResult :=
  let concepts := GetConceptsForRegion db p.regionPath
  match tier1Concepts p concepts [] with
  | Except.error r => r
  | Except.ok acc =>
      match tier1SyncSection db p acc with
      | Except.error r => r
      | Except.ok _ =>
          match tier1RemovalSection db p acc with
          | Except.error r => r
          | Except.ok _ =>
              { tier := 1, passed := true, code := 0, message := "Tier 1 passed",
                details := acc }

/-! ### Tier 0 (`Tier0Structural`) -/
/-- The project source tree, as the list of (file, lines) the directory walk
visits (`.git`, `node_modules`, `vendor`, unknown extensions and ignored
paths are already absent; the walk itself is filesystem plumbing outside the
embedded logic). -/
def SourceTree : Type := List (String × List String)

/-- FileHasRegionMarkers: scan one file and look for a marker with the path
(an unreadable file scans to an error, and the Go function returns false). -/
def FileHasRegionMarkers (fs : SourceTree) (file path : String) : Bool :=
  match List.lookup file fs with
  | none => false
  | some ls => (ScanFile file ls).1.any fun m => m.path == path

/-- Result of the scope subquery
`SELECT $1::ltree <@ (SELECT scope_path FROM turns WHERE id = $2)`:
`none` models a query/scan error (no such turn makes the subquery NULL and
the bool scan fail, and `scopeDbErr` injects an infrastructure error), in
which case `err == nil` is false and the Go code skips the check. -/
def scopeQueryResult (db : Store) (scopeDbErr : Bool) (p : Proposal) : Option Bool :=
  if scopeDbErr then none
  else
    match db.turns.find? (fun t => t.id == p.turnId) with
    | none => none
    | some t => some (ltreeAncestor t.scopePath p.regionPath)

/-- Tier0Structural: region exists (code 1), scope check (code 2, only when
the proposal has a turn link and the subquery errs on neither side), region
markers present for each modified region (code 3). -/
def Tier0Structural (db : Store) (scopeDbErr : Bool) (fs : SourceTree) (p : Proposal) :
    ValidationResult :=
  if !(db.regions.any fun r => r.path == p.regionPath) then
    let d : ValidationDetail :=
      { check := "region_exists", passed := false,
        expected := "region " ++ p.regionPath ++ " exists", got := "not found",
        fix := "Add '" ++ p.regionPath ++ "' to arch.md and add @region:" ++ p.regionPath ++
          " / @endregion:" ++ p.regionPath ++
          " markers to source code. Then run: gam validate --arch" }
    { tier := 0, passed := false, code := 1,
      message := "Region " ++ p.regionPath ++ " not found in arch.md",
      details := [d] }
  else if p.turnId ≠ "" ∧ scopeQueryResult db scopeDbErr p = some false then
    let d : ValidationDetail :=
      { check := "scope_check", passed := false,
        expected := "region within turn scope",
        got := "region " ++ p.regionPath ++ " outside scope",
        fix := "Start a new turn with scope including " ++ p.regionPath ++
          ", or widen the current turn's scope." }
    { tier := 0, passed := false, code := 2,
      message := "Region " ++ p.regionPath ++ " is outside turn scope",
      details := [d] }
  else
    match p.evidence.modifiedRegions.find?
        (fun mr => !FileHasRegionMarkers fs mr.file mr.path) with
    | some mr =>
        let d : ValidationDetail :=
          { check := "region_markers", passed := false,
            expected := "@region:" ++ mr.path ++ " in " ++ mr.file, got := "missing",
            fix := "Add @region:" ++ mr.path ++ " / @endregion:" ++ mr.path ++
              " markers to " ++ mr.file }
        { tier := 0, passed := false, code := 3,
          message := "File " ++ mr.file ++ " missing region markers for " ++ mr.path,
          details := [d] }
    | none => { tier := 0, passed := true, code := 0, message := "Tier 0 passed", details := [] }

/-- Whether the proposal declares a current and a proposed state. -/
def declaresStates (p : Proposal) : Prop :=
  p.currentState ≠ "" ∧ p.proposedState ≠ ""

instance (p : Proposal) : Decidable (declaresStates p) := by
  unfold declaresStates
  infer_instance

/-! ### Claim C1: Tier-1 transition legality -/
/-- Example store for C1: region `app` governed by concepts `A` (whose state
machine has draft -> implementation via implement) and `B` (whose state
machine has no transitions). -/
def exC1Store : Store :=
  { regions := [⟨0, "app", "draft"⟩],
    assignments := [⟨1, 0, "implementation"⟩, ⟨2, 0, "implementation"⟩],
    concepts :=
      [⟨1, "A", "", ⟨[], []⟩, ⟨["draft", "implementation"],
        [⟨"draft", "implementation", "implement"⟩]⟩, []⟩,
       ⟨2, "B", "", ⟨[], []⟩, ⟨[], []⟩, []⟩],
    syncs := [], syncRefs := [], turns := [], turnRegions := [], proposals := [],
    plans := [], planTurns := [], flowLog := [], queue := [], nextSyncId := 0 }

/-- Example proposal for C1: draft -> implementation via implement on `app`. -/
def exC1Proposal : Proposal :=
  { id := "p1", turnId := "", regionPath := "app", actionTaken := "implement",
    currentState := "draft", proposedState := "implementation", syncChanges := none,
    evidence := ⟨none, none, none, [], ""⟩, deferredActions := [] }

/-- The claim C1 as stated, at one store and proposal: when both states are
declared, the transition check passes (no code -2 failure) iff the tuple is
in the state machine of at least one governing concept. -/
def c1ClaimAsStated (db : Store) (p : Proposal) : Prop :=
  declaresStates p →
    ((Tier1StateMachine db p).code ≠ -2 ↔
      ∃ c ∈ GetConceptsForRegion db p.regionPath,
        isLegalTransition c.stateMachine p.currentState p.proposedState p.actionTaken = true)

/-! ### Claim C9: Tier-0 scope-check bypass -/
/-- Example store for C9: one region `app`, no turns. -/
def exC9Store : Store :=
  { regions := [⟨0, "app", "draft"⟩], assignments := [], concepts := [], syncs := [],
    syncRefs := [], turns := [], turnRegions := [], proposals := [], plans := [],
    planTurns := [], flowLog := [], queue := [], nextSyncId := 0 }

/-- Example proposal for C9: no turn link, no modified regions. -/
def exC9Proposal : Proposal :=
  { id := "p9", turnId := "", regionPath := "app", actionTaken := "implement",
    currentState := "", proposedState := "", syncChanges := none,
    evidence := ⟨none, none, none, [], ""⟩, deferredActions := [] }

/-- Example store for C4 (the spec's S2 scenario): concept `Subscription`
has action `query`; enabled sync `ComputeTier` holds a when-clause sync-ref
on it. -/
def exC4Store : Store :=
  { regions := [⟨0, "app", "draft"⟩],
    assignments := [],
    concepts := [⟨1, "Subscription", "", ⟨["query"], []⟩, ⟨[], []⟩, []⟩],
    syncs := [⟨5, ⟨"ComputeTier", [⟨"Subscription", "query"⟩], [], [], "", true⟩⟩],
    syncRefs := [⟨5, "Subscription", some "query", none, "when"⟩],
    turns := [], turnRegions := [], proposals := [], plans := [], planTurns := [],
    flowLog := [], queue := [], nextSyncId := 6 }

/-- Example proposal for C4: api-analysis declares the removal of `query`. -/
def exC4Proposal : Proposal :=
  { id := "p4", turnId := "", regionPath := "app", actionTaken := "implement",
    currentState := "", proposedState := "", syncChanges := none,
    evidence := ⟨some ⟨["query"], [], ["query"], []⟩, none, none, [], ""⟩,
    deferredActions := [] }

/-! ### Proposal approval (`approveProposal` and helpers, memorizer) -/
/-- The sync_refs rows buildSyncRefsTx inserts for sync `sc` under id `sid`:
one per when reference, one per then reference, one per where state-field
reference, in that order. -/
def syncRefRowsFor (sid : Nat) (sc : Synchronization) : List SyncRefRow :=
  (sc.whenClause.map fun w => ⟨sid, w.concept, some w.action, none, "when"⟩) ++
  (sc.thenClause.map fun t => ⟨sid, t.concept, some t.action, none, "then"⟩) ++
  (sc.whereClause.flatMap fun w => w.pattern.flatMap fun v =>
    match v with
    | WhereValue.fieldsMap fieldNames =>
        fieldNames.map fun f => (⟨sid, w.concept, none, some f, "where"⟩ : SyncRefRow)
    | WhereValue.scalar => [])

/-- `INSERT ... ON CONFLICT DO NOTHING` on sync_refs (every column is part of
the primary key, so a conflict is an identical row). -/
def insertRefNoConflict (refs : List SyncRefRow) (row : SyncRefRow) : List SyncRefRow :=
  if row ∈ refs then refs else refs ++ [row]

/-- buildSyncRefsTx: look the sync id up by name; absent (scan error, id
stays empty) means no rows are inserted. -/
def buildSyncRefsTx (db : Store) (sc : Synchronization) : Store :=
  match db.syncs.find? (fun s => s.sync.name == sc.name) with
  | none => db
  | some srow =>
      { db with syncRefs := (syncRefRowsFor srow.id sc).foldl insertRefNoConflict db.syncRefs }

/-- insertSyncTx: a plain INSERT (`enabled = true`).  A name collision is a
unique violation; the Go code discards the error but the statement aborts
the enclosing transaction, so the whole transition yields `none`. -/
def insertSyncTx (db : Store) (sc : Synchronization) : Option Store :=
  if db.syncs.any (fun s => s.sync.name == sc.name) then none
  else some (buildSyncRefsTx
    { db with syncs := db.syncs ++ [⟨db.nextSyncId, { sc with enabled := true }⟩],
              nextSyncId := db.nextSyncId + 1 } sc)

/-- The per-row UPDATE of updateSyncTx: replace clauses and description on a
name match. -/
def updSyncRow (sc : Synchronization) (s : SyncRow) : SyncRow :=
  if s.sync.name == sc.name then
    { s with sync :=
        { s.sync with whenClause := sc.whenClause, whereClause := sc.whereClause,
                      thenClause := sc.thenClause, description := sc.description } }
  else s

/-- `DELETE FROM sync_refs WHERE sync_id = (SELECT id FROM synchronizations
WHERE name = ...)`: nothing is deleted when the subquery finds no row. -/
def clearRefsByName (db : Store) (name : String) : Store :=
  match db.syncs.find? (fun s => s.sync.name == name) with
  | none => db
  | some srow => { db with syncRefs := db.syncRefs.filter fun r => !(r.syncId == srow.id) }

/-- updateSyncTx: UPDATE the clauses and description by name (no insert when
the name is absent), DELETE the sync's refs, rebuild them. -/
def updateSyncTx (db : Store) (sc : Synchronization) : Store :=
  buildSyncRefsTx
    (clearRefsByName ({ db with syncs := db.syncs.map (updSyncRow sc) } : Store) sc.name) sc

/-- `DELETE FROM synchronizations WHERE name = $1`; sync_refs rows follow by
`ON DELETE CASCADE`. -/
def deleteSyncTx (db : Store) (name : String) : Store :=
  let ids := (db.syncs.filter fun s => s.sync.name == name).map fun s => s.id
  { db with syncs := db.syncs.filter (fun s => !(s.sync.name == name)),
            syncRefs := db.syncRefs.filter (fun r => !(ids.contains r.syncId)) }

/-- The added-syncs loop (aborts the transaction on a name collision). -/
def applyAddedSyncs (db : Store) : List Synchronization → Option Store
  | [] => some db
  | sc :: rest =>
      match insertSyncTx db sc with
      | none => none
      | some db2 => applyAddedSyncs db2 rest

/-- The transactional part of approveProposal: proposal status APPROVED,
region lifecycle update when a proposed state is declared, sync mutations
(insert added, update modified, delete deleted) with sync-ref rebuilds.
`none` models a failed commit (aborted transaction, nothing persisted).
approveStatusRegion is the leading pair of UPDATE statements. -/
def approveStatusRegion (db : Store) (p : Proposal) : Store :=
  let db1 : Store :=
    { db with proposals := db.proposals.map fun pr =>
        if pr.id == p.id then { pr with status := "APPROVED" } else pr }
  if p.proposedState ≠ "" then
    { db1 with regions := db1.regions.map fun r =>
        if r.path == p.regionPath then { r with lifecycleState := p.proposedState } else r }
  else db1

def approveProposalTx (db : Store) (p : Proposal) : Option Store :=
  match p.syncChanges with
  | none => some (approveStatusRegion db p)
  | some sc =>
      match applyAddedSyncs (approveStatusRegion db p) sc.added with
      | none => none
      | some db3 =>
          some (sc.deleted.foldl deleteSyncTx (sc.modified.foldl updateSyncTx db3))

/-- queueTask: insert a fresh ACTIVE turn and push a task message. -/
def queueTask (db : Store) (turnId regionPath taskType prompt : String) (now : Nat) : Store :=
  { db with
    turns := db.turns ++
      [⟨turnId, "researcher", regionPath, taskType, none, "ACTIVE", none, none, now, none⟩],
    queue := db.queue ++ [⟨turnId, regionPath, "", taskType, prompt⟩] }

/-! ### Execution-plan scheduler (`CreatePlan`, `UpdatePlanProgress`,
`queueReadyPlanTurns`) -/
/-- The `NOT EXISTS` dependency filter of queueReadyPlanTurns: a pending
plan-turn is ready when no depends_on id joins to a plan-turn of the plan
whose status differs from completed (an id matching no row blocks nothing). -/
def planTurnReady (db : Store) (planId : String) (pt : PlanTurnRow) : Bool :=
  pt.planId == planId && pt.status == "pending" &&
    !(pt.dependsOn.any fun dep =>
        db.planTurns.any fun dpt =>
          dpt.turnId == dep && dpt.planId == planId && !(dpt.status == "completed"))

/-- queueReadyPlanTurns: select the ready pending turns, flip each to active
and push a task with the turn id and region. -/
def queueReadyPlanTurns (db : Store) (planId : String) : Store :=
  let ready := db.planTurns.filter (planTurnReady db planId)
  let keys := ready.map fun pt => pt.turnId
  { db with
    planTurns := db.planTurns.map fun pt =>
      if pt.planId == planId && keys.contains pt.turnId then { pt with status := "active" }
      else pt,
    queue := db.queue ++ ready.map fun pt =>
      (⟨pt.turnId, pt.regionPath, "", "implement", ""⟩ : TaskMessage) }

/-- UpdatePlanProgress: complete the plan-turn, complete the plan when no
non-completed plan-turn remains, release newly unblocked turns. -/
def UpdatePlanProgress (db : Store) (planId turnId : String) (now : Nat) : Store :=
  let db1 : Store :=
    { db with planTurns := db.planTurns.map fun pt =>
        if pt.planId == planId && pt.turnId == turnId then { pt with status := "completed" }
        else pt }
  let remaining :=
    (db1.planTurns.filter fun pt => pt.planId == planId && !(pt.status == "completed")).length
  let db2 : Store :=
    if remaining = 0 then
      { db1 with plans := db1.plans.map fun pl =>
          if pl.id == planId then { pl with status := "COMPLETED", completedAt := some now }
          else pl }
    else db1
  queueReadyPlanTurns db2 planId

/-- CreatePlan: insert the plan, then per input plan-turn a fresh ACTIVE turn
(ids from the supply) and a pending plan_turns row storing `depends_on`
exactly as given; finally enqueue the ready turns.  The input rows' own
plan/turn/status fields are ignored, as in the Go code. -/
def CreatePlan (db : Store) (planId name goal : String) (turns : List PlanTurnRow)
    (ids : Nat → String) (now : Nat) : PlanRow × Store :=
  let plan : PlanRow := ⟨planId, name, goal, "ACTIVE", none⟩
  let db1 : Store := { db with plans := db.plans ++ [plan] }
  let db2 := turns.enum.foldl (fun acc pr =>
    { acc with
      turns := acc.turns ++
        [⟨ids pr.1, "researcher", pr.2.regionPath, "implement", none, "ACTIVE", none, none,
          now, none⟩],
      planTurns := acc.planTurns ++
        [⟨planId, ids pr.1, pr.2.regionPath, pr.2.ordering, pr.2.dependsOn, "pending"⟩] }) db1
  (plan, queueReadyPlanTurns db2 planId)

/-! ### Gardener (`RunGardener` and the three sweeps) -/
/-- An entropy finding. -/
structure GardenFinding where
  regionPath : String
  category : String
  description : String
  mechanical : Bool
deriving DecidableEq, Repr

/-- truncate from gardener.go (character count abstracts Go's byte count). -/
def truncate (s : String) (maxLen : Nat) : String :=
  if s.length ≤ maxLen then s else String.mk (s.data.take maxLen) ++ "..."

/-- Seconds in the `INTERVAL '7 days'` window (timestamps are abstract
seconds). -/
def sevenDays : Nat := 604800

/-- findStaleTodos: completed turns with TODO in the scratchpad, older than
seven days, with no later turn touching a descendant of the scope. -/
def findStaleTodos (db : Store) (now : Nat) : List GardenFinding :=
  (db.turns.filter fun t =>
    (match t.scratchpad with
     | some sp => containsSub sp "TODO"
     | none => false) &&
    t.status == "COMPLETED" &&
    (match t.completedAt with
     | some ca => decide (ca + sevenDays < now)
     | none => false) &&
    !(db.turns.any fun t2 =>
        db.turnRegions.any fun tr2 =>
          db.regions.any fun r2 =>
            tr2.turnId == t2.id && r2.id == tr2.regionId &&
            ltreeAncestor t.scopePath r2.path &&
            (match t.completedAt with
             | some ca => decide (ca < t2.createdAt)
             | none => false))
  ).map fun t =>
    ⟨t.scopePath, "stale_todo",
     "Turn " ++ t.id ++ " has unaddressed TODO in scratchpad: " ++
       truncate ((t.scratchpad).getD "") 100,
     false⟩

/-- One pass of ScanDirectory over the modelled source tree: per-file
ScanFile results concatenated in walk order. -/
def scanDirectoryM (fs : SourceTree) : List RegionMarker × List String :=
  fs.foldl (fun acc pr =>
    ((acc.1 ++ (ScanFile pr.1 pr.2).1), acc.2 ++ (ScanFile pr.1 pr.2).2)) ([], [])

/-- findOrphanedRegions: non-deprecated store regions without source markers. -/
def findOrphanedRegions (db : Store) (fs : SourceTree) : List GardenFinding :=
  let sourceRegions := (scanDirectoryM fs).1.map fun m => m.path
  (db.regions.filter fun r =>
    !(r.lifecycleState == "deprecated") && !(sourceRegions.contains r.path)).map fun r =>
    ⟨r.path, "orphaned_region",
     "Region " ++ r.path ++ " exists in database but has no @region markers in source code. Either add source markers or remove from arch.md and database.",
     false⟩

/-- findSyncDrift: enabled syncs with a when-clause action completing in the
window but no firing of the sync itself. -/
def findSyncDrift (db : Store) (now : Nat) : List GardenFinding :=
  db.syncs.flatMap fun s =>
    (db.syncRefs.filter fun sr => sr.syncId == s.id && sr.clauseType == "when").filterMap
      fun sr =>
        if s.sync.enabled &&
            (db.flowLog.any fun fl =>
              fl.conceptName == sr.conceptName &&
              (match sr.actionName with
               | some an => fl.actionName == an
               | none => false) &&
              decide (now < fl.createdAt + sevenDays)) &&
            !(db.flowLog.any fun fl =>
              (match fl.syncName with
               | some sn => sn == s.sync.name
               | none => false) &&
              decide (now < fl.createdAt + sevenDays))
        then some ⟨"", "sync_drift",
          "Sync " ++ s.sync.name ++ ": action " ++ sr.conceptName ++ "/" ++
            (sr.actionName).getD "" ++
            " is completing but sync never fires. Likely state representation mismatch in where clause.",
          false⟩
        else none

/-- The three sweeps in RunGardener's order. -/
def gardenFindings (db : Store) (fs : SourceTree) (now : Nat) : List GardenFinding :=
  findStaleTodos db now ++ findOrphanedRegions db fs ++ findSyncDrift db now

/-- RunGardener's non-dry loop: queue a `gardener` task per mechanical
finding (the id supply is consumed once per queued task). -/
def gardenerQueueLoop (now : Nat) (ids : Nat → String) :
    Nat → List GardenFinding → Store → Store
  | _, [], db => db
  | i, f :: rest, db =>
      if f.mechanical then
        gardenerQueueLoop now ids (i + 1) rest
          (queueTask db (ids i) f.regionPath "gardener" f.description now)
      else gardenerQueueLoop now ids i rest db

/-- RunGardener: sweep; in dry mode return the findings with no side
effects, otherwise queue a `gardener` task per mechanical finding. -/
def RunGardener (db : Store) (fs : SourceTree) (now : Nat) (dryRun : Bool)
    (ids : Nat → String) : List GardenFinding × Store :=
  let findings := gardenFindings db fs now
  if dryRun then (findings, db)
  else (findings, gardenerQueueLoop now ids 0 findings db)

/-! ### arch.md parsing and alignment (`ParseArchMdEntries`,
`ValidateArchNamespaces`, `ValidateArchAlignment`).  arch.md is modelled as
its list of lines; the file-read error paths are not modelled. -/
/-- A parsed arch.md namespace entry. -/
structure ArchEntry where
  path : String
  description : String
  line : Nat
deriving DecidableEq, Repr

/-- extractArchDescription: the text after `@region:<path>` on the line,
with trailing whitespace, `-->` and `*/` comment closers trimmed. -/
def extractArchDescription (line path : List Char) : String :=
  let marker := ("@region:".data) ++ path
  match indexOfSub line marker with
  | none => ""
  | some idx =>
      let rest := line.drop (idx + marker.length)
      String.mk (trimSpace (trimSuffix "*/".data (trimSuffix "-->".data
        (trimRightIn [' ', '\t'] rest))))

/-- The ParseArchMdEntries loop: 1-based line numbers, blank lines skipped,
first occurrence of each path wins. -/
def parseArchEntriesAux (seen : List String) (lineNum : Nat) :
    List String → List ArchEntry
  | [] => []
  | l :: rest =>
      let trimmed := trimSpace l.data
      if trimmed.isEmpty then parseArchEntriesAux seen (lineNum + 1) rest
      else
        match extractRegionPath trimmed "region".data with
        | some pcs =>
            let p := String.mk pcs
            if seen.contains p then parseArchEntriesAux seen (lineNum + 1) rest
            else
              ⟨p, extractArchDescription trimmed pcs, lineNum + 1⟩ ::
                parseArchEntriesAux (p :: seen) (lineNum + 1) rest
        | none => parseArchEntriesAux seen (lineNum + 1) rest

/-- ParseArchMdEntries over the lines of arch.md. -/
def ParseArchMdEntries (archLines : List String) : List ArchEntry :=
  parseArchEntriesAux [] 0 archLines

/-- ParseArchMd: the entry paths. -/
def ParseArchMd (archLines : List String) : List String :=
  (ParseArchMdEntries archLines).map fun e => e.path

/-- ValidateArchNamespaces: each multi-segment path needs its parent
declared. -/
def ValidateArchNamespaces (archLines : List String) : List String :=
  let entries := ParseArchMdEntries archLines
  let pathSet := entries.map fun e => e.path
  entries.filterMap fun e =>
    let segments := pathSegments e.path
    if segments.length ≤ 1 then none
    else
      let parent := joinStrings segments.dropLast "."
      if pathSet.contains parent then none
      else some ("arch.md:" ++ toString e.line ++ ": namespace " ++ e.path ++
        " has no parent " ++ parent ++ " defined")

/-- ValidateArchAlignment: namespace issues, then marker warnings, then
source regions missing from arch.md (in marker order), then arch.md entries
with no source markers. -/
def ValidateArchAlignment (archLines : List String) (fs : SourceTree) : List String :=
  let nsIssues := ValidateArchNamespaces archLines
  let archPaths := ParseArchMd archLines
  let scan := scanDirectoryM fs
  let sourcePaths := scan.1.map fun m => m.path
  let sourceIssues := scan.1.filterMap fun m =>
    if archPaths.contains m.path then none
    else some ("region " ++ m.path ++ " found in source (" ++ m.file ++ ":" ++
      toString m.startLine ++ ") but not in arch.md — add it to arch.md")
  let archOnlyIssues := archPaths.filterMap fun p =>
    if sourcePaths.contains p then none
    else some ("arch.md declares " ++ p ++
      " but no source region markers found — either add @region:" ++ p ++
      " markers to source or remove from arch.md")
  nsIssues ++ scan.2 ++ sourceIssues ++ archOnlyIssues

/-! ### Turn engine (`turn start` / `turn end`) -/
/-- captureTreeSnapshot's location strings. -/
def markerLoc (m : RegionMarker) : String :=
  m.file ++ ":" ++ toString m.startLine ++ "-" ++ toString m.endLine

/-- Append a location under a path key (Go `snapshot[path] = append(...)`);
keys keep first-insertion order. -/
def snapAdd : Snapshot → String → String → Snapshot
  | [], p, loc => [(p, [loc])]
  | (q, locs) :: rest, p, loc =>
      if q = p then (q, locs ++ [loc]) :: rest else (q, locs) :: snapAdd rest p loc

/-- captureTreeSnapshot: group the scanned markers by region path. -/
def captureTreeSnapshot (fs : SourceTree) : Snapshot :=
  (scanDirectoryM fs).1.foldl (fun snap m => snapAdd snap m.path (markerLoc m)) []

/-- Snapshot key lookup (`snapshot[path] == nil` is `false` exactly on the
stored keys, whose slices are non-nil by construction). -/
def snapHas (snap : Snapshot) (p : String) : Bool :=
  snap.any fun pr => pr.1 == p

/-- turn start: insert an ACTIVE `implement` turn carrying the tree_before
snapshot. -/
def turnStart (db : Store) (fs : SourceTree) (regionPath turnId : String)
    (now : Nat) : Store :=
  { db with turns := db.turns ++
      [⟨turnId, "researcher", regionPath, "implement", none, "ACTIVE",
        some (captureTreeSnapshot fs), none, now, none⟩] }

/-- `SELECT ... WHERE status = ACTIVE ORDER BY created_at DESC LIMIT 1`
(on a created_at tie the earlier row is kept; SQL leaves the order among
ties unspecified). -/
def findActiveTurn (db : Store) : Option TurnRow :=
  db.turns.foldl (fun acc t =>
    if t.status == "ACTIVE" then
      match acc with
      | none => some t
      | some best => if best.createdAt < t.createdAt then some t else acc
    else acc) none

/-- `SELECT id FROM regions WHERE path = $1` (skip when no row). -/
def regionIdByPath (db : Store) (path : String) : Option Nat :=
  (db.regions.find? fun r => r.path == path).map fun r => r.id

/-- `INSERT ... ON CONFLICT (turn_id, region_id) DO UPDATE SET action`. -/
def upsertTurnRegion (db : Store) (turnId : String) (regionId : Nat)
    (action : String) : Store :=
  if db.turnRegions.any (fun tr => tr.turnId == turnId && tr.regionId == regionId) then
    { db with turnRegions := db.turnRegions.map fun tr =>
        if tr.turnId == turnId && tr.regionId == regionId then { tr with action := action }
        else tr }
  else { db with turnRegions := db.turnRegions ++ [⟨turnId, regionId, action⟩] }

/-- The turn_regions diff loops of `turn end`: per after-snapshot region a
`modified` (present before) or `created` row, per vanished before-snapshot
region a `deleted` row; regions without a regions-table row are skipped. -/
def recordTurnRegions (db : Store) (turnId : String) (bef : Option Snapshot)
    (aft : Snapshot) : Store :=
  let db1 := aft.foldl (fun acc pr =>
    let action := match bef with
      | none => "created"
      | some b => if snapHas b pr.1 then "modified" else "created"
    match regionIdByPath acc pr.1 with
    | some rid => upsertTurnRegion acc turnId rid action
    | none => acc) db
  match bef with
  | none => db1
  | some b =>
      b.foldl (fun acc pr =>
        if snapHas aft pr.1 then acc
        else
          match regionIdByPath acc pr.1 with
          | some rid => upsertTurnRegion acc turnId rid "deleted"
          | none => acc) db1

/-- The post-gate tail of `turn end`: record the structural diff, then mark
the turn COMPLETED with scratchpad, completed_at and tree_after. -/
def finishTurn (db : Store) (t : TurnRow) (aft : Snapshot) (scratchpad : String)
    (now : Nat) : Store :=
  let db1 := recordTurnRegions db t.id t.treeBefore aft
  { db1 with turns := db1.turns.map fun tr =>
      if tr.id == t.id then
        { tr with scratchpad := some scratchpad, status := "COMPLETED",
                  completedAt := some now, treeAfter := some aft }
      else tr }

/-- The observable outcome of `turn end`. -/
inductive TurnEndResult where
  | noActiveTurn : TurnEndResult
  | blockedArch (issues : List String) : TurnEndResult
  | blockedMarkers (warnings : List String) : TurnEndResult
  | blockedUnregistered (paths : List String) : TurnEndResult
  | completed : TurnEndResult
deriving DecidableEq, Repr

/-- `gam turn end`: find the most recent active turn; unless validation is
skipped run the three-check gate (each failure returns an error before any
write); then record turn_regions and complete the turn. -/
def turnEnd (db : Store) (fs : SourceTree) (archLines : List String)
    (scratchpad : String) (skipValidation : Bool) (now : Nat) :
    TurnEndResult × Store :=
  match findActiveTurn db with
  | none => (TurnEndResult.noActiveTurn, db)
  | some t =>
      let aft := captureTreeSnapshot fs
      let warnings := (scanDirectoryM fs).2
      if skipValidation then (TurnEndResult.completed, finishTurn db t aft scratchpad now)
      else
        let archIssues := ValidateArchAlignment archLines fs
        if archIssues.isEmpty then
          if warnings.isEmpty then
            let archPaths := ParseArchMd archLines
            let unregistered := (aft.map fun pr => pr.1).filter fun p =>
              !(archPaths.contains p)
            if unregistered.isEmpty then
              (TurnEndResult.completed, finishTurn db t aft scratchpad now)
            else (TurnEndResult.blockedUnregistered unregistered, db)
          else (TurnEndResult.blockedMarkers warnings, db)
        else (TurnEndResult.blockedArch archIssues, db)

/-- C7 as stated: if a non-dry sweep reports some non-mechanical finding,
the finding is persisted for human review, i.e. the run leaves some trace
in the store. -/
def c7ClaimAsStated (db : Store) (fs : SourceTree) (now : Nat)
    (ids : Nat → String) : Prop :=
  (∃ f ∈ (RunGardener db fs now false ids).1, f.mechanical = false) →
    (RunGardener db fs now false ids).2 ≠ db

/-- Store with one non-deprecated region and no markers in source: the
sweep reports a non-mechanical orphaned_region finding. -/
def exC7Store : Store :=
  { regions := [⟨0, "app", "draft"⟩], assignments := [], concepts := [],
    syncs := [], syncRefs := [], turns := [], turnRegions := [],
    proposals := [], plans := [], planTurns := [], flowLog := [],
    queue := [], nextSyncId := 0 }

/-- Scheduler state with one pending plan-turn whose only dependency id
matches no row. -/
def exC10Store : Store :=
  { regions := [], assignments := [], concepts := [], syncs := [], syncRefs := [],
    turns := [], turnRegions := [], proposals := [], plans := [],
    planTurns := [⟨"P", "T1", "app", 0, ["ghost"], "pending"⟩],
    flowLog := [], queue := [], nextSyncId := 0 }

/-- Spec-side reading of the completion update of UpdatePlanProgress. -/
def specCompleteMark (planId turnId : String) (pt : PlanTurnRow) : PlanTurnRow :=
  if pt.planId = planId ∧ pt.turnId = turnId then { pt with status := "completed" } else pt

/-- Spec-side reading of the release condition: pending, in the plan, and
every depends_on id that matches a row of the plan has all matching rows
completed. -/
def specReady (done : List PlanTurnRow) (planId : String) (pt : PlanTurnRow) : Bool :=
  pt.planId == planId && pt.status == "pending" &&
    decide (∀ dep ∈ pt.dependsOn, ∀ dpt ∈ done, dpt.planId = planId →
      dpt.turnId = dep → dpt.status = "completed")

/-- C6 as stated: after completing (planId, turnId), a pending plan-turn of
the plan is pushed onto the queue exactly when every depends_on id has a
corresponding plan-turn of the plan with status completed. -/
def c6ClaimAsStated (db : Store) (planId turnId : String) (now : Nat) : Prop :=
  ∀ pt ∈ db.planTurns.map (specCompleteMark planId turnId),
    pt.planId = planId → pt.status = "pending" →
    ((⟨pt.turnId, pt.regionPath, "", "implement", ""⟩ : TaskMessage)
        ∈ (UpdatePlanProgress db planId turnId now).queue ↔
      ∀ dep ∈ pt.dependsOn,
        ∃ dpt ∈ db.planTurns.map (specCompleteMark planId turnId),
          dpt.planId = planId ∧ dpt.turnId = dep ∧ dpt.status = "completed")

/-- Plan P: T0 active (being completed), T1 pending behind the dangling
dependency id "ghost". -/
def exC6Store : Store :=
  { regions := [], assignments := [], concepts := [], syncs := [], syncRefs := [],
    turns := [], turnRegions := [], proposals := [],
    plans := [⟨"P", "n", "g", "ACTIVE", none⟩],
    planTurns := [⟨"P", "T0", "r0", 0, [], "active"⟩,
                  ⟨"P", "T1", "app", 1, ["ghost"], "pending"⟩],
    flowLog := [], queue := [], nextSyncId := 0 }

/-- Plan Q with a single pending turn and no dependencies. -/
def exC6WStore : Store :=
  { regions := [], assignments := [], concepts := [], syncs := [], syncRefs := [],
    turns := [], turnRegions := [], proposals := [],
    plans := [⟨"Q", "n", "g", "ACTIVE", none⟩],
    planTurns := [⟨"Q", "U1", "a", 0, [], "pending"⟩],
    flowLog := [], queue := [], nextSyncId := 0 }

/-- An ACTIVE turn awaiting `turn end`. -/
def exC2Turn : TurnRow :=
  ⟨"T1", "researcher", "app", "implement", none, "ACTIVE", none, none, 0, none⟩

/-- Store with just that active turn. -/
def exC2Store : Store :=
  { regions := [], assignments := [], concepts := [], syncs := [], syncRefs := [],
    turns := [exC2Turn], turnRegions := [], proposals := [], plans := [],
    planTurns := [], flowLog := [], queue := [], nextSyncId := 0 }

/-- Source tree with an `app` region that an empty arch.md does not
declare. -/
def exC2fs : SourceTree := [("a.go", ["// @region:app", "// @endregion:app"])]

/-! ### C5: the empty-turn boundary -/
/-- The turn_regions rows an empty turn produces: one `modified` row per
snapshot region that has a regions-table row. -/
def snapModifiedRows (db : Store) (turnId : String) (snap : Snapshot) :
    List TurnRegionRow :=
  snap.filterMap fun pr => (regionIdByPath db pr.1).map fun rid =>
    (⟨turnId, rid, "modified"⟩ : TurnRegionRow)

/-- C5 as stated: an immediately ended turn succeeds, its tree_after equals
its tree_before, and no turn-region rows are produced. -/
def c5ClaimAsStated (db : Store) (fs : SourceTree) (archLines : List String)
    (regionPath turnId scratchpad : String) : Prop :=
  (turnEnd (turnStart db fs regionPath turnId 0) fs archLines scratchpad false 1).1
      = TurnEndResult.completed ∧
  (∀ trow ∈ (turnEnd (turnStart db fs regionPath turnId 0) fs archLines scratchpad
      false 1).2.turns, trow.id = turnId → trow.treeAfter = trow.treeBefore) ∧
  (turnEnd (turnStart db fs regionPath turnId 0) fs archLines scratchpad
      false 1).2.turnRegions = db.turnRegions

/-- Store with a registered `app` region and no turns. -/
def exC5Store : Store :=
  { regions := [⟨0, "app", "implementation"⟩], assignments := [], concepts := [],
    syncs := [], syncRefs := [], turns := [], turnRegions := [], proposals := [],
    plans := [], planTurns := [], flowLog := [], queue := [], nextSyncId := 0 }

/-- arch.md declaring the `app` namespace. -/
def exC5Arch : List String := ["# @region:app  The app", "# @endregion:app"]

/-- Source tree with matching `app` markers. -/
def exC5fs : SourceTree := [("a.go", ["// @region:app", "x", "// @endregion:app"])]

/-! ### C3: sync-ref consistency on approval -/
/-- Store well-formedness facts guaranteed by the schema: unique sync ids
(primary key), unique sync names (UNIQUE constraint), ids below the id
supply, and the sync_refs foreign key. -/
def StoreWF (db : Store) : Prop :=
  (db.syncs.map fun s => s.id).Nodup ∧
  (db.syncs.map fun s => s.sync.name).Nodup ∧
  (∀ s ∈ db.syncs, s.id < db.nextSyncId) ∧
  (∀ r ∈ db.syncRefs, r.syncId ∈ db.syncs.map fun s => s.id)

/-- The sync_refs rows of sync id `sid` are exactly the clause references of
`sc`. -/
def refsMatch (db : Store) (sid : Nat) (sc : Synchronization) : Prop :=
  ∀ r : SyncRefRow, (r ∈ db.syncRefs ∧ r.syncId = sid) ↔ r ∈ syncRefRowsFor sid sc

/-- Some stored sync row carries `S`'s name and clauses, and its sync_refs
rows exactly cover `S`'s clause references. -/
def SyncStored (db : Store) (S : Synchronization) : Prop :=
  ∃ row ∈ db.syncs, row.sync.name = S.name ∧
    row.sync.whenClause = S.whenClause ∧ row.sync.whereClause = S.whereClause ∧
    row.sync.thenClause = S.thenClause ∧ refsMatch db row.id S

/-- C3 as stated: whenever approveProposal commits on sync changes adding or
modifying S, the store holds a sync named S whose sync_refs rows exactly
cover S's clause references. -/
def c3ClaimAsStated (db : Store) (p : Proposal) (sc : SyncChanges)
    (S : Synchronization) : Prop :=
  p.syncChanges = some sc → S ∈ sc.added ++ sc.modified →
    ∀ db4 ∈ (approveProposalTx db p).toList,
      ∃ row ∈ db4.syncs, row.sync.name = S.name ∧
        (∀ r ∈ db4.syncRefs, r.syncId = row.id → r ∈ syncRefRowsFor row.id S) ∧
        (∀ r ∈ syncRefRowsFor row.id S, r ∈ db4.syncRefs ∧ r.syncId = row.id)

/-- A modified sync whose name is stored nowhere. -/
def exC3GhostSync : Synchronization :=
  ⟨"Ghost", [⟨"C", "act"⟩], [], [], "", false⟩

/-- Proposal modifying only the absent sync. -/
def exC3Proposal : Proposal :=
  { id := "p3", turnId := "", regionPath := "app", actionTaken := "implement",
    currentState := "", proposedState := "",
    syncChanges := some ⟨[], [exC3GhostSync], []⟩,
    evidence := ⟨none, none, none, [], ""⟩, deferredActions := [] }

/-- Empty store. -/
def exC3Store : Store :=
  { regions := [], assignments := [], concepts := [], syncs := [], syncRefs := [],
    turns := [], turnRegions := [], proposals := [], plans := [],
    planTurns := [], flowLog := [], queue := [], nextSyncId := 0 }

/-- Concrete approval inserting one new sync with when, then and where
references. -/
def exC3AddSync : Synchronization :=
  ⟨"ComputeTier", [⟨"Subscription", "renew"⟩],
    [⟨"Account", [WhereValue.fieldsMap ["tier", "since"], WhereValue.scalar]⟩],
    [⟨"Account", "upgrade"⟩], "d", false⟩

/-- Proposal adding that sync. -/
def exC3WProposal : Proposal :=
  { id := "p4", turnId := "", regionPath := "app", actionTaken := "implement",
    currentState := "", proposedState := "",
    syncChanges := some ⟨[exC3AddSync], [], []⟩,
    evidence := ⟨none, none, none, [], ""⟩, deferredActions := [] }

/-! ### Lemmas about the open-region association list -/
theorem lookup_assocUpsert_self (k : String) (v : Nat) (m : List (String × Nat)) :
    (assocUpsert k v m).lookup k = some v := by
  induction m with
  | nil => simp [assocUpsert, List.lookup]
  | cons pr rest ih =>
      obtain ⟨k', v'⟩ := pr
      by_cases h : k' = k
      · simp [assocUpsert, h, List.lookup]
      · have hb : (k == k') = false := by simp [Ne.symm h]
        simp [assocUpsert, h, List.lookup, hb, ih]

theorem lookup_assocUpsert_ne (k q : String) (v : Nat) (m : List (String × Nat))
    (h : q ≠ k) : (assocUpsert k v m).lookup q = m.lookup q := by
  have hb : (q == k) = false := by simp [h]
  induction m with
  | nil => simp [assocUpsert, List.lookup, hb]
  | cons pr rest ih =>
      obtain ⟨k', v'⟩ := pr
      by_cases hk : k' = k
      · subst hk
        simp [assocUpsert, List.lookup, hb]
      · simp [assocUpsert, hk, List.lookup, ih]

theorem lookup_assocDrop_self (k : String) (m : List (String × Nat)) :
    (assocDrop k m).lookup k = none := by
  induction m with
  | nil => simp [assocDrop, List.lookup]
  | cons pr rest ih =>
      obtain ⟨k', v'⟩ := pr
      by_cases h : k' = k
      · simp [assocDrop, h, ih]
      · have hb : (k == k') = false := by simp [Ne.symm h]
        simp [assocDrop, h, List.lookup, hb, ih]

theorem lookup_assocDrop_ne (k q : String) (m : List (String × Nat))
    (h : q ≠ k) : (assocDrop k m).lookup q = m.lookup q := by
  induction m with
  | nil => simp [assocDrop]
  | cons pr rest ih =>
      obtain ⟨k', v'⟩ := pr
      by_cases hk : k' = k
      · have hb : (q == k) = false := by simp [h]
        simp [assocDrop, hk, List.lookup, hb, ih]
      · simp [assocDrop, hk, List.lookup, ih]

theorem mem_assocUpsert {pr : String × Nat} {k : String} {v : Nat}
    {m : List (String × Nat)} :
    pr ∈ assocUpsert k v m → pr = (k, v) ∨ pr ∈ m := by
  induction m with
  | nil => intro h; simpa [assocUpsert] using h
  | cons hd rest ih =>
      intro h
      obtain ⟨k', v'⟩ := hd
      by_cases hk : k' = k
      · simp only [assocUpsert, if_pos hk, List.mem_cons] at h
        rcases h with h | h
        · exact Or.inl h
        · exact Or.inr (List.mem_cons_of_mem _ h)
      · simp only [assocUpsert, if_neg hk, List.mem_cons] at h
        rcases h with h | h
        · exact Or.inr (by simp [h])
        · rcases ih h with h' | h'
          · exact Or.inl h'
          · exact Or.inr (List.mem_cons_of_mem _ h')

theorem mem_assocDrop {pr : String × Nat} {k : String}
    {m : List (String × Nat)} :
    pr ∈ assocDrop k m → pr ∈ m ∧ pr.1 ≠ k := by
  induction m with
  | nil => intro h; simpa [assocDrop] using h
  | cons hd rest ih =>
      intro h
      obtain ⟨k', v'⟩ := hd
      by_cases hk : k' = k
      · simp only [assocDrop, if_pos hk] at h
        exact ⟨List.mem_cons_of_mem _ (ih h).1, (ih h).2⟩
      · simp only [assocDrop, if_neg hk, List.mem_cons] at h
        rcases h with h | h
        · refine ⟨by simp [h], ?_⟩
          simp [h, hk]
        · exact ⟨List.mem_cons_of_mem _ (ih h).1, (ih h).2⟩

theorem mem_of_lookup_eq_some {k : String} {v : Nat} {m : List (String × Nat)} :
    m.lookup k = some v → (k, v) ∈ m := by
  induction m with
  | nil => intro h; simp [List.lookup] at h
  | cons hd rest ih =>
      intro h
      obtain ⟨k', v'⟩ := hd
      by_cases hk : k = k'
      · have hb : (k == k') = true := by simp [hk]
        simp only [List.lookup, hb] at h
        subst hk
        simp [← Option.some_inj.mp h]
      · have hb : (k == k') = false := by simp [hk]
        simp only [List.lookup, hb] at h
        exact List.mem_cons_of_mem _ (ih h)

theorem assoc_nil_of_lookup_none {m : List (String × Nat)}
    (h : ∀ p, m.lookup p = none) : m = [] := by
  cases m with
  | nil => rfl
  | cons hd rest =>
      obtain ⟨k, v⟩ := hd
      have := h k
      simp [List.lookup] at this

/-! ### Lemmas about `setEndLine` -/
theorem setEndLine_get?_self {ms : List RegionMarker} {idx : Nat} {m : RegionMarker}
    (h : ms.get? idx = some m) (n : Nat) :
    (setEndLine ms idx n).get? idx = some { m with endLine := n } := by
  unfold setEndLine
  rw [h, List.get?_set, if_pos rfl, h]
  rfl

theorem setEndLine_get?_ne {ms : List RegionMarker} {idx : Nat} (n : Nat)
    {j : Nat} (h : j ≠ idx) :
    (setEndLine ms idx n).get? j = ms.get? j := by
  unfold setEndLine
  cases hidx : ms.get? idx with
  | none => rfl
  | some m => exact List.get?_set_ne _ _ (Ne.symm h)

theorem mem_setEndLine {ms : List RegionMarker} {idx n : Nat} {m' : RegionMarker}
    (h : m' ∈ setEndLine ms idx n) :
    m' ∈ ms ∨ (∃ m ∈ ms, ms.get? idx = some m ∧ m' = { m with endLine := n }) := by
  unfold setEndLine at h
  cases hidx : ms.get? idx with
  | none => rw [hidx] at h; exact Or.inl h
  | some m =>
      rw [hidx] at h
      rcases List.mem_or_eq_of_mem_set h with h' | h'
      · exact Or.inl h'
      · exact Or.inr ⟨m, List.get?_mem hidx, rfl, h'⟩

theorem scan_wf_aux (file : String) (lines : List String) :
    ∀ (rest : List String) (k : Nat) (st : ScanState) (opens : List String),
      lines.drop k = rest →
      wfFrom rest opens = true →
      ScanInvWf lines k st opens →
      (scanLinesFrom file (k + 1) rest st).warnings = [] ∧
      (scanLinesFrom file (k + 1) rest st).openR = [] ∧
      (∀ i m, (scanLinesFrom file (k + 1) rest st).markers.get? i = some m →
          m.startLine < m.endLine ∧ closeEventAt lines m.endLine = some m.path) := by
  intro rest
  induction rest with
  | nil =>
      intro k st opens hdrop hwf hinv
      obtain ⟨hW, hND, hMem, hEnt, hZero, hBnd⟩ := hinv
      have hopens : opens = [] := by
        cases opens with
        | nil => rfl
        | cons a t => simp [wfFrom] at hwf
      have hnone : ∀ p, st.openR.lookup p = none := by
        intro p
        by_cases hp : (st.openR.lookup p).isSome
        · exfalso
          have : p ∈ opens := (hMem p).mpr hp
          rw [hopens] at this
          simp at this
        · exact Option.not_isSome_iff_eq_none.mp hp
      have hR : st.openR = [] := assoc_nil_of_lookup_none hnone
      refine ⟨by simpa [scanLinesFrom] using hW, by simpa [scanLinesFrom] using hR, ?_⟩
      intro i m hm
      simp only [scanLinesFrom] at hm
      by_cases hz : m.endLine = 0
      · exfalso
        have := hZero i m hm hz
        rw [hnone m.path] at this
        exact Option.noConfusion this
      · obtain ⟨_, _, h3⟩ := hBnd i m hm
        obtain ⟨h4, _, h6⟩ := h3 hz
        exact ⟨h4, h6⟩
  | cons l rest' ih =>
      intro k st opens hdrop hwf hinv
      obtain ⟨hW, hND, hMem, hEnt, hZero, hBnd⟩ := hinv
      have hline : lines.get? k = some l := by
        have h0 := List.get?_drop lines k 0
        rw [hdrop] at h0
        simpa using h0.symm
      have hdrop' : lines.drop (k + 1) = rest' := by
        rw [← List.drop_drop 1 k lines, hdrop]
        rfl
      have hstep : scanLinesFrom file (k + 1) (l :: rest') st
          = scanLinesFrom file (k + 1 + 1) rest' (scanLine file (k + 1) l st) := rfl
      rcases hev : lineEvents l with ⟨ev1, ev2⟩
      have hwf' := hwf
      rw [wfFrom, hev] at hwf'
      cases ev1 with
      | none =>
          cases ev2 with
          | none =>
              -- no marker on this line
              have hscan : scanLine file (k + 1) l st = st := by
                simp [scanLine, hev]
              rw [hstep, hscan]
              refine ih (k + 1) st opens hdrop' hwf' ?_
              refine ⟨hW, hND, hMem, hEnt, hZero, ?_⟩
              intro i m hm
              obtain ⟨h1, h2, h3⟩ := hBnd i m hm
              exact ⟨h1, Nat.le_succ_of_le h2, fun hz =>
                ⟨(h3 hz).1, Nat.le_succ_of_le (h3 hz).2.1, (h3 hz).2.2⟩⟩
          | some p =>
              -- close event for path p
              have hcp : p ∈ opens ∧ wfFrom rest' (opens.erase p) = true := by
                constructor
                · have := (Bool.and_eq_true _ _).mp hwf' |>.1
                  exact List.elem_iff.mp this
                · exact (Bool.and_eq_true _ _).mp hwf' |>.2
              obtain ⟨hpin, hwfrec⟩ := hcp
              have hsome : (st.openR.lookup p).isSome := (hMem p).mp hpin
              obtain ⟨idx, hidx⟩ := Option.isSome_iff_exists.mp hsome
              obtain ⟨m, hm, hmp, hmz⟩ := hEnt (p, idx) (mem_of_lookup_eq_some hidx)
              have hscan : scanLine file (k + 1) l st =
                  { st with markers := setEndLine st.markers idx (k + 1),
                            openR := assocDrop p st.openR } := by
                simp [scanLine, hev, hidx]
              rw [hstep, hscan]
              refine ih (k + 1) _ (opens.erase p) hdrop' hwfrec ?_
              refine ⟨hW, hND.erase p, ?_, ?_, ?_, ?_⟩
              · -- membership
                intro q
                by_cases hq : q = p
                · subst hq
                  simp only [hND.mem_erase_iff]
                  simp [lookup_assocDrop_self]
                · rw [hND.mem_erase_iff]
                  simp only [lookup_assocDrop_ne p q _ hq]
                  exact ⟨fun h => (hMem q).mp h.2, fun h => ⟨hq, (hMem q).mpr h⟩⟩
              · -- entries of the open map
                intro pr hpr
                obtain ⟨hprm, hprne⟩ := mem_assocDrop hpr
                obtain ⟨m', hm', hmp', hmz'⟩ := hEnt pr hprm
                have hne : pr.2 ≠ idx := by
                  intro hcontra
                  rw [hcontra] at hm'
                  rw [hm'] at hm
                  have : m' = m := Option.some_inj.mp hm.symm |>.symm
                  rw [this] at hmp'
                  exact hprne (hmp'.symm.trans hmp |>.symm ▸ rfl)
                exact ⟨m', by rw [setEndLine_get?_ne _ hne]; exact hm', hmp', hmz'⟩
              · -- endLine-zero markers are in the open map
                intro i m' hm' hz'
                by_cases hi : i = idx
                · subst hi
                  rw [setEndLine_get?_self hm _] at hm'
                  have : m'.endLine = k + 1 := by
                    have := Option.some_inj.mp hm'
                    rw [← this]
                  omega
                · rw [setEndLine_get?_ne _ hi] at hm'
                  have hlk := hZero i m' hm' hz'
                  have hne : m'.path ≠ p := by
                    intro hcontra
                    rw [hcontra] at hlk
                    rw [hidx] at hlk
                    exact hi (Option.some_inj.mp hlk).symm
                  rw [lookup_assocDrop_ne p _ _ hne]
                  exact hlk
              · -- bounds
                intro i m' hm'
                by_cases hi : i = idx
                · subst hi
                  rw [setEndLine_get?_self hm _] at hm'
                  have hmeq : m' = { m with endLine := k + 1 } :=
                    (Option.some_inj.mp hm').symm
                  obtain ⟨h1, h2, _⟩ := hBnd i m hm
                  subst hmeq
                  refine ⟨h1, Nat.le_succ_of_le h2, fun _ => ?_⟩
                  refine ⟨Nat.lt_succ_of_le h2, Nat.le_refl _, ?_⟩
                  show closeEventAt lines (k + 1) = some m.path
                  rw [closeEventAt]
                  simp only [Nat.add_sub_cancel, hline]
                  rw [hev]
                  simp [hmp]
                · rw [setEndLine_get?_ne _ hi] at hm'
                  obtain ⟨h1, h2, h3⟩ := hBnd i m' hm'
                  exact ⟨h1, Nat.le_succ_of_le h2, fun hz =>
                    ⟨(h3 hz).1, Nat.le_succ_of_le (h3 hz).2.1, (h3 hz).2.2⟩⟩
      | some p =>
          cases ev2 with
          | none =>
              -- open event for path p
              have hcp : p ∉ opens ∧ wfFrom rest' (p :: opens) = true := by
                have hand := (Bool.and_eq_true _ _).mp hwf'
                constructor
                · intro hmem
                  have h1 := hand.1
                  have hc : opens.contains p = true := List.elem_iff.mpr hmem
                  rw [hc] at h1
                  simp at h1
                · exact hand.2
              obtain ⟨hpnot, hwfrec⟩ := hcp
              have hscan : scanLine file (k + 1) l st =
                  { st with
                    markers := st.markers ++
                      [{ path := p, file := file, startLine := k + 1, endLine := 0 }],
                    openR := assocUpsert p st.markers.length st.openR } := by
                simp [scanLine, hev]
              rw [hstep, hscan]
              refine ih (k + 1) _ (p :: opens) hdrop' hwfrec ?_
              have hpnone : st.openR.lookup p = none := by
                by_cases hp : (st.openR.lookup p).isSome
                · exact absurd ((hMem p).mpr hp) hpnot
                · exact Option.not_isSome_iff_eq_none.mp hp
              refine ⟨hW, List.nodup_cons.mpr ⟨hpnot, hND⟩, ?_, ?_, ?_, ?_⟩
              · -- membership
                intro q
                by_cases hq : q = p
                · subst hq
                  simp [lookup_assocUpsert_self]
                · simp only [List.mem_cons]
                  rw [lookup_assocUpsert_ne _ _ _ _ hq]
                  constructor
                  · intro h
                    rcases h with h | h
                    · exact absurd h hq
                    · exact (hMem q).mp h
                  · intro h
                    exact Or.inr ((hMem q).mpr h)
              · -- entries
                intro pr hpr
                rcases mem_assocUpsert hpr with hpr' | hpr'
                · subst hpr'
                  refine ⟨{ path := p, file := file, startLine := k + 1, endLine := 0 }, ?_, rfl, rfl⟩
                  exact List.get?_concat_length _ _
                · obtain ⟨m', hm', hmp', hmz'⟩ := hEnt pr hpr'
                  have hlt : pr.2 < st.markers.length := (List.get?_eq_some.mp hm').1
                  exact ⟨m', by rw [List.get?_append hlt]; exact hm', hmp', hmz'⟩
              · -- endLine-zero markers
                intro i m' hm' hz'
                by_cases hi : i = st.markers.length
                · subst hi
                  rw [List.get?_concat_length] at hm'
                  have := Option.some_inj.mp hm'
                  rw [← this]
                  simpa using lookup_assocUpsert_self p st.markers.length st.openR
                · have hlt : i < st.markers.length := by
                    have hlen := (List.get?_eq_some.mp hm').1
                    simp only [List.length_append, List.length_cons, List.length_nil] at hlen
                    omega
                  rw [List.get?_append hlt] at hm'
                  have hlk := hZero i m' hm' hz'
                  have hne : m'.path ≠ p := by
                    intro hcontra
                    rw [hcontra] at hlk
                    rw [hpnone] at hlk
                    exact Option.noConfusion hlk
                  rw [lookup_assocUpsert_ne _ _ _ _ hne]
                  exact hlk
              · -- bounds
                intro i m' hm'
                by_cases hi : i = st.markers.length
                · subst hi
                  rw [List.get?_concat_length] at hm'
                  have := Option.some_inj.mp hm'
                  rw [← this]
                  exact ⟨Nat.succ_le_succ (Nat.zero_le _), Nat.le_refl _, fun hz => absurd rfl hz⟩
                · have hlt : i < st.markers.length := by
                    have hlen := (List.get?_eq_some.mp hm').1
                    simp only [List.length_append, List.length_cons, List.length_nil] at hlen
                    omega
                  rw [List.get?_append hlt] at hm'
                  obtain ⟨h1, h2, h3⟩ := hBnd i m' hm'
                  exact ⟨h1, Nat.le_succ_of_le h2, fun hz =>
                    ⟨(h3 hz).1, Nat.le_succ_of_le (h3 hz).2.1, (h3 hz).2.2⟩⟩
          | some q =>
              exact absurd hwf' (by simp)

theorem warnSound_mono {file lines k k'} {st : ScanState} (h : WarnSound file lines k st)
    (hk : k ≤ k') : WarnSound file lines k' st := by
  intro w hw
  obtain ⟨n, p, h1, h2, h3, h4, h5⟩ := h w hw
  exact ⟨n, p, h1, Nat.le_trans h2 hk, h3, h4, h5⟩

/-- Appending a fresh open marker preserves all three invariants. -/
theorem scanInvWarn_openStep (file : String) (lines : List String) (k : Nat)
    (st : ScanState) (q : String)
    (hopen : openEventAt lines (k + 1) = some q)
    (hW : WarnSound file lines k st) (hE : EntSound st)
    (hB : BndSound lines k (k + 1) st) :
    WarnSound file lines k
        { st with
          markers := st.markers ++ [{ path := q, file := file, startLine := k + 1, endLine := 0 }],
          openR := assocUpsert q st.markers.length st.openR } ∧
    EntSound
        { st with
          markers := st.markers ++ [{ path := q, file := file, startLine := k + 1, endLine := 0 }],
          openR := assocUpsert q st.markers.length st.openR } ∧
    BndSound lines k (k + 1)
        { st with
          markers := st.markers ++ [{ path := q, file := file, startLine := k + 1, endLine := 0 }],
          openR := assocUpsert q st.markers.length st.openR } := by
  refine ⟨?_, ?_, ?_⟩
  · intro w hw
    obtain ⟨n, p', h1, h2, h3, h4, h5⟩ := hW w hw
    refine ⟨n, p', h1, h2, h3, h4, ?_⟩
    intro m hm
    simp only [List.mem_append, List.mem_singleton] at hm
    rcases hm with hm | hm
    · exact h5 m hm
    · rw [hm]
      show (0 : Nat) ≠ n
      omega
  · intro pr hpr
    rcases mem_assocUpsert hpr with hpr' | hpr'
    · rw [hpr']
      exact ⟨_, List.get?_concat_length _ _, rfl, rfl⟩
    · obtain ⟨m', hm', hmp', hmz'⟩ := hE pr hpr'
      have hlt : pr.2 < st.markers.length := (List.get?_eq_some.mp hm').1
      exact ⟨m', by rw [List.get?_append hlt]; exact hm', hmp', hmz'⟩
  · intro m hm
    simp only [List.mem_append, List.mem_singleton] at hm
    rcases hm with hm | hm
    · exact hB m hm
    · rw [hm]
      exact ⟨Nat.succ_le_succ (Nat.zero_le _), Nat.le_refl _, hopen, Nat.zero_le _⟩

/-- Closing a currently open region preserves all three invariants. -/
theorem scanInvWarn_closeHit (file : String) (lines : List String) (k : Nat)
    (st : ScanState) (p : String) (idx : Nat)
    (hclose : closeEventAt lines (k + 1) = some p)
    (hlk : st.openR.lookup p = some idx)
    (hW : WarnSound file lines k st) (hE : EntSound st)
    (hB : BndSound lines k (k + 1) st) :
    WarnSound file lines (k + 1)
        { st with markers := setEndLine st.markers idx (k + 1), openR := assocDrop p st.openR } ∧
    EntSound
        { st with markers := setEndLine st.markers idx (k + 1), openR := assocDrop p st.openR } ∧
    BndSound lines (k + 1) (k + 1)
        { st with markers := setEndLine st.markers idx (k + 1), openR := assocDrop p st.openR } := by
  refine ⟨?_, ?_, ?_⟩
  · intro w hw
    obtain ⟨n, p', h1, h2, h3, h4, h5⟩ := hW w hw
    refine ⟨n, p', h1, Nat.le_succ_of_le h2, h3, h4, ?_⟩
    intro m' hm'
    rcases mem_setEndLine hm' with hmem | ⟨m0, _, _, hm0⟩
    · exact h5 m' hmem
    · rw [hm0]
      show k + 1 ≠ n
      omega
  · intro pr hpr
    obtain ⟨hprm, hprne⟩ := mem_assocDrop hpr
    obtain ⟨m', hm', hmp', hmz'⟩ := hE pr hprm
    obtain ⟨m, hm, hmp, hmz⟩ := hE (p, idx) (mem_of_lookup_eq_some hlk)
    have hne : pr.2 ≠ idx := by
      intro hcontra
      rw [hcontra, hm] at hm'
      have : m = m' := Option.some_inj.mp hm'
      rw [← this] at hmp'
      exact hprne (by rw [← hmp', hmp])
    exact ⟨m', by rw [setEndLine_get?_ne _ hne]; exact hm', hmp', hmz'⟩
  · intro m' hm'
    rcases mem_setEndLine hm' with hmem | ⟨m0, hm0mem, _, hm0⟩
    · obtain ⟨h1, h2, h3, h4⟩ := hB m' hmem
      exact ⟨h1, h2, h3, Nat.le_succ_of_le h4⟩
    · obtain ⟨h1, h2, h3, _⟩ := hB m0 hm0mem
      rw [hm0]
      exact ⟨h1, h2, h3, Nat.le_refl _⟩

/-- Emitting an unmatched-`@endregion` warning preserves all three invariants. -/
theorem scanInvWarn_closeMiss (file : String) (lines : List String) (k : Nat)
    (st : ScanState) (p : String)
    (hclose : closeEventAt lines (k + 1) = some p)
    (hW : WarnSound file lines k st) (hE : EntSound st)
    (hB : BndSound lines k (k + 1) st) :
    WarnSound file lines (k + 1)
        { st with warnings := st.warnings ++ [warnUnmatchedEnd file (k + 1) p] } ∧
    EntSound { st with warnings := st.warnings ++ [warnUnmatchedEnd file (k + 1) p] } ∧
    BndSound lines (k + 1) (k + 1)
        { st with warnings := st.warnings ++ [warnUnmatchedEnd file (k + 1) p] } := by
  refine ⟨?_, hE, ?_⟩
  · intro w hw
    simp only [List.mem_append, List.mem_singleton] at hw
    rcases hw with hw | hw
    · obtain ⟨n, p', h1, h2, h3, h4, h5⟩ := hW w hw
      exact ⟨n, p', h1, Nat.le_succ_of_le h2, h3, h4, h5⟩
    · refine ⟨k + 1, p, Nat.succ_le_succ (Nat.zero_le _), Nat.le_refl _, hw, hclose, ?_⟩
      intro m hm
      have := (hB m hm).2.2.2
      omega
  · intro m hm
    obtain ⟨h1, h2, h3, h4⟩ := hB m hm
    exact ⟨h1, h2, h3, Nat.le_succ_of_le h4⟩

theorem scan_warn_aux (file : String) (lines : List String) :
    ∀ (rest : List String) (k : Nat) (st : ScanState),
      lines.drop k = rest →
      WarnSound file lines k st → EntSound st → BndSound lines k k st →
      WarnSound file lines (k + rest.length) (scanLinesFrom file (k + 1) rest st) ∧
      EntSound (scanLinesFrom file (k + 1) rest st) ∧
      BndSound lines (k + rest.length) (k + rest.length) (scanLinesFrom file (k + 1) rest st) := by
  intro rest
  induction rest with
  | nil =>
      intro k st _ hW hE hB
      simpa [scanLinesFrom] using ⟨hW, hE, hB⟩
  | cons l rest' ih =>
      intro k st hdrop hW hE hB
      have hline : lines.get? k = some l := by
        have h0 := List.get?_drop lines k 0
        rw [hdrop] at h0
        simpa using h0.symm
      have hdrop' : lines.drop (k + 1) = rest' := by
        rw [← List.drop_drop 1 k lines, hdrop]
        rfl
      have hlen : k + (l :: rest').length = (k + 1) + rest'.length := by
        simp [List.length_cons]
        omega
      rw [hlen]
      have hstep : scanLinesFrom file (k + 1) (l :: rest') st
          = scanLinesFrom file (k + 1 + 1) rest' (scanLine file (k + 1) l st) := rfl
      rw [hstep]
      have hB' : BndSound lines k (k + 1) st := by
        intro m hm
        obtain ⟨h1, h2, h3, h4⟩ := hB m hm
        exact ⟨h1, Nat.le_succ_of_le h2, h3, h4⟩
      have hnext : WarnSound file lines (k + 1) (scanLine file (k + 1) l st) ∧
          EntSound (scanLine file (k + 1) l st) ∧
          BndSound lines (k + 1) (k + 1) (scanLine file (k + 1) l st) := by
        rcases hev : lineEvents l with ⟨ev1, ev2⟩
        have hopenAt : ∀ p, ev1 = some p → openEventAt lines (k + 1) = some p := by
          intro p hp
          rw [openEventAt]
          simp only [Nat.add_sub_cancel, hline]
          rw [hev, hp]
        have hcloseAt : ∀ p, ev2 = some p → closeEventAt lines (k + 1) = some p := by
          intro p hp
          rw [closeEventAt]
          simp only [Nat.add_sub_cancel, hline]
          rw [hev, hp]
        cases ev1 with
        | none =>
            cases ev2 with
            | none =>
                have hscan : scanLine file (k + 1) l st = st := by
                  simp [scanLine, hev]
                rw [hscan]
                refine ⟨warnSound_mono hW (Nat.le_succ _), hE, ?_⟩
                intro m hm
                obtain ⟨h1, h2, h3, h4⟩ := hB m hm
                exact ⟨h1, Nat.le_succ_of_le h2, h3, Nat.le_succ_of_le h4⟩
            | some p =>
                cases hlk : st.openR.lookup p with
                | some idx =>
                    have hscan : scanLine file (k + 1) l st =
                        { st with markers := setEndLine st.markers idx (k + 1),
                                  openR := assocDrop p st.openR } := by
                      simp [scanLine, hev, hlk]
                    rw [hscan]
                    exact scanInvWarn_closeHit file lines k st p idx
                      (hcloseAt p rfl) hlk hW hE hB'
                | none =>
                    have hscan : scanLine file (k + 1) l st =
                        { st with warnings :=
                            st.warnings ++ [warnUnmatchedEnd file (k + 1) p] } := by
                      simp [scanLine, hev, hlk]
                    rw [hscan]
                    exact scanInvWarn_closeMiss file lines k st p
                      (hcloseAt p rfl) hW hE hB'
        | some q =>
            obtain ⟨hW1, hE1, hB1⟩ := scanInvWarn_openStep file lines k st q
              (hopenAt q rfl) hW hE hB'
            cases ev2 with
            | none =>
                have hscan : scanLine file (k + 1) l st =
                    { st with
                      markers := st.markers ++
                        [{ path := q, file := file, startLine := k + 1, endLine := 0 }],
                      openR := assocUpsert q st.markers.length st.openR } := by
                  simp [scanLine, hev]
                rw [hscan]
                refine ⟨warnSound_mono hW1 (Nat.le_succ _), hE1, ?_⟩
                intro m hm
                obtain ⟨h1, h2, h3, h4⟩ := hB1 m hm
                exact ⟨h1, h2, h3, Nat.le_succ_of_le h4⟩
            | some p =>
                cases hlk : (assocUpsert q st.markers.length st.openR).lookup p with
                | some idx =>
                    have hscan : scanLine file (k + 1) l st =
                        { markers := setEndLine
                            (st.markers ++
                              [{ path := q, file := file, startLine := k + 1, endLine := 0 }])
                            idx (k + 1),
                          openR := assocDrop p (assocUpsert q st.markers.length st.openR),
                          warnings := st.warnings } := by
                      simp [scanLine, hev, hlk]
                    rw [hscan]
                    exact scanInvWarn_closeHit file lines k _ p idx
                      (hcloseAt p rfl) hlk hW1 hE1 hB1
                | none =>
                    have hscan : scanLine file (k + 1) l st =
                        { markers := st.markers ++
                            [{ path := q, file := file, startLine := k + 1, endLine := 0 }],
                          openR := assocUpsert q st.markers.length st.openR,
                          warnings := st.warnings ++ [warnUnmatchedEnd file (k + 1) p] } := by
                      simp [scanLine, hev, hlk]
                    rw [hscan]
                    exact scanInvWarn_closeMiss file lines k _ p
                      (hcloseAt p rfl) hW1 hE1 hB1
      obtain ⟨hWn, hEn, hBn⟩ := hnext
      exact ih (k + 1) (scanLine file (k + 1) l st) hdrop' hWn hEn hBn

/-! ### Claim C8: marker pairing -/
/-- C8: for every source file containing only well-formed markers, ScanFile
returns for each `@region:X` marker an end line greater than its start line
whose line carries the matching `@endregion:X`, and emits zero warnings; and
every warning ScanFile emits corresponds to an actual unpaired marker: either
an `@endregion` line that paired with no marker, or a `@region` marker still
open at end of file. -/
theorem c8_marker_pairing (file : String) (lines : List String) :
    (wellFormedMarkers lines = true →
      (∀ m ∈ (ScanFile file lines).1,
          m.startLine < m.endLine ∧ closeEventAt lines m.endLine = some m.path) ∧
      (ScanFile file lines).2 = []) ∧
    (∀ w ∈ (ScanFile file lines).2,
      (∃ n p, w = warnUnmatchedEnd file n p ∧ closeEventAt lines n = some p ∧
          ∀ m ∈ (ScanFile file lines).1, m.endLine ≠ n) ∨
      (∃ m ∈ (ScanFile file lines).1, w = warnNeverClosed file m.startLine m.path ∧
          m.endLine = 0 ∧ openEventAt lines m.startLine = some m.path)) := by
  constructor
  · intro hwf
    have hinv0 : ScanInvWf lines 0 { markers := [], openR := [], warnings := [] } [] := by
      refine ⟨rfl, List.nodup_nil, ?_, ?_, ?_, ?_⟩
      · intro p
        simp [List.lookup]
      · intro pr hpr
        simp at hpr
      · intro i m hm
        simp [List.get?] at hm
      · intro i m hm
        simp [List.get?] at hm
    have hmain := scan_wf_aux file lines lines 0
      { markers := [], openR := [], warnings := [] } [] (List.drop_zero _) hwf hinv0
    obtain ⟨hw1, hw2, hw3⟩ := hmain
    constructor
    · intro m hm
      obtain ⟨i, hi⟩ := List.mem_iff_get?.mp hm
      exact hw3 i m hi
    · show (scanLinesFrom file 1 lines _).warnings ++ _ = []
      rw [hw1, hw2]
      simp
  · intro w hw
    have hinvW : WarnSound file lines 0 { markers := [], openR := [], warnings := [] } ∧
        EntSound { markers := [], openR := [], warnings := [] } ∧
        BndSound lines 0 0 { markers := [], openR := [], warnings := [] } := by
      refine ⟨?_, ?_, ?_⟩
      · intro w hw
        simp at hw
      · intro pr hpr
        simp at hpr
      · intro m hm
        simp at hm
    obtain ⟨hW0, hE0, hB0⟩ := hinvW
    have hmain := scan_warn_aux file lines lines 0
      { markers := [], openR := [], warnings := [] } (List.drop_zero _) hW0 hE0 hB0
    obtain ⟨hWf, hEf, hBf⟩ := hmain
    have hws : w ∈ (scanLinesFrom file 1 lines
        { markers := [], openR := [], warnings := [] }).warnings ∨
        w ∈ (scanLinesFrom file 1 lines
          { markers := [], openR := [], warnings := [] }).openR.map
          (fun pr => warnNeverClosed file
            (markerStartAt (scanLinesFrom file 1 lines
              { markers := [], openR := [], warnings := [] }).markers pr.2) pr.1) := by
      have : w ∈ (ScanFile file lines).2 := hw
      rw [ScanFile] at this
      simpa [List.mem_append] using this
    rcases hws with hws | hws
    · obtain ⟨n, p, _, _, h3, h4, h5⟩ := hWf w hws
      exact Or.inl ⟨n, p, h3, h4, h5⟩
    · rw [List.mem_map] at hws
      obtain ⟨pr, hpr, hwpr⟩ := hws
      obtain ⟨m, hm, hmp, hmz⟩ := hEf pr hpr
      have hstart : markerStartAt (scanLinesFrom file 1 lines
          { markers := [], openR := [], warnings := [] }).markers pr.2 = m.startLine := by
        rw [markerStartAt, hm]
        rfl
      have hmem : m ∈ (ScanFile file lines).1 := List.get?_mem hm
      obtain ⟨_, _, hopen, _⟩ := hBf m (List.get?_mem hm)
      refine Or.inr ⟨m, hmem, ?_, hmz, hopen⟩
      rw [← hwpr, hstart, hmp]

/-- Witness for C8 at a concrete well-formed file. -/
theorem c8_marker_pairing_witness :
    wellFormedMarkers ["// @region:app", "code", "// @endregion:app"] = true ∧
    ((∀ m ∈ (ScanFile "s.go" ["// @region:app", "code", "// @endregion:app"]).1,
        m.startLine < m.endLine ∧
        closeEventAt ["// @region:app", "code", "// @endregion:app"] m.endLine = some m.path) ∧
     (ScanFile "s.go" ["// @region:app", "code", "// @endregion:app"]).2 = []) :=
  ⟨by decide, (c8_marker_pairing "s.go" ["// @region:app", "code", "// @endregion:app"]).1
    (by decide)⟩

/-! ### Lemmas about the Tier-1 pipeline -/
theorem tier1Invariants_ok (evidence : ProposalEvidence) (cname : String) :
    ∀ (invs : List Invariant) (acc : List ValidationDetail),
      (∀ inv ∈ invs, (checkInvariant inv evidence).passed = true) →
      (∀ d ∈ acc, d.passed = true) →
      ∃ acc2, tier1Invariants evidence cname invs acc = Except.ok acc2 ∧
        ∀ d ∈ acc2, d.passed = true := by
  intro invs
  induction invs with
  | nil =>
      intro acc _ hacc
      exact ⟨acc, rfl, hacc⟩
  | cons inv rest ih =>
      intro acc hinv hacc
      have hd : (checkInvariant inv evidence).passed = true :=
        hinv inv (List.mem_cons_self _ _)
      have hacc2 : ∀ d ∈ acc ++ [checkInvariant inv evidence], d.passed = true := by
        intro d hd'
        rw [List.mem_append, List.mem_singleton] at hd'
        rcases hd' with hd' | hd'
        · exact hacc d hd'
        · rw [hd']
          exact hd
      obtain ⟨acc2, hok, hall⟩ := ih (acc ++ [checkInvariant inv evidence])
        (fun i hi => hinv i (List.mem_cons_of_mem _ hi)) hacc2
      refine ⟨acc2, ?_, hall⟩
      rw [tier1Invariants, if_pos hd]
      exact hok

theorem tier1Concepts_spec (p : Proposal) :
    ∀ (cs : List Concept) (acc : List ValidationDetail),
      (∀ c ∈ cs, ∀ inv ∈ c.invariants, (checkInvariant inv p.evidence).passed = true) →
      (∀ d ∈ acc, d.passed = true) →
      (∃ acc2, tier1Concepts p cs acc = Except.ok acc2 ∧ (∀ d ∈ acc2, d.passed = true) ∧
          ∀ c ∈ cs, ¬(declaresStates p ∧
            isLegalTransition c.stateMachine p.currentState p.proposedState p.actionTaken
              = false)) ∨
      (∃ c ∈ cs, declaresStates p ∧
          isLegalTransition c.stateMachine p.currentState p.proposedState p.actionTaken
            = false ∧
          ∃ acc2, (∀ d ∈ acc2, d.passed = true) ∧
            tier1Concepts p cs acc = Except.error (transFailResult p c acc2)) := by
  intro cs
  induction cs with
  | nil =>
      intro acc _ hacc
      exact Or.inl ⟨acc, rfl, hacc, by intro c hc; simp at hc⟩
  | cons c rest ih =>
      intro acc hinv hacc
      by_cases hc : p.currentState ≠ "" ∧ p.proposedState ≠ "" ∧
          isLegalTransition c.stateMachine p.currentState p.proposedState p.actionTaken = false
      · refine Or.inr ⟨c, List.mem_cons_self _ _, ⟨hc.1, hc.2.1⟩, hc.2.2, acc, hacc, ?_⟩
        rw [tier1Concepts, if_pos hc]
      · rw [tier1Concepts, if_neg hc]
        obtain ⟨acc2, hok, hall⟩ := tier1Invariants_ok p.evidence c.name c.invariants acc
          (hinv c (List.mem_cons_self _ _)) hacc
        rw [hok]
        rcases ih acc2 (fun c' hc' => hinv c' (List.mem_cons_of_mem _ hc')) hall with
          ⟨acc3, hok3, hall3, hnone⟩ | ⟨c', hc', hdecl, hcill, acc3, hall3, herr⟩
        · refine Or.inl ⟨acc3, hok3, hall3, ?_⟩
          intro c'' hc''
          rcases List.mem_cons.mp hc'' with hc'' | hc''
          · rw [hc'']
            intro hcontra
            exact hc ⟨hcontra.1.1, hcontra.1.2, hcontra.2⟩
          · exact hnone c'' hc''
        · exact Or.inr ⟨c', List.mem_cons_of_mem _ hc', hdecl, hcill, acc3, hall3, herr⟩

theorem tier1SyncSection_code {db : Store} {p : Proposal} {acc : List ValidationDetail}
    {r : ValidationResult} (h : tier1SyncSection db p acc = Except.error r) :
    r.code = -3 := by
  unfold tier1SyncSection at h
  split at h
  · exact absurd h (by simp)
  · split at h
    · have := Except.error.inj h
      rw [← this]
    · exact absurd h (by simp)

theorem tier1RemovalSection_code {db : Store} {p : Proposal} {acc : List ValidationDetail}
    {r : ValidationResult} (h : tier1RemovalSection db p acc = Except.error r) :
    r.code = -4 := by
  unfold tier1RemovalSection at h
  split at h
  · exact absurd h (by simp)
  · split at h
    · have := Except.error.inj h
      rw [← this]
      rfl
    · exact absurd h (by simp)

theorem tier1_code_neg2_iff (db : Store) (p : Proposal)
    (hinv : ∀ c ∈ GetConceptsForRegion db p.regionPath, ∀ inv ∈ c.invariants,
        (checkInvariant inv p.evidence).passed = true) :
    (Tier1StateMachine db p).code = -2 ↔
      declaresStates p ∧ ∃ c ∈ GetConceptsForRegion db p.regionPath,
        isLegalTransition c.stateMachine p.currentState p.proposedState p.actionTaken
          = false := by
  have hspec := tier1Concepts_spec p (GetConceptsForRegion db p.regionPath) [] hinv
    (by intro d hd; simp at hd)
  rcases hspec with ⟨acc2, hok, hall, hnone⟩ | ⟨c, hc, hdecl, hcill, acc2, hall2, herr⟩
  · have hrhs : ¬(declaresStates p ∧ ∃ c ∈ GetConceptsForRegion db p.regionPath,
        isLegalTransition c.stateMachine p.currentState p.proposedState p.actionTaken
          = false) := by
      rintro ⟨hdecl, c, hc, hcill⟩
      exact hnone c hc ⟨hdecl, hcill⟩
    have hcode : (Tier1StateMachine db p).code ≠ -2 := by
      simp only [Tier1StateMachine, hok]
      cases hs : tier1SyncSection db p acc2 with
      | error r =>
          have := tier1SyncSection_code hs
          simp only [this]
          omega
      | ok u =>
          cases hr : tier1RemovalSection db p acc2 with
          | error r =>
              have := tier1RemovalSection_code hr
              simp only [this]
              omega
          | ok u2 => simp
    constructor
    · intro h
      exact absurd h hcode
    · intro h
      exact absurd h hrhs
  · constructor
    · intro _
      exact ⟨hdecl, c, hc, hcill⟩
    · intro _
      simp only [Tier1StateMachine, herr]
      rfl

theorem tier1_neg2_fix (db : Store) (p : Proposal)
    (hinv : ∀ c ∈ GetConceptsForRegion db p.regionPath, ∀ inv ∈ c.invariants,
        (checkInvariant inv p.evidence).passed = true)
    (h : (Tier1StateMachine db p).code = -2) :
    (Tier1StateMachine db p).passed = false ∧
    ∃ c ∈ GetConceptsForRegion db p.regionPath,
      isLegalTransition c.stateMachine p.currentState p.proposedState p.actionTaken = false ∧
      ∃ d ∈ (Tier1StateMachine db p).details, d.passed = false ∧
        d.fix = "Check the state machine for concept " ++ c.name ++
          ". Legal transitions from " ++ p.currentState ++ ": " ++
          legalTransitionsFrom c.stateMachine p.currentState := by
  have hspec := tier1Concepts_spec p (GetConceptsForRegion db p.regionPath) [] hinv
    (by intro d hd; simp at hd)
  rcases hspec with ⟨acc2, hok, hall, hnone⟩ | ⟨c, hc, hdecl, hcill, acc2, hall2, herr⟩
  · exfalso
    have hiff := tier1_code_neg2_iff db p hinv
    obtain ⟨hdecl, c, hc, hcill⟩ := hiff.mp h
    exact hnone c hc ⟨hdecl, hcill⟩
  · have hres : Tier1StateMachine db p = transFailResult p c acc2 := by
      simp only [Tier1StateMachine, herr]
    rw [hres]
    refine ⟨rfl, c, hc, hcill, transFailDetail p c, ?_, rfl, rfl⟩
    show transFailDetail p c ∈ acc2 ++ [transFailDetail p c]
    simp

/-- C1 counterexample: concept `A` has the transition draft -> implementation
via implement (so the claim's "at least one governing concept" condition
holds), yet Tier1StateMachine fails with code -2 because concept `B` lacks
it: the code requires the tuple in every governing concept's state machine. -/
theorem c1_counterexample : ¬ c1ClaimAsStated exC1Store exC1Proposal := by
  unfold c1ClaimAsStated declaresStates
  decide

/-- C1 (amended): with a current and proposed state declared and no invariant
violation among the governing concepts, the Tier-1 transition check fails
with code -2 iff some governing concept's state machine lacks the tuple
(current, proposed, action) — i.e. it passes iff the tuple exists in the
state machine of every governing concept — and on failure the failing
detail's fix text lists the legal transitions from the current state. -/
theorem c1_transition_legality (db : Store) (p : Proposal)
    (hinv : ∀ c ∈ GetConceptsForRegion db p.regionPath, ∀ inv ∈ c.invariants,
        (checkInvariant inv p.evidence).passed = true) :
    ((Tier1StateMachine db p).code = -2 ↔
      declaresStates p ∧ ∃ c ∈ GetConceptsForRegion db p.regionPath,
        isLegalTransition c.stateMachine p.currentState p.proposedState p.actionTaken
          = false) ∧
    ((Tier1StateMachine db p).code = -2 →
      (Tier1StateMachine db p).passed = false ∧
      ∃ c ∈ GetConceptsForRegion db p.regionPath,
        isLegalTransition c.stateMachine p.currentState p.proposedState p.actionTaken
          = false ∧
        ∃ d ∈ (Tier1StateMachine db p).details, d.passed = false ∧
          d.fix = "Check the state machine for concept " ++ c.name ++
            ". Legal transitions from " ++ p.currentState ++ ": " ++
            legalTransitionsFrom c.stateMachine p.currentState) :=
  ⟨tier1_code_neg2_iff db p hinv, tier1_neg2_fix db p hinv⟩

/-- C1 witness: the amended claim instantiated at the example store. -/
theorem c1_transition_legality_witness :
    (∀ c ∈ GetConceptsForRegion exC1Store exC1Proposal.regionPath, ∀ inv ∈ c.invariants,
        (checkInvariant inv exC1Proposal.evidence).passed = true) ∧
    (((Tier1StateMachine exC1Store exC1Proposal).code = -2 ↔
        declaresStates exC1Proposal ∧ ∃ c ∈ GetConceptsForRegion exC1Store
            exC1Proposal.regionPath,
          isLegalTransition c.stateMachine exC1Proposal.currentState
            exC1Proposal.proposedState exC1Proposal.actionTaken = false) ∧
      ((Tier1StateMachine exC1Store exC1Proposal).code = -2 →
        (Tier1StateMachine exC1Store exC1Proposal).passed = false ∧
        ∃ c ∈ GetConceptsForRegion exC1Store exC1Proposal.regionPath,
          isLegalTransition c.stateMachine exC1Proposal.currentState
            exC1Proposal.proposedState exC1Proposal.actionTaken = false ∧
          ∃ d ∈ (Tier1StateMachine exC1Store exC1Proposal).details, d.passed = false ∧
            d.fix = "Check the state machine for concept " ++ c.name ++
              ". Legal transitions from " ++ exC1Proposal.currentState ++ ": " ++
              legalTransitionsFrom c.stateMachine exC1Proposal.currentState)) :=
  ⟨by decide, c1_transition_legality exC1Store exC1Proposal (by decide)⟩

/-- C9: a proposal whose TurnID is empty, or whose scope query against the
turns table errs (including the no-such-turn NULL scan), never fails Tier 0
with code 2: the scope check is skipped and validation proceeds to the
region-marker check, so such a proposal is never rejected as out of scope. -/
theorem c9_tier0_scope_bypass (db : Store) (scopeDbErr : Bool) (fs : SourceTree)
    (p : Proposal)
    (h : p.turnId = "" ∨ scopeQueryResult db scopeDbErr p = none) :
    (Tier0Structural db scopeDbErr fs p).code ≠ 2 ∧
    ((∃ r ∈ db.regions, r.path = p.regionPath) →
      (Tier0Structural db scopeDbErr fs p).passed = true ∨
      (Tier0Structural db scopeDbErr fs p).code = 3) := by
  have hscope : ¬(p.turnId ≠ "" ∧ scopeQueryResult db scopeDbErr p = some false) := by
    rintro ⟨hne, heq⟩
    rcases h with h | h
    · exact hne h
    · rw [h] at heq
      exact Option.noConfusion heq
  unfold Tier0Structural
  by_cases hreg : (!(db.regions.any fun r => r.path == p.regionPath)) = true
  · rw [if_pos hreg]
    refine ⟨by simp, ?_⟩
    rintro ⟨r, hr, hpath⟩
    exfalso
    have : db.regions.any (fun r => r.path == p.regionPath) = true :=
      List.any_eq_true.mpr ⟨r, hr, by simp [hpath]⟩
    rw [this] at hreg
    simp at hreg
  · rw [if_neg hreg, if_neg hscope]
    cases hf : p.evidence.modifiedRegions.find?
        (fun mr => !FileHasRegionMarkers fs mr.file mr.path) with
    | some mr => exact ⟨by simp, fun _ => Or.inr rfl⟩
    | none => exact ⟨by simp, fun _ => Or.inl rfl⟩

/-- C9 witness: a proposal with no turn link on an existing region passes
Tier 0 (so in particular is not rejected as out of scope). -/
theorem c9_tier0_scope_bypass_witness :
    (exC9Proposal.turnId = "" ∨ scopeQueryResult exC9Store false exC9Proposal = none) ∧
    (Tier0Structural exC9Store false [] exC9Proposal).code ≠ 2 ∧
    ((∃ r ∈ exC9Store.regions, r.path = exC9Proposal.regionPath) →
      (Tier0Structural exC9Store false [] exC9Proposal).passed = true ∨
      (Tier0Structural exC9Store false [] exC9Proposal).code = 3) :=
  ⟨Or.inl rfl, c9_tier0_scope_bypass exC9Store false [] exC9Proposal (Or.inl rfl)⟩

/-! ### Claim C4: orphan prevention on action removal -/
theorem mem_findSyncRefsForAction {db : Store}
    (hWF : (db.syncs.map fun s => s.id).Nodup) (a n : String) :
    n ∈ findSyncRefsForAction db a ↔
      ∃ s ∈ db.syncs, s.sync.enabled = true ∧ s.sync.name = n ∧
        ∃ ref ∈ db.syncRefs, ref.syncId = s.id ∧ ref.actionName = some a := by
  unfold findSyncRefsForAction
  rw [List.mem_dedup, List.mem_filterMap]
  constructor
  · rintro ⟨sr, hsr, hmap⟩
    rw [List.mem_filter] at hsr
    obtain ⟨hsrmem, hsract⟩ := hsr
    cases hfind : db.syncs.find? (fun s => s.id == sr.syncId && s.sync.enabled) with
    | none =>
        rw [hfind] at hmap
        exact absurd hmap (by simp)
    | some s =>
        rw [hfind] at hmap
        have hname : s.sync.name = n := by simpa using hmap
        have hpred := List.find?_some hfind
        rw [Bool.and_eq_true, beq_iff_eq] at hpred
        refine ⟨s, List.mem_of_find?_eq_some hfind, hpred.2, hname, sr, hsrmem,
          hpred.1.symm, ?_⟩
        simpa using hsract
  · rintro ⟨s, hs, hen, hname, ref, href, hid, hact⟩
    refine ⟨ref, ?_, ?_⟩
    · rw [List.mem_filter]
      exact ⟨href, by simp [hact]⟩
    · have hex : ∃ x ∈ db.syncs, (x.id == ref.syncId && x.sync.enabled) = true :=
        ⟨s, hs, by simp [hid, hen]⟩
      have hsome := List.find?_isSome.mpr hex
      obtain ⟨s', hs'⟩ := Option.isSome_iff_exists.mp hsome
      have hpred := List.find?_some hs'
      rw [Bool.and_eq_true, beq_iff_eq] at hpred
      have heq : s' = s := List.inj_on_of_nodup_map hWF
        (List.mem_of_find?_eq_some hs') hs (by rw [hpred.1, hid])
      rw [hs', heq]
      simp [hname]

theorem tier1SyncSection_ok {db : Store} {p : Proposal} (acc : List ValidationDetail)
    (hsync : ∀ sc, p.syncChanges = some sc →
        ∀ s ∈ sc.added ++ sc.modified, (validateSyncRefs db s).passed = true) :
    tier1SyncSection db p acc = Except.ok () := by
  unfold tier1SyncSection
  split
  · rfl
  · next sc hsc =>
      split
      · next s hs =>
          have hbad := List.find?_some hs
          have hmem := List.mem_of_find?_eq_some hs
          rw [hsync sc hsc s hmem] at hbad
          simp at hbad
      · rfl

/-- C4: with the earlier Tier-1 checks passing (transition legality,
invariants, sync-reference integrity), validation fails with code -4 iff
some enabled synchronization holds a sync-ref on one of the actions listed
in the api-analysis removals; on failure the failing detail's fix enumerates
exactly the names of the enabled syncs referencing the removed action; with
no such reference the orphan check passes. -/
theorem c4_orphan_prevention (db : Store) (p : Proposal)
    (hWF : (db.syncs.map fun s => s.id).Nodup)
    (htrans : ∀ c ∈ GetConceptsForRegion db p.regionPath,
        isLegalTransition c.stateMachine p.currentState p.proposedState p.actionTaken = true)
    (hinv : ∀ c ∈ GetConceptsForRegion db p.regionPath, ∀ inv ∈ c.invariants,
        (checkInvariant inv p.evidence).passed = true)
    (hsync : ∀ sc, p.syncChanges = some sc →
        ∀ s ∈ sc.added ++ sc.modified, (validateSyncRefs db s).passed = true) :
    (((Tier1StateMachine db p).code = -4 ∧ (Tier1StateMachine db p).passed = false) ↔
      ∃ api, p.evidence.apiAnalysis = some api ∧ ∃ rm ∈ api.removals,
        ∃ s ∈ db.syncs, s.sync.enabled = true ∧
          ∃ ref ∈ db.syncRefs, ref.syncId = s.id ∧ ref.actionName = some rm) ∧
    ((Tier1StateMachine db p).code = -4 →
      ∃ rm, (∃ api, p.evidence.apiAnalysis = some api ∧ rm ∈ api.removals) ∧
        findSyncRefsForAction db rm ≠ [] ∧
        (∀ nm, nm ∈ findSyncRefsForAction db rm ↔
          ∃ s ∈ db.syncs, s.sync.enabled = true ∧ s.sync.name = nm ∧
            ∃ ref ∈ db.syncRefs, ref.syncId = s.id ∧ ref.actionName = some rm) ∧
        ∃ d ∈ (Tier1StateMachine db p).details, d.passed = false ∧
          d.fix = "Update syncs " ++ goSliceFmt (findSyncRefsForAction db rm) ++
            " before removing action " ++ rm) := by
  obtain ⟨acc, hok, hall⟩ :
      ∃ acc2, tier1Concepts p (GetConceptsForRegion db p.regionPath) [] = Except.ok acc2 ∧
        ∀ d ∈ acc2, d.passed = true := by
    rcases tier1Concepts_spec p (GetConceptsForRegion db p.regionPath) [] hinv
        (by intro d hd; simp at hd) with
      ⟨acc2, hok, hall, _⟩ | ⟨c, hc, _, hcill, _, _, _⟩
    · exact ⟨acc2, hok, hall⟩
    · rw [htrans c hc] at hcill
      exact absurd hcill (by simp)
  have hss := @tier1SyncSection_ok db p acc hsync
  have hres : Tier1StateMachine db p =
      (match tier1RemovalSection db p acc with
       | Except.error r => r
       | Except.ok _ =>
           { tier := 1, passed := true, code := 0, message := "Tier 1 passed",
             details := acc }) := by
    simp only [Tier1StateMachine, hok, hss]
  have hrefs_ne : ∀ rm, (!(findSyncRefsForAction db rm).isEmpty) = true ↔
      findSyncRefsForAction db rm ≠ [] := by
    intro rm
    cases hfr : findSyncRefsForAction db rm with
    | nil => simp
    | cons x xs => simp
  cases hrs : tier1RemovalSection db p acc with
  | ok u =>
      have hcode : (Tier1StateMachine db p).code = 0 := by
        rw [hres, hrs]
      have hnoref : ¬ ∃ api, p.evidence.apiAnalysis = some api ∧ ∃ rm ∈ api.removals,
          ∃ s ∈ db.syncs, s.sync.enabled = true ∧
            ∃ ref ∈ db.syncRefs, ref.syncId = s.id ∧ ref.actionName = some rm := by
        rintro ⟨api, hapi, rm, hrm, s, hs, hen, ref, href, hid, hact⟩
        have hmem : s.sync.name ∈ findSyncRefsForAction db rm :=
          (mem_findSyncRefsForAction hWF rm s.sync.name).mpr
            ⟨s, hs, hen, rfl, ref, href, hid, hact⟩
        have hne : findSyncRefsForAction db rm ≠ [] := by
          intro hnil
          rw [hnil] at hmem
          simp at hmem
        unfold tier1RemovalSection at hrs
        split at hrs
        · next heq =>
            rw [hapi] at heq
            exact Option.noConfusion heq
        · next api2 heq =>
            have hapi2 : api = api2 := by
              rw [hapi] at heq
              exact Option.some_inj.mp heq
            split at hrs
            · next removed hf => simp at hrs
            · next hf =>
                rw [← hapi2] at hf
                rw [List.find?_eq_none] at hf
                exact hf rm hrm ((hrefs_ne rm).mpr hne)
      constructor
      · constructor
        · rintro ⟨hc4, _⟩
          rw [hcode] at hc4
          exact absurd hc4 (by norm_num)
        · intro h
          exact absurd h hnoref
      · intro hc4
        rw [hcode] at hc4
        exact absurd hc4 (by norm_num)
  | error r =>
      obtain ⟨api, hapi, removed, hfind, hrval⟩ :
          ∃ api, p.evidence.apiAnalysis = some api ∧
            ∃ removed, api.removals.find?
                (fun x => !(findSyncRefsForAction db x).isEmpty) = some removed ∧
              r = removalFailResult db removed acc := by
        unfold tier1RemovalSection at hrs
        split at hrs
        · exact absurd hrs (by simp)
        · next api hapi =>
            split at hrs
            · next removed hf =>
                exact ⟨api, hapi, removed, hf, (Except.error.inj hrs).symm⟩
            · exact absurd hrs (by simp)
      have hrm_mem : removed ∈ api.removals := List.mem_of_find?_eq_some hfind
      have hne : findSyncRefsForAction db removed ≠ [] :=
        (hrefs_ne removed).mp (by simpa using List.find?_some hfind)
      have hresult : Tier1StateMachine db p = removalFailResult db removed acc := by
        rw [hres, hrs, hrval]
      constructor
      · constructor
        · intro _
          obtain ⟨nm, hnm⟩ : ∃ nm, nm ∈ findSyncRefsForAction db removed := by
            cases hfr : findSyncRefsForAction db removed with
            | nil => exact absurd hfr hne
            | cons x xs => exact ⟨x, by simp⟩
          obtain ⟨s, hs, hen, _, ref, href, hid, hact⟩ :=
            (mem_findSyncRefsForAction hWF removed nm).mp hnm
          exact ⟨api, hapi, removed, hrm_mem, s, hs, hen, ref, href, hid, hact⟩
        · intro _
          rw [hresult]
          exact ⟨rfl, rfl⟩
      · intro _
        refine ⟨removed, ⟨api, hapi, hrm_mem⟩, hne,
          fun nm => mem_findSyncRefsForAction hWF removed nm, ?_⟩
        rw [hresult]
        refine ⟨removalFailDetail (findSyncRefsForAction db removed) removed, ?_, rfl, rfl⟩
        show removalFailDetail (findSyncRefsForAction db removed) removed ∈
          acc ++ [removalFailDetail (findSyncRefsForAction db removed) removed]
        simp

/-- C4 witness: removing `query` while `ComputeTier` references it fails with
code -4 and the fix names `ComputeTier`. -/
theorem c4_orphan_prevention_witness :
    ((exC4Store.syncs.map fun s => s.id).Nodup ∧
     (∀ c ∈ GetConceptsForRegion exC4Store exC4Proposal.regionPath,
        isLegalTransition c.stateMachine exC4Proposal.currentState
          exC4Proposal.proposedState exC4Proposal.actionTaken = true) ∧
     (∀ c ∈ GetConceptsForRegion exC4Store exC4Proposal.regionPath, ∀ inv ∈ c.invariants,
        (checkInvariant inv exC4Proposal.evidence).passed = true) ∧
     (∀ sc, exC4Proposal.syncChanges = some sc →
        ∀ s ∈ sc.added ++ sc.modified, (validateSyncRefs exC4Store s).passed = true)) ∧
    ((((Tier1StateMachine exC4Store exC4Proposal).code = -4 ∧
        (Tier1StateMachine exC4Store exC4Proposal).passed = false) ↔
      ∃ api, exC4Proposal.evidence.apiAnalysis = some api ∧ ∃ rm ∈ api.removals,
        ∃ s ∈ exC4Store.syncs, s.sync.enabled = true ∧
          ∃ ref ∈ exC4Store.syncRefs, ref.syncId = s.id ∧ ref.actionName = some rm) ∧
    ((Tier1StateMachine exC4Store exC4Proposal).code = -4 →
      ∃ rm, (∃ api, exC4Proposal.evidence.apiAnalysis = some api ∧ rm ∈ api.removals) ∧
        findSyncRefsForAction exC4Store rm ≠ [] ∧
        (∀ nm, nm ∈ findSyncRefsForAction exC4Store rm ↔
          ∃ s ∈ exC4Store.syncs, s.sync.enabled = true ∧ s.sync.name = nm ∧
            ∃ ref ∈ exC4Store.syncRefs, ref.syncId = s.id ∧ ref.actionName = some rm) ∧
        ∃ d ∈ (Tier1StateMachine exC4Store exC4Proposal).details, d.passed = false ∧
          d.fix = "Update syncs " ++ goSliceFmt (findSyncRefsForAction exC4Store rm) ++
            " before removing action " ++ rm)) :=
  ⟨⟨by decide, by decide, by decide, by decide⟩,
   c4_orphan_prevention exC4Store exC4Proposal (by decide) (by decide) (by decide)
     (by decide)⟩

/-! ### C7: gardener side effects -/
/-- The non-dry loop appends exactly one turn and one task per mechanical
finding, numbering the id supply by position among the mechanical findings,
and touches nothing else. -/
theorem gardenerQueueLoop_spec (now : Nat) (ids : Nat → String) :
    ∀ (l : List GardenFinding) (i : Nat) (db : Store),
      gardenerQueueLoop now ids i l db = { db with
        turns := db.turns ++
          ((l.filter fun f => f.mechanical).enumFrom i).map fun pr =>
            ⟨ids pr.1, "researcher", pr.2.regionPath, "gardener", none, "ACTIVE",
              none, none, now, none⟩,
        queue := db.queue ++
          ((l.filter fun f => f.mechanical).enumFrom i).map fun pr =>
            ⟨ids pr.1, pr.2.regionPath, "", "gardener", pr.2.description⟩ } := by
  intro l
  induction l with
  | nil => intro i db; simp [gardenerQueueLoop]
  | cons f rest ih =>
      intro i db
      by_cases hm : f.mechanical = true
      · rw [gardenerQueueLoop, if_pos hm, ih]
        simp [queueTask, hm, List.enumFrom, List.filter]
      · rw [gardenerQueueLoop, if_neg hm, ih]
        simp [List.filter, Bool.not_eq_true] at hm ⊢
        simp [hm]

/-- RunGardener in dry mode is the identity on the store. -/
theorem runGardener_dry (db : Store) (fs : SourceTree) (now : Nat)
    (ids : Nat → String) :
    RunGardener db fs now true ids = (gardenFindings db fs now, db) := rfl

/-- C7 counterexample: a non-dry sweep returning one non-mechanical finding
leaves the store untouched — the finding is only returned to the caller,
nothing is persisted for human review. -/
theorem c7_counterexample :
    ¬ c7ClaimAsStated exC7Store [] 0 (fun _ => "T0") := by
  unfold c7ClaimAsStated
  decide

/-- C7 (amended): in dry mode RunGardener returns the three sweeps' findings
with no store change; in non-dry mode it returns the same findings and the
only store change is, per mechanical finding, one ACTIVE `gardener` turn and
one `gardener` task message carrying the finding's region and description;
non-mechanical findings produce no store change at all. -/
theorem c7_gardener_side_effects (db : Store) (fs : SourceTree) (now : Nat)
    (ids : Nat → String) :
    RunGardener db fs now true ids = (gardenFindings db fs now, db) ∧
    (RunGardener db fs now false ids).1 = gardenFindings db fs now ∧
    (RunGardener db fs now false ids).2 = { db with
      turns := db.turns ++
        (((gardenFindings db fs now).filter fun f => f.mechanical).enum).map fun pr =>
          ⟨ids pr.1, "researcher", pr.2.regionPath, "gardener", none, "ACTIVE",
            none, none, now, none⟩,
      queue := db.queue ++
        (((gardenFindings db fs now).filter fun f => f.mechanical).enum).map fun pr =>
          ⟨ids pr.1, pr.2.regionPath, "", "gardener", pr.2.description⟩ } := by
  refine ⟨rfl, rfl, ?_⟩
  show (gardenerQueueLoop now ids 0 (gardenFindings db fs now) db) = _
  rw [gardenerQueueLoop_spec]
  rfl

/-! ### C10 and C6: plan scheduler -/
/-- Projection of queueReadyPlanTurns on the queue. -/
theorem queueReady_queue (db : Store) (planId : String) :
    (queueReadyPlanTurns db planId).queue =
      db.queue ++ (db.planTurns.filter (planTurnReady db planId)).map
        (fun pt => (⟨pt.turnId, pt.regionPath, "", "implement", ""⟩ : TaskMessage)) := rfl

/-- Projection of queueReadyPlanTurns on plan_turns. -/
theorem queueReady_planTurns (db : Store) (planId : String) :
    (queueReadyPlanTurns db planId).planTurns =
      db.planTurns.map (fun pt =>
        if pt.planId == planId &&
            ((db.planTurns.filter (planTurnReady db planId)).map
              (fun r => r.turnId)).contains pt.turnId
        then { pt with status := "active" } else pt) := rfl

/-- A row satisfying the spec-side readiness condition passes the code's
NOT EXISTS filter. -/
theorem planTurnReady_of_deps (db : Store) (planId : String) (pt : PlanTurnRow)
    (h2 : pt.planId = planId) (h3 : pt.status = "pending")
    (h4 : ∀ dep ∈ pt.dependsOn, ∀ dpt ∈ db.planTurns,
        dpt.planId = planId → dpt.turnId = dep → dpt.status = "completed") :
    planTurnReady db planId pt = true := by
  unfold planTurnReady
  rw [h2, h3]
  simp only [beq_self_eq_true, Bool.true_and]
  rw [Bool.not_eq_true']
  rw [List.any_eq_false]
  intro dep hdep
  simp only [Bool.not_eq_true]
  rw [List.any_eq_false]
  intro dpt hdpt
  by_cases hturn : dpt.turnId = dep
  · by_cases hplan : dpt.planId = planId
    · have hc := h4 dep hdep dpt hdpt hplan hturn
      simp [hc]
    · simp [hplan]
  · simp [hturn]

/-- The CreatePlan loop appends one pending plan_turns row per input turn,
with the generated id at the input's position and depends_on as given. -/
theorem createPlanFold_planTurns (planId : String) (ids : Nat → String) (now : Nat) :
    ∀ (l : List (Nat × PlanTurnRow)) (acc : Store),
      (l.foldl (fun acc pr =>
        { acc with
          turns := acc.turns ++
            [⟨ids pr.1, "researcher", pr.2.regionPath, "implement", none, "ACTIVE",
              none, none, now, none⟩],
          planTurns := acc.planTurns ++
            [⟨planId, ids pr.1, pr.2.regionPath, pr.2.ordering, pr.2.dependsOn,
              "pending"⟩] }) acc).planTurns
      = acc.planTurns ++ l.map (fun pr =>
          (⟨planId, ids pr.1, pr.2.regionPath, pr.2.ordering, pr.2.dependsOn,
            "pending"⟩ : PlanTurnRow)) := by
  intro l
  induction l with
  | nil => intro acc; simp
  | cons pr rest ih => intro acc; rw [List.foldl_cons, ih]; simp

/-- queueReadyPlanTurns only flips statuses: every stored row keeps its key,
region, ordering and depends_on. -/
theorem queueReady_planTurns_mem (db : Store) (planId : String) (b : PlanTurnRow)
    (hb : b ∈ db.planTurns) :
    ∃ stored, stored ∈ (queueReadyPlanTurns db planId).planTurns ∧
      stored.planId = b.planId ∧ stored.turnId = b.turnId ∧
      stored.regionPath = b.regionPath ∧ stored.ordering = b.ordering ∧
      stored.dependsOn = b.dependsOn := by
  rw [queueReady_planTurns]
  refine ⟨_, List.mem_map_of_mem _ hb, ?_⟩
  show ((if b.planId == planId &&
      ((db.planTurns.filter (planTurnReady db planId)).map
        (fun r => r.turnId)).contains b.turnId
      then { b with status := "active" } else b)).planId = b.planId ∧ _
  by_cases h : (b.planId == planId &&
      ((db.planTurns.filter (planTurnReady db planId)).map
        (fun r => r.turnId)).contains b.turnId) = true
  · rw [if_pos h]
    exact ⟨rfl, rfl, rfl, rfl, rfl⟩
  · rw [if_neg h]
    exact ⟨rfl, rfl, rfl, rfl, rfl⟩

/-- CreatePlan's stored plan_turns, written out. -/
theorem createPlan_planTurns (db : Store) (planId2 name goal : String)
    (turns : List PlanTurnRow) (ids : Nat → String) (now : Nat) :
    (CreatePlan db planId2 name goal turns ids now).2.planTurns =
      (queueReadyPlanTurns (turns.enum.foldl (fun acc pr =>
        { acc with
          turns := acc.turns ++
            [⟨ids pr.1, "researcher", pr.2.regionPath, "implement", none, "ACTIVE",
              none, none, now, none⟩],
          planTurns := acc.planTurns ++
            [⟨planId2, ids pr.1, pr.2.regionPath, pr.2.ordering, pr.2.dependsOn,
              "pending"⟩] })
        { db with plans := db.plans ++ [⟨planId2, name, goal, "ACTIVE", none⟩] })
        planId2).planTurns := rfl

/-- C10: a depends_on id matching no plan-turn row of the plan does not
block release — a pending plan-turn whose matching dependencies are all
completed is pushed onto the queue with its turn id and region — and
CreatePlan performs no validation of depends_on contents: any input is
accepted and stored verbatim, and the returned plan has status ACTIVE. -/
theorem c10_dangling_deps
    (db : Store) (planId : String) (pt : PlanTurnRow)
    (planId2 name goal : String) (turns : List PlanTurnRow)
    (ids : Nat → String) (now : Nat) (i : Nat) (row : PlanTurnRow)
    (h1 : pt ∈ db.planTurns) (h2 : pt.planId = planId)
    (h3 : pt.status = "pending")
    (h4 : ∀ dep ∈ pt.dependsOn, ∀ dpt ∈ db.planTurns,
        dpt.planId = planId → dpt.turnId = dep → dpt.status = "completed")
    (hrow : turns.get? i = some row) :
    (⟨pt.turnId, pt.regionPath, "", "implement", ""⟩ : TaskMessage)
        ∈ (queueReadyPlanTurns db planId).queue ∧
    (CreatePlan db planId2 name goal turns ids now).1
        = (⟨planId2, name, goal, "ACTIVE", none⟩ : PlanRow) ∧
    ∃ stored, stored ∈ (CreatePlan db planId2 name goal turns ids now).2.planTurns ∧
      stored.planId = planId2 ∧ stored.turnId = ids i ∧
      stored.regionPath = row.regionPath ∧ stored.ordering = row.ordering ∧
      stored.dependsOn = row.dependsOn := by
  refine ⟨?_, rfl, ?_⟩
  · rw [queueReady_queue]
    refine List.mem_append_right _ ?_
    exact List.mem_map_of_mem _
      (List.mem_filter.mpr ⟨h1, planTurnReady_of_deps db planId pt h2 h3 h4⟩)
  · have henum : (i, row) ∈ turns.enum := List.mk_mem_enum_iff_get?.mpr hrow
    have hbase :
        (⟨planId2, ids i, row.regionPath, row.ordering, row.dependsOn, "pending"⟩ :
            PlanTurnRow) ∈
          (turns.enum.foldl (fun acc pr =>
            { acc with
              turns := acc.turns ++
                [⟨ids pr.1, "researcher", pr.2.regionPath, "implement", none, "ACTIVE",
                  none, none, now, none⟩],
              planTurns := acc.planTurns ++
                [⟨planId2, ids pr.1, pr.2.regionPath, pr.2.ordering, pr.2.dependsOn,
                  "pending"⟩] })
            ({ db with plans := db.plans ++
                [⟨planId2, name, goal, "ACTIVE", none⟩] } : Store)).planTurns := by
      rw [createPlanFold_planTurns]
      exact List.mem_append_right _ (List.mem_map_of_mem _ henum)
    have hres := queueReady_planTurns_mem _ planId2 _ hbase
    rcases hres with ⟨stored, hsmem, hfields⟩
    refine ⟨stored, ?_, hfields⟩
    rw [createPlan_planTurns]
    exact hsmem

/-- Witness for C10: the dangling dependency "ghost" does not block T1, and
CreatePlan stores an arbitrary depends_on list verbatim. -/
theorem c10_dangling_deps_witness :
    (⟨"T1", "app", "", "implement", ""⟩ : TaskMessage)
        ∈ (queueReadyPlanTurns exC10Store "P").queue ∧
    (CreatePlan exC10Store "P2" "n" "g" [⟨"", "", "r", 1, ["x", "y"], ""⟩]
        (fun _ => "T9") 5).1 = (⟨"P2", "n", "g", "ACTIVE", none⟩ : PlanRow) ∧
    ∃ stored, stored ∈ (CreatePlan exC10Store "P2" "n" "g" [⟨"", "", "r", 1, ["x", "y"], ""⟩]
        (fun _ => "T9") 5).2.planTurns ∧
      stored.planId = "P2" ∧ stored.turnId = "T9" ∧ stored.regionPath = "r" ∧
      stored.ordering = 1 ∧ stored.dependsOn = ["x", "y"] :=
  c10_dangling_deps exC10Store "P" ⟨"P", "T1", "app", 0, ["ghost"], "pending"⟩
    "P2" "n" "g" [⟨"", "", "r", 1, ["x", "y"], ""⟩] (fun _ => "T9") 5 0
    ⟨"", "", "r", 1, ["x", "y"], ""⟩
    (by decide) rfl rfl (by decide) rfl

/-- Remaining projections of queueReadyPlanTurns: only plan_turns and the
queue change. -/
theorem queueReady_plans (db : Store) (planId : String) :
    (queueReadyPlanTurns db planId).plans = db.plans := rfl

/-- UpdatePlanProgress, split into its three effects (plan-turn completion
feeds the release scan; the plan row is completed exactly when the count of
non-completed rows of the plan is zero) plus frame facts. -/
theorem updateProgress_parts (db : Store) (planId turnId : String) (now : Nat) :
    (UpdatePlanProgress db planId turnId now).planTurns =
      (queueReadyPlanTurns ({ db with planTurns := db.planTurns.map (fun pt =>
        if pt.planId == planId && pt.turnId == turnId then { pt with status := "completed" }
        else pt) } : Store) planId).planTurns ∧
    (UpdatePlanProgress db planId turnId now).queue =
      (queueReadyPlanTurns ({ db with planTurns := db.planTurns.map (fun pt =>
        if pt.planId == planId && pt.turnId == turnId then { pt with status := "completed" }
        else pt) } : Store) planId).queue ∧
    (UpdatePlanProgress db planId turnId now).plans =
      (if ((db.planTurns.map (fun pt =>
            if pt.planId == planId && pt.turnId == turnId then { pt with status := "completed" }
            else pt)).filter
          (fun pt => pt.planId == planId && !(pt.status == "completed"))).length = 0
       then db.plans.map (fun pl =>
         if pl.id == planId then { pl with status := "COMPLETED", completedAt := some now }
         else pl)
       else db.plans) ∧
    (UpdatePlanProgress db planId turnId now).turns = db.turns ∧
    (UpdatePlanProgress db planId turnId now).regions = db.regions ∧
    (UpdatePlanProgress db planId turnId now).syncs = db.syncs := by
  simp only [UpdatePlanProgress]
  split
  · exact ⟨rfl, rfl, rfl, rfl, rfl, rfl⟩
  · exact ⟨rfl, rfl, rfl, rfl, rfl, rfl⟩

/-- The code's double-negated readiness scan equals the spec-side universally
quantified condition restricted to matching rows. -/
theorem notAny_eq_decideAll (planId : String) (l : List PlanTurnRow) (deps : List String) :
    (!(deps.any fun dep => l.any fun dpt =>
        dpt.turnId == dep && dpt.planId == planId && !(dpt.status == "completed"))) =
      decide (∀ dep ∈ deps, ∀ dpt ∈ l, dpt.planId = planId → dpt.turnId = dep →
        dpt.status = "completed") := by
  by_cases hp : ∀ dep ∈ deps, ∀ dpt ∈ l, dpt.planId = planId → dpt.turnId = dep →
      dpt.status = "completed"
  · rw [decide_eq_true hp, Bool.not_eq_true']
    rw [List.any_eq_false]
    intro dep hdep
    simp only [Bool.not_eq_true]
    rw [List.any_eq_false]
    intro dpt hdpt
    by_cases hturn : dpt.turnId = dep
    · by_cases hplan : dpt.planId = planId
      · simp [hp dep hdep dpt hdpt hplan hturn]
      · simp [hplan]
    · simp [hturn]
  · rw [decide_eq_false hp]
    push_neg at hp
    obtain ⟨dep, hdep, dpt, hdpt, hplan, hturn, hstat⟩ := hp
    rw [Bool.not_eq_false']
    rw [List.any_eq_true]
    refine ⟨dep, hdep, ?_⟩
    rw [List.any_eq_true]
    exact ⟨dpt, hdpt, by simp [hplan, hturn, hstat]⟩

/-- planTurnReady in spec form. -/
theorem planTurnReady_eq_decide (db : Store) (planId : String) (pt : PlanTurnRow) :
    planTurnReady db planId pt =
      (pt.planId == planId && pt.status == "pending" &&
        decide (∀ dep ∈ pt.dependsOn, ∀ dpt ∈ db.planTurns, dpt.planId = planId →
          dpt.turnId = dep → dpt.status = "completed")) := by
  unfold planTurnReady
  rw [notAny_eq_decideAll]

/-- The spec-side completion mark agrees with the code's boolean guard. -/
theorem specCompleteMark_eq_code (planId turnId : String) (pt : PlanTurnRow) :
    (if pt.planId == planId && pt.turnId == turnId
     then { pt with status := "completed" } else pt) = specCompleteMark planId turnId pt := by
  unfold specCompleteMark
  by_cases h1 : pt.planId = planId
  · by_cases h2 : pt.turnId = turnId
    · simp [h1, h2]
    · simp [h1, h2]
  · simp [h1]

/-- The completion mark keeps every row's (plan, turn) key. -/
theorem specCompleteMark_key (planId turnId : String) (pt : PlanTurnRow) :
    (specCompleteMark planId turnId pt).planId = pt.planId ∧
    (specCompleteMark planId turnId pt).turnId = pt.turnId := by
  unfold specCompleteMark
  by_cases h : pt.planId = planId ∧ pt.turnId = turnId
  · rw [if_pos h]; exact ⟨rfl, rfl⟩
  · rw [if_neg h]; exact ⟨rfl, rfl⟩

/-- C6 (amended): UpdatePlanProgress completes the named plan-turn; the plan
row is marked COMPLETED with completed_at set exactly when no row of the plan
remains with status other than completed; and exactly those pending rows of
the plan are flipped to active and pushed (with their turn id and region)
whose every depends_on id that matches a plan-turn of the plan has all
matching rows completed.  Nothing else in the store changes. -/
theorem c6_plan_progress (db : Store) (planId turnId : String) (now : Nat)
    (hkeys : (db.planTurns.map fun pt => (pt.planId, pt.turnId)).Nodup) :
    ∃ done ready,
      done = db.planTurns.map (specCompleteMark planId turnId) ∧
      ready = done.filter (specReady done planId) ∧
      (UpdatePlanProgress db planId turnId now).planTurns
        = done.map (fun pt => if pt ∈ ready then { pt with status := "active" } else pt) ∧
      (UpdatePlanProgress db planId turnId now).queue
        = db.queue ++ ready.map
            (fun pt => (⟨pt.turnId, pt.regionPath, "", "implement", ""⟩ : TaskMessage)) ∧
      (UpdatePlanProgress db planId turnId now).plans
        = (if ∀ pt ∈ done, pt.planId = planId → pt.status = "completed"
           then db.plans.map (fun pl =>
             if pl.id = planId then { pl with status := "COMPLETED", completedAt := some now }
             else pl)
           else db.plans) ∧
      (UpdatePlanProgress db planId turnId now).turns = db.turns ∧
      (UpdatePlanProgress db planId turnId now).regions = db.regions ∧
      (UpdatePlanProgress db planId turnId now).syncs = db.syncs := by
  obtain ⟨hPT, hQ, hPL, hTu, hRe, hSy⟩ := updateProgress_parts db planId turnId now
  have hdone : db.planTurns.map (fun pt =>
      if pt.planId == planId && pt.turnId == turnId
      then { pt with status := "completed" } else pt)
      = db.planTurns.map (specCompleteMark planId turnId) :=
    List.map_congr_left (fun pt _ => specCompleteMark_eq_code planId turnId pt)
  rw [hdone] at hPT hQ hPL
  have hpred : ∀ pt ∈ db.planTurns.map (specCompleteMark planId turnId),
      planTurnReady ({ db with
          planTurns := db.planTurns.map (specCompleteMark planId turnId) } : Store) planId pt
        = specReady (db.planTurns.map (specCompleteMark planId turnId)) planId pt := by
    intro pt _
    rw [planTurnReady_eq_decide]
    rfl
  have hkeysdone : ((db.planTurns.map (specCompleteMark planId turnId)).map
      fun pt => (pt.planId, pt.turnId)).Nodup := by
    rw [List.map_map]
    have h : ∀ pt ∈ db.planTurns,
        ((fun pt => (pt.planId, pt.turnId)) ∘ specCompleteMark planId turnId) pt
          = (pt.planId, pt.turnId) := by
      intro pt _
      have hk := specCompleteMark_key planId turnId pt
      show ((specCompleteMark planId turnId pt).planId,
        (specCompleteMark planId turnId pt).turnId) = _
      rw [hk.1, hk.2]
    rw [List.map_congr_left h]
    exact hkeys
  refine ⟨db.planTurns.map (specCompleteMark planId turnId),
    (db.planTurns.map (specCompleteMark planId turnId)).filter
      (specReady (db.planTurns.map (specCompleteMark planId turnId)) planId),
    rfl, rfl, ?_, ?_, ?_, hTu, hRe, hSy⟩
  · rw [hPT, queueReady_planTurns]
    show List.map _ (db.planTurns.map (specCompleteMark planId turnId)) = _
    rw [List.filter_congr hpred]
    refine List.map_congr_left ?_
    intro pt hpt
    by_cases hm : pt ∈ (db.planTurns.map (specCompleteMark planId turnId)).filter
        (specReady (db.planTurns.map (specCompleteMark planId turnId)) planId)
    · have hb := (List.mem_filter.mp hm).2
      unfold specReady at hb
      simp only [Bool.and_eq_true] at hb
      have hcont : pt.turnId ∈ (List.filter
          (specReady (db.planTurns.map (specCompleteMark planId turnId)) planId)
          (db.planTurns.map (specCompleteMark planId turnId))).map (fun r => r.turnId) :=
        List.mem_map_of_mem _ hm
      rw [if_pos, if_pos hm]
      simp only [Bool.and_eq_true]
      exact ⟨hb.1.1, List.elem_eq_true_of_mem hcont⟩
    · rw [if_neg, if_neg hm]
      intro hc
      simp only [Bool.and_eq_true] at hc
      obtain ⟨hpid, hcont⟩ := hc
      have hmemk := List.mem_of_elem_eq_true hcont
      obtain ⟨r, hr, hrt⟩ := List.mem_map.mp hmemk
      have hrb := (List.mem_filter.mp hr).2
      unfold specReady at hrb
      simp only [Bool.and_eq_true] at hrb
      have hrdone := (List.mem_filter.mp hr).1
      have hkeyeq : (fun pt => (pt.planId, pt.turnId)) r
          = (fun pt => (pt.planId, pt.turnId)) pt := by
        show (r.planId, r.turnId) = (pt.planId, pt.turnId)
        rw [eq_of_beq hrb.1.1, eq_of_beq hpid, hrt]
      have heqr := List.inj_on_of_nodup_map hkeysdone hrdone hpt hkeyeq
      exact hm (heqr ▸ hr)
  · rw [hQ, queueReady_queue]
    show db.queue ++ _ = _
    rw [List.filter_congr hpred]
  · rw [hPL]
    have hcond : (((db.planTurns.map (specCompleteMark planId turnId)).filter
        (fun pt => pt.planId == planId && !(pt.status == "completed"))).length = 0)
        ↔ (∀ pt ∈ db.planTurns.map (specCompleteMark planId turnId),
          pt.planId = planId → pt.status = "completed") := by
      rw [List.length_eq_zero, List.filter_eq_nil_iff]
      constructor
      · intro h pt hpt hpid
        have hnp := h pt hpt
        by_cases hs : pt.status = "completed"
        · exact hs
        · exact absurd (by simp [hpid, hs]) hnp
      · intro h pt hpt
        by_cases hpid : pt.planId = planId
        · simp [h pt hpt hpid]
        · simp [hpid]
    have hplfun : ∀ pl ∈ db.plans,
        (if pl.id == planId
         then { pl with status := "COMPLETED", completedAt := some now } else pl)
        = (if pl.id = planId
           then { pl with status := "COMPLETED", completedAt := some now } else pl) := by
      intro pl _
      by_cases h : pl.id = planId
      · simp [h]
      · simp [h]
    rw [if_congr hcond (List.map_congr_left hplfun) rfl]

/-- C6 counterexample: "ghost" matches no plan-turn row, so it has no
corresponding completed plan-turn, yet T1 is pushed onto the queue — the
code's NOT EXISTS filter treats an id matching no row as satisfied. -/
theorem c6_counterexample : ¬ c6ClaimAsStated exC6Store "P" "T0" 9 := by
  unfold c6ClaimAsStated
  decide

/-- Witness for C6 at a concrete plan state. -/
theorem c6_plan_progress_witness :
    ∃ done ready,
      done = exC6WStore.planTurns.map (specCompleteMark "Q" "U1") ∧
      ready = done.filter (specReady done "Q") ∧
      (UpdatePlanProgress exC6WStore "Q" "U1" 3).planTurns
        = done.map (fun pt => if pt ∈ ready then { pt with status := "active" } else pt) ∧
      (UpdatePlanProgress exC6WStore "Q" "U1" 3).queue
        = exC6WStore.queue ++ ready.map
            (fun pt => (⟨pt.turnId, pt.regionPath, "", "implement", ""⟩ : TaskMessage)) ∧
      (UpdatePlanProgress exC6WStore "Q" "U1" 3).plans
        = (if ∀ pt ∈ done, pt.planId = "Q" → pt.status = "completed"
           then exC6WStore.plans.map (fun pl =>
             if pl.id = "Q" then { pl with status := "COMPLETED", completedAt := some 3 }
             else pl)
           else exC6WStore.plans) ∧
      (UpdatePlanProgress exC6WStore "Q" "U1" 3).turns = exC6WStore.turns ∧
      (UpdatePlanProgress exC6WStore "Q" "U1" 3).regions = exC6WStore.regions ∧
      (UpdatePlanProgress exC6WStore "Q" "U1" 3).syncs = exC6WStore.syncs :=
  c6_plan_progress exC6WStore "Q" "U1" 3 (by decide)

/-! ### C2: the turn-end validation gate -/
/-- The most-recent-active-turn scan only returns ACTIVE rows of the table. -/
theorem findActiveTurn_aux :
    ∀ (l : List TurnRow) (acc : Option TurnRow) (t : TurnRow),
      l.foldl (fun acc t =>
        if t.status == "ACTIVE" then
          match acc with
          | none => some t
          | some best => if best.createdAt < t.createdAt then some t else acc
        else acc) acc = some t →
      acc = some t ∨ (t ∈ l ∧ t.status = "ACTIVE") := by
  intro l
  induction l with
  | nil => intro acc t h; exact Or.inl h
  | cons x xs ih =>
      intro acc t h
      rw [List.foldl_cons] at h
      rcases ih _ t h with hacc | hgood
      · by_cases hx : (x.status == "ACTIVE") = true
        · rw [if_pos hx] at hacc
          cases acc with
          | none =>
              have hxt : x = t := by
                have := hacc
                simpa using this
              exact Or.inr ⟨hxt ▸ List.mem_cons_self x xs, hxt ▸ eq_of_beq hx⟩
          | some best =>
              have hacc2 : (if best.createdAt < x.createdAt then some x else some best)
                  = some t := hacc
              by_cases hlt : best.createdAt < x.createdAt
              · rw [if_pos hlt] at hacc2
                have hxt : x = t := by simpa using hacc2
                exact Or.inr ⟨hxt ▸ List.mem_cons_self x xs, hxt ▸ eq_of_beq hx⟩
              · rw [if_neg hlt] at hacc2
                exact Or.inl hacc2
        · rw [if_neg hx] at hacc
          exact Or.inl hacc
      · exact Or.inr ⟨List.mem_cons_of_mem _ hgood.1, hgood.2⟩

/-- A found active turn is an ACTIVE row of the turns table. -/
theorem findActiveTurn_mem (db : Store) (t : TurnRow)
    (h : findActiveTurn db = some t) : t ∈ db.turns ∧ t.status = "ACTIVE" := by
  unfold findActiveTurn at h
  rcases findActiveTurn_aux db.turns none t h with hacc | hgood
  · exact absurd hacc (by simp)
  · exact hgood

/-- Every key of an extended snapshot is the added path or an existing key. -/
theorem mem_snapAdd :
    ∀ (s : List (String × List String)) (p loc : String) (pr : String × List String),
      pr ∈ snapAdd s p loc → pr.1 = p ∨ ∃ q ∈ s, pr.1 = q.1 := by
  intro s
  induction s with
  | nil =>
      intro p loc pr h
      simp only [snapAdd, List.mem_singleton] at h
      exact Or.inl (by rw [h])
  | cons hd tl ih =>
      intro p loc pr h
      obtain ⟨q, locs⟩ := hd
      by_cases he : q = p
      · rw [show snapAdd ((q, locs) :: tl) p loc = (q, locs ++ [loc]) :: tl from by
          simp [snapAdd, he]] at h
        rcases List.mem_cons.mp h with h1 | h2
        · exact Or.inl (by rw [h1, he])
        · exact Or.inr ⟨pr, List.mem_cons_of_mem _ h2, rfl⟩
      · rw [show snapAdd ((q, locs) :: tl) p loc = (q, locs) :: snapAdd tl p loc from by
          simp [snapAdd, he]] at h
        rcases List.mem_cons.mp h with h1 | h2
        · exact Or.inr ⟨(q, locs), List.mem_cons_self _ _, by rw [h1]⟩
        · rcases ih p loc pr h2 with h3 | ⟨q2, hq2, hp2⟩
          · exact Or.inl h3
          · exact Or.inr ⟨q2, List.mem_cons_of_mem _ hq2, hp2⟩

/-- Every key of the folded snapshot comes from a marker path (or from the
initial snapshot). -/
theorem snapshot_key_from_marker :
    ∀ (ms : List RegionMarker) (s : List (String × List String))
      (pr : String × List String),
      pr ∈ ms.foldl (fun snap m => snapAdd snap m.path (markerLoc m)) s →
      (∃ q ∈ s, pr.1 = q.1) ∨ ∃ m ∈ ms, m.path = pr.1 := by
  intro ms
  induction ms with
  | nil => intro s pr h; exact Or.inl ⟨pr, h, rfl⟩
  | cons m rest ih =>
      intro s pr h
      rw [List.foldl_cons] at h
      rcases ih _ pr h with ⟨q, hq, hpq⟩ | ⟨m2, hm2, hp2⟩
      · rcases mem_snapAdd _ _ _ _ hq with h1 | ⟨q2, hq2, hpq2⟩
        · exact Or.inr ⟨m, List.mem_cons_self _ _, by rw [hpq, h1]⟩
        · exact Or.inl ⟨q2, hq2, hpq.trans hpq2⟩
      · exact Or.inr ⟨m2, List.mem_cons_of_mem _ hm2, hp2⟩

/-- Every region path of the tree snapshot carries a scanned source marker. -/
theorem snapshot_key_marker (fs : SourceTree) (pr : String × List String)
    (h : pr ∈ captureTreeSnapshot fs) :
    ∃ m ∈ (scanDirectoryM fs).1, m.path = pr.1 := by
  unfold captureTreeSnapshot at h
  rcases snapshot_key_from_marker _ _ _ h with ⟨q, hq, _⟩ | hm
  · exact absurd hq (List.not_mem_nil q)
  · exact hm

/-- ValidateArchAlignment, written out as the four issue groups. -/
theorem validateArchAlignment_eq (archLines : List String) (fs : SourceTree) :
    ValidateArchAlignment archLines fs =
      ValidateArchNamespaces archLines ++ (scanDirectoryM fs).2 ++
      ((scanDirectoryM fs).1.filterMap fun m =>
        if (ParseArchMd archLines).contains m.path then none
        else some ("region " ++ m.path ++ " found in source (" ++ m.file ++ ":" ++
          toString m.startLine ++ ") but not in arch.md — add it to arch.md")) ++
      ((ParseArchMd archLines).filterMap fun p =>
        if ((scanDirectoryM fs).1.map fun m => m.path).contains p then none
        else some ("arch.md declares " ++ p ++
          " but no source region markers found — either add @region:" ++ p ++
          " markers to source or remove from arch.md")) := rfl

/-- C2: with validation on, any namespace issue, marker warning, or source
region missing from arch.md blocks `turn end`: the result is a blocked
outcome carrying a non-empty issue list, the store is unchanged, and the
found turn is still an ACTIVE row of the unchanged store. -/
theorem c2_turn_end_gate (db : Store) (fs : SourceTree) (archLines : List String)
    (scratchpad : String) (now : Nat) (t : TurnRow)
    (hactive : findActiveTurn db = some t)
    (hbad : ValidateArchNamespaces archLines ≠ [] ∨ (scanDirectoryM fs).2 ≠ [] ∨
      ∃ p ∈ (captureTreeSnapshot fs).map Prod.fst, p ∉ ParseArchMd archLines) :
    (∃ issues, issues ≠ [] ∧
      ((turnEnd db fs archLines scratchpad false now).1 = TurnEndResult.blockedArch issues ∨
       (turnEnd db fs archLines scratchpad false now).1 = TurnEndResult.blockedMarkers issues ∨
       (turnEnd db fs archLines scratchpad false now).1
         = TurnEndResult.blockedUnregistered issues)) ∧
    (turnEnd db fs archLines scratchpad false now).2 = db ∧
    t ∈ db.turns ∧ t.status = "ACTIVE" := by
  have hmem := findActiveTurn_mem db t hactive
  have harchne : ValidateArchAlignment archLines fs ≠ [] := by
    rw [validateArchAlignment_eq]
    rcases hbad with h1 | h2 | ⟨p, hp, hnot⟩
    · intro hnil
      simp only [List.append_eq_nil] at hnil
      exact h1 hnil.1.1.1
    · intro hnil
      simp only [List.append_eq_nil] at hnil
      exact h2 hnil.1.1.2
    · obtain ⟨pr, hpr, hpeq⟩ := List.mem_map.mp hp
      obtain ⟨m, hm, hmp⟩ := snapshot_key_marker fs pr hpr
      have hcf : (ParseArchMd archLines).contains m.path = false := by
        cases hc : (ParseArchMd archLines).contains m.path
        · rfl
        · exfalso
          apply hnot
          have hmemp : m.path ∈ ParseArchMd archLines := List.mem_of_elem_eq_true hc
          rw [hmp, hpeq] at hmemp
          exact hmemp
      have hmsg : ("region " ++ m.path ++ " found in source (" ++ m.file ++ ":" ++
          toString m.startLine ++ ") but not in arch.md — add it to arch.md")
          ∈ (scanDirectoryM fs).1.filterMap fun m =>
            if (ParseArchMd archLines).contains m.path then none
            else some ("region " ++ m.path ++ " found in source (" ++ m.file ++ ":" ++
              toString m.startLine ++ ") but not in arch.md — add it to arch.md") :=
        List.mem_filterMap.mpr ⟨m, hm, by rw [hcf]; rfl⟩
      exact List.ne_nil_of_mem
        (List.mem_append_left _ (List.mem_append_right _ hmsg))
  obtain ⟨i, is, harch⟩ : ∃ i is, ValidateArchAlignment archLines fs = i :: is := by
    cases harch : ValidateArchAlignment archLines fs with
    | nil => exact absurd harch harchne
    | cons i is => exact ⟨i, is, rfl⟩
  refine ⟨⟨i :: is, List.cons_ne_nil i is, Or.inl ?_⟩, ?_, hmem.1, hmem.2⟩
  · simp [turnEnd, hactive, harch]
  · simp [turnEnd, hactive, harch]

/-- Witness for C2: a source region absent from arch.md blocks `turn end`
and leaves the store untouched. -/
theorem c2_turn_end_gate_witness :
    (∃ issues, issues ≠ [] ∧
      ((turnEnd exC2Store exC2fs [] "done" false 1).1 = TurnEndResult.blockedArch issues ∨
       (turnEnd exC2Store exC2fs [] "done" false 1).1 = TurnEndResult.blockedMarkers issues ∨
       (turnEnd exC2Store exC2fs [] "done" false 1).1
         = TurnEndResult.blockedUnregistered issues)) ∧
    (turnEnd exC2Store exC2fs [] "done" false 1).2 = exC2Store ∧
    exC2Turn ∈ exC2Store.turns ∧ exC2Turn.status = "ACTIVE" :=
  c2_turn_end_gate exC2Store exC2fs [] "done" 1 exC2Turn (by decide)
    (Or.inr (Or.inr (by decide)))

/-- regionIdByPath only reads the regions table. -/
theorem regionIdByPath_congr (a b : Store) (p : String) (h : a.regions = b.regions) :
    regionIdByPath a p = regionIdByPath b p := by
  unfold regionIdByPath
  rw [h]

/-- With unique region ids, a region id determines the path. -/
theorem regionIdByPath_inj (db0 : Store)
    (hreg : (db0.regions.map fun r => r.id).Nodup)
    (p q : String) (rid : Nat) (hp : regionIdByPath db0 p = some rid)
    (hq : regionIdByPath db0 q = some rid) : p = q := by
  unfold regionIdByPath at hp hq
  cases hfp : db0.regions.find? (fun r => r.path == p) with
  | none => rw [hfp] at hp; exact absurd hp (by simp)
  | some r1 =>
      cases hfq : db0.regions.find? (fun r => r.path == q) with
      | none => rw [hfq] at hq; exact absurd hq (by simp)
      | some r2 =>
          rw [hfp] at hp
          rw [hfq] at hq
          have hid1 : r1.id = rid := by simpa using hp
          have hid2 : r2.id = rid := by simpa using hq
          have hm1 := List.mem_of_find?_eq_some hfp
          have hm2 := List.mem_of_find?_eq_some hfq
          have hp1 : (r1.path == p) = true := by simpa using List.find?_some hfp
          have hp2 : (r2.path == q) = true := by simpa using List.find?_some hfq
          have h12 : r1 = r2 :=
            List.inj_on_of_nodup_map hreg hm1 hm2 (by rw [hid1, hid2])
          rw [← eq_of_beq hp1, ← eq_of_beq hp2, h12]

/-- A stored key is seen by snapHas. -/
theorem snapHas_of_mem (snap : List (String × List String))
    (pr : String × List String) (h : pr ∈ snap) : snapHas snap pr.1 = true := by
  unfold snapHas
  rw [List.any_eq_true]
  exact ⟨pr, h, beq_self_eq_true pr.1⟩

/-- Key evolution of snapAdd. -/
theorem snapAdd_keys :
    ∀ (s : List (String × List String)) (p loc : String),
      (snapAdd s p loc).map Prod.fst =
        if p ∈ s.map Prod.fst then s.map Prod.fst else s.map Prod.fst ++ [p] := by
  intro s
  induction s with
  | nil => intro p loc; simp [snapAdd]
  | cons hd tl ih =>
      intro p loc
      obtain ⟨q, locs⟩ := hd
      by_cases he : q = p
      · rw [show snapAdd ((q, locs) :: tl) p loc = (q, locs ++ [loc]) :: tl from by
          simp [snapAdd, he]]
        rw [if_pos (by rw [he]; exact List.mem_cons_self _ _)]
        rfl
      · by_cases hm : p ∈ tl.map Prod.fst
        · simp [snapAdd, he, Ne.symm he, hm, ih p loc]
        · simp [snapAdd, he, Ne.symm he, hm, ih p loc]

/-- The snapshot fold keeps the key list duplicate-free. -/
theorem snapKeys_nodup :
    ∀ (ms : List RegionMarker) (s : List (String × List String)),
      (s.map Prod.fst).Nodup →
      ((ms.foldl (fun snap m => snapAdd snap m.path (markerLoc m)) s).map
        Prod.fst).Nodup := by
  intro ms
  induction ms with
  | nil => intro s h; exact h
  | cons m rest ih =>
      intro s h
      rw [List.foldl_cons]
      refine ih _ ?_
      rw [snapAdd_keys]
      by_cases hm : m.path ∈ s.map Prod.fst
      · rw [if_pos hm]; exact h
      · rw [if_neg hm]
        rw [← List.concat_eq_append]
        exact h.concat hm

/-- The tree snapshot has duplicate-free keys. -/
theorem captureTreeSnapshot_keys_nodup (fs : SourceTree) :
    ((captureTreeSnapshot fs).map Prod.fst).Nodup := by
  unfold captureTreeSnapshot
  exact snapKeys_nodup _ [] (by simp)

/-- The deleted-scan of recordTurnRegions is a no-op when every key is
still present afterwards. -/
theorem deletedLoop_id (tid : String) (aft : Snapshot) :
    ∀ (b : List (String × List String)) (acc : Store),
      (∀ pr ∈ b, snapHas aft pr.1 = true) →
      b.foldl (fun acc pr =>
        if snapHas aft pr.1 then acc
        else
          match regionIdByPath acc pr.1 with
          | some rid => upsertTurnRegion acc tid rid "deleted"
          | none => acc) acc = acc := by
  intro b
  induction b with
  | nil => intro acc _; rfl
  | cons pr rest ih =>
      intro acc h
      rw [List.foldl_cons, if_pos (h pr (List.mem_cons_self _ _))]
      exact ih acc (fun q hq => h q (List.mem_cons_of_mem _ hq))

/-- The after-scan of recordTurnRegions, for a fresh turn id over a
duplicate-free snapshot whose keys are all present in `snap`: it appends
exactly one `modified` row per key with a regions-table row. -/
theorem modifiedLoop (tid : String) (snap : Snapshot) (db0 : Store)
    (hreg : (db0.regions.map fun r => r.id).Nodup) :
    ∀ (l : List (String × List String)) (acc : Store),
      acc.regions = db0.regions →
      (∀ pr ∈ l, snapHas snap pr.1 = true) →
      ((l.map Prod.fst).Nodup) →
      (∀ pr ∈ l, ∀ rid, regionIdByPath db0 pr.1 = some rid →
        ∀ tr ∈ acc.turnRegions, ¬(tr.turnId = tid ∧ tr.regionId = rid)) →
      l.foldl (fun acc pr =>
        match regionIdByPath acc pr.1 with
        | some rid => upsertTurnRegion acc tid rid
            (if snapHas snap pr.1 then "modified" else "created")
        | none => acc) acc
      = { acc with turnRegions := acc.turnRegions ++
            l.filterMap fun pr => (regionIdByPath db0 pr.1).map fun rid =>
              (⟨tid, rid, "modified"⟩ : TurnRegionRow) } := by
  intro l
  induction l with
  | nil => intro acc _ _ _ _; simp
  | cons pr rest ih =>
      intro acc hregs hall hnodup hnotyet
      rw [List.foldl_cons]
      have hstep : regionIdByPath acc pr.1 = regionIdByPath db0 pr.1 :=
        regionIdByPath_congr acc db0 pr.1 hregs
      cases hrid : regionIdByPath db0 pr.1 with
      | none =>
          rw [show (match regionIdByPath acc pr.1 with
            | some rid => upsertTurnRegion acc tid rid
                (if snapHas snap pr.1 then "modified" else "created")
            | none => acc) = acc from by rw [hstep, hrid]]
          rw [ih acc hregs (fun q hq => hall q (List.mem_cons_of_mem _ hq))
            (by exact (List.nodup_cons.mp hnodup).2)
            (fun q hq => hnotyet q (List.mem_cons_of_mem _ hq))]
          congr 1
          simp [List.filterMap_cons, hrid]
      | some rid =>
          have hup : (match regionIdByPath acc pr.1 with
              | some r => upsertTurnRegion acc tid r
                  (if snapHas snap pr.1 then "modified" else "created")
              | none => acc)
              = upsertTurnRegion acc tid rid "modified" := by
            rw [hstep, hrid, if_pos (hall pr (List.mem_cons_self _ _))]
          rw [hup]
          have hany : (acc.turnRegions.any fun tr =>
              tr.turnId == tid && tr.regionId == rid) = false := by
            rw [List.any_eq_false]
            intro tr htr hc
            simp only [Bool.and_eq_true] at hc
            exact hnotyet pr (List.mem_cons_self _ _) rid hrid tr htr
              ⟨eq_of_beq hc.1, eq_of_beq hc.2⟩
          have hupeq : upsertTurnRegion acc tid rid "modified"
              = { acc with turnRegions := acc.turnRegions ++ [⟨tid, rid, "modified"⟩] } := by
            unfold upsertTurnRegion
            rw [if_neg (by rw [hany]; exact Bool.false_ne_true)]
          rw [hupeq]
          rw [ih _ (by exact hregs)
            (fun q hq => hall q (List.mem_cons_of_mem _ hq))
            (by exact (List.nodup_cons.mp hnodup).2)
            ?hfreshrest]
          case hfreshrest =>
            intro q hq rid2 hrid2 tr htr hcontr
            rcases List.mem_append.mp htr with hold | hnew
            · exact hnotyet q (List.mem_cons_of_mem _ hq) rid2 hrid2 tr hold hcontr
            · have htr2 : tr = (⟨tid, rid, "modified"⟩ : TurnRegionRow) := by
                simpa using hnew
              have hrideq : rid2 = rid := by
                rw [htr2] at hcontr
                exact hcontr.2.symm
              have hpq : pr.1 = q.1 :=
                regionIdByPath_inj db0 hreg pr.1 q.1 rid hrid (hrideq ▸ hrid2)
              have hq1 : q.1 ∈ rest.map Prod.fst := List.mem_map_of_mem _ hq
              exact (List.nodup_cons.mp hnodup).1 (hpq ▸ hq1)
          congr 1
          simp [List.filterMap_cons, hrid, List.append_assoc]

/-- recordTurnRegions of an unchanged snapshot under a fresh turn id: the
turn-region log gains exactly one `modified` row per snapshot region with a
regions-table row, and nothing else changes. -/
theorem recordTurnRegions_self (db1 : Store) (tid : String) (snap : Snapshot)
    (hreg : (db1.regions.map fun r => r.id).Nodup)
    (hkeys : (snap.map Prod.fst).Nodup)
    (hfresh : ∀ tr ∈ db1.turnRegions, tr.turnId ≠ tid) :
    recordTurnRegions db1 tid (some snap) snap
      = { db1 with turnRegions := db1.turnRegions ++ snapModifiedRows db1 tid snap } := by
  show snap.foldl (fun acc pr =>
      if snapHas snap pr.1 then acc
      else
        match regionIdByPath acc pr.1 with
        | some rid => upsertTurnRegion acc tid rid "deleted"
        | none => acc)
    (snap.foldl (fun acc pr =>
      match regionIdByPath acc pr.1 with
      | some rid => upsertTurnRegion acc tid rid
          (if snapHas snap pr.1 then "modified" else "created")
      | none => acc) db1) = _
  rw [modifiedLoop tid snap db1 hreg snap db1 rfl
    (fun pr hpr => snapHas_of_mem snap pr hpr) hkeys
    (fun pr _ rid _ tr htr hc => hfresh tr htr hc.1)]
  rw [deletedLoop_id tid snap snap _ (fun pr hpr => snapHas_of_mem snap pr hpr)]
  rfl

/-- With no ACTIVE rows the most-recent-active scan stays empty. -/
theorem foldl_none_of_no_active :
    ∀ (l : List TurnRow),
      (∀ u ∈ l, u.status ≠ "ACTIVE") →
      l.foldl (fun acc t =>
        if t.status == "ACTIVE" then
          match acc with
          | none => some t
          | some best => if best.createdAt < t.createdAt then some t else acc
        else acc) none = none := by
  intro l
  induction l with
  | nil => intro _; rfl
  | cons x xs ih =>
      intro h
      rw [List.foldl_cons]
      have hx : ¬((x.status == "ACTIVE") = true) := by
        intro hb
        exact h x (List.mem_cons_self x xs) (eq_of_beq hb)
      rw [if_neg hx]
      exact ih (fun u hu => h u (List.mem_cons_of_mem _ hu))

/-- Appending a single ACTIVE turn to a store without one makes it the most
recent active turn. -/
theorem findActiveTurn_fresh (db : Store) (t : TurnRow)
    (hno : ∀ u ∈ db.turns, u.status ≠ "ACTIVE") (ht : t.status = "ACTIVE") :
    findActiveTurn ({ db with turns := db.turns ++ [t] } : Store) = some t := by
  unfold findActiveTurn
  show (db.turns ++ [t]).foldl _ none = some t
  rw [List.foldl_append, foldl_none_of_no_active db.turns hno]
  show (if t.status == "ACTIVE" then some t else none) = some t
  rw [if_pos (by rw [ht]; exact beq_self_eq_true _)]

/-- C5 (amended): a turn started and immediately ended with no file changes
succeeds, its tree_after equals its tree_before, and the turn-region log
gains exactly one `modified` row per snapshot region that has a
regions-table row (no created or deleted rows). -/
theorem c5_empty_turn (db : Store) (fs : SourceTree) (archLines : List String)
    (regionPath turnId scratchpad : String) (now0 now1 : Nat)
    (hno : ∀ u ∈ db.turns, u.status ≠ "ACTIVE")
    (harch : ValidateArchAlignment archLines fs = [])
    (hreg : (db.regions.map fun r => r.id).Nodup)
    (hfresh : ∀ tr ∈ db.turnRegions, tr.turnId ≠ turnId) :
    (turnEnd (turnStart db fs regionPath turnId now0) fs archLines scratchpad
        false now1).1 = TurnEndResult.completed ∧
    (∃ trow ∈ (turnEnd (turnStart db fs regionPath turnId now0) fs archLines scratchpad
        false now1).2.turns,
      trow.id = turnId ∧ trow.status = "COMPLETED" ∧
      trow.treeBefore = some (captureTreeSnapshot fs) ∧
      trow.treeAfter = trow.treeBefore) ∧
    (turnEnd (turnStart db fs regionPath turnId now0) fs archLines scratchpad
        false now1).2.turnRegions
      = db.turnRegions ++ snapModifiedRows db turnId (captureTreeSnapshot fs) := by
  have hactive : findActiveTurn (turnStart db fs regionPath turnId now0)
      = some ⟨turnId, "researcher", regionPath, "implement", none, "ACTIVE",
          some (captureTreeSnapshot fs), none, now0, none⟩ :=
    findActiveTurn_fresh db _ hno rfl
  have hva := validateArchAlignment_eq archLines fs
  rw [harch] at hva
  have h1 := List.append_eq_nil.mp hva.symm
  have h2 := List.append_eq_nil.mp h1.1
  have h3 := List.append_eq_nil.mp h2.1
  have hwarn : (scanDirectoryM fs).2 = [] := h3.2
  have hsrc := h2.2
  have hkeyarch : ∀ (x : String) (xl : List String), (x, xl) ∈ captureTreeSnapshot fs →
      x ∈ ParseArchMd archLines := by
    intro x xl hx
    obtain ⟨m, hm, hmp⟩ := snapshot_key_marker fs (x, xl) hx
    have hcm : (ParseArchMd archLines).contains m.path = true := by
      cases hc : (ParseArchMd archLines).contains m.path
      · exfalso
        have hmem : ("region " ++ m.path ++ " found in source (" ++ m.file ++ ":" ++
            toString m.startLine ++ ") but not in arch.md — add it to arch.md")
            ∈ (scanDirectoryM fs).1.filterMap fun m =>
              if (ParseArchMd archLines).contains m.path then none
              else some ("region " ++ m.path ++ " found in source (" ++ m.file ++ ":" ++
                toString m.startLine ++ ") but not in arch.md — add it to arch.md") :=
          List.mem_filterMap.mpr ⟨m, hm, by rw [hc]; rfl⟩
        rw [hsrc] at hmem
        exact List.not_mem_nil _ hmem
      · rfl
    have hmem2 := List.mem_of_elem_eq_true hcm
    rwa [hmp] at hmem2
  have hresult : turnEnd (turnStart db fs regionPath turnId now0) fs archLines
      scratchpad false now1
      = (TurnEndResult.completed,
         finishTurn (turnStart db fs regionPath turnId now0)
           ⟨turnId, "researcher", regionPath, "implement", none, "ACTIVE",
             some (captureTreeSnapshot fs), none, now0, none⟩
           (captureTreeSnapshot fs) scratchpad now1) := by
    simp [turnEnd, hactive, harch, hwarn]
    exact hkeyarch
  have hrtr := recordTurnRegions_self (turnStart db fs regionPath turnId now0) turnId
    (captureTreeSnapshot fs) hreg (captureTreeSnapshot_keys_nodup fs) hfresh
  have hturns : (finishTurn (turnStart db fs regionPath turnId now0)
      (⟨turnId, "researcher", regionPath, "implement", none, "ACTIVE",
        some (captureTreeSnapshot fs), none, now0, none⟩ : TurnRow)
      (captureTreeSnapshot fs) scratchpad now1).turns
      = (db.turns ++ [(⟨turnId, "researcher", regionPath, "implement", none, "ACTIVE",
          some (captureTreeSnapshot fs), none, now0, none⟩ : TurnRow)]).map (fun tr =>
          if tr.id == turnId then
            { tr with scratchpad := some scratchpad, status := "COMPLETED",
                      completedAt := some now1,
                      treeAfter := some (captureTreeSnapshot fs) }
          else tr) := by
    show ((recordTurnRegions (turnStart db fs regionPath turnId now0) turnId
        (some (captureTreeSnapshot fs)) (captureTreeSnapshot fs)).turns.map _) = _
    rw [hrtr]
    rfl
  have hTR : (finishTurn (turnStart db fs regionPath turnId now0)
      (⟨turnId, "researcher", regionPath, "implement", none, "ACTIVE",
        some (captureTreeSnapshot fs), none, now0, none⟩ : TurnRow)
      (captureTreeSnapshot fs) scratchpad now1).turnRegions
      = db.turnRegions ++ snapModifiedRows db turnId (captureTreeSnapshot fs) := by
    show (recordTurnRegions (turnStart db fs regionPath turnId now0) turnId
        (some (captureTreeSnapshot fs)) (captureTreeSnapshot fs)).turnRegions = _
    rw [hrtr]
    rfl
  refine ⟨by rw [hresult], ?_, by rw [hresult]; exact hTR⟩
  refine ⟨⟨turnId, "researcher", regionPath, "implement", some scratchpad, "COMPLETED",
    some (captureTreeSnapshot fs), some (captureTreeSnapshot fs), now0, some now1⟩,
    ?_, rfl, rfl, rfl, rfl⟩
  rw [hresult]
  show _ ∈ (finishTurn _ _ _ _ _).turns
  rw [hturns]
  refine List.mem_map.mpr ⟨⟨turnId, "researcher", regionPath, "implement", none, "ACTIVE",
    some (captureTreeSnapshot fs), none, now0, none⟩,
    List.mem_append_right _ (List.mem_singleton_self _), ?_⟩
  show (if (turnId == turnId) = true then _ else _) = _
  rw [if_pos (beq_self_eq_true turnId)]

/-- C5 counterexample: the empty turn ends successfully with tree_after
equal to tree_before, but a (T1, app, modified) turn-region row IS produced
— the diff loop inserts a `modified` row for every region present in both
snapshots, not only for changed ones. -/
theorem c5_counterexample : ¬ c5ClaimAsStated exC5Store exC5fs exC5Arch "app" "T1" "done" := by
  unfold c5ClaimAsStated
  decide

/-- Witness for C5 on the concrete empty turn. -/
theorem c5_empty_turn_witness :
    (turnEnd (turnStart exC5Store exC5fs "app" "T1" 0) exC5fs exC5Arch "done" false 1).1
      = TurnEndResult.completed ∧
    (∃ trow ∈ (turnEnd (turnStart exC5Store exC5fs "app" "T1" 0) exC5fs exC5Arch "done"
        false 1).2.turns,
      trow.id = "T1" ∧ trow.status = "COMPLETED" ∧
      trow.treeBefore = some (captureTreeSnapshot exC5fs) ∧
      trow.treeAfter = trow.treeBefore) ∧
    (turnEnd (turnStart exC5Store exC5fs "app" "T1" 0) exC5fs exC5Arch "done"
        false 1).2.turnRegions
      = exC5Store.turnRegions ++ snapModifiedRows exC5Store "T1" (captureTreeSnapshot exC5fs) :=
  c5_empty_turn exC5Store exC5fs exC5Arch "app" "T1" "done" 0 1
    (by decide) (by decide) (by decide) (by decide)

/-- Every generated reference row carries the sync id it was built for. -/
theorem mem_syncRefRowsFor (sid : Nat) (sc : Synchronization) (r : SyncRefRow)
    (h : r ∈ syncRefRowsFor sid sc) : r.syncId = sid := by
  unfold syncRefRowsFor at h
  rcases List.mem_append.mp h with h1 | h2
  · rcases List.mem_append.mp h1 with ha | hb
    · obtain ⟨w, _, hw⟩ := List.mem_map.mp ha
      rw [← hw]
    · obtain ⟨t, _, ht⟩ := List.mem_map.mp hb
      rw [← ht]
  · obtain ⟨w, _, hv⟩ := List.mem_flatMap.mp h2
    obtain ⟨v, _, hr⟩ := List.mem_flatMap.mp hv
    cases v with
    | fieldsMap fieldNames =>
        obtain ⟨f, _, hf⟩ := List.mem_map.mp hr
        rw [← hf]
    | scalar => exact absurd hr (List.not_mem_nil r)

/-- Membership after the ON CONFLICT DO NOTHING insert loop. -/
theorem mem_foldl_insertRef :
    ∀ (rows refs : List SyncRefRow) (r : SyncRefRow),
      r ∈ rows.foldl insertRefNoConflict refs ↔ r ∈ refs ∨ r ∈ rows := by
  intro rows
  induction rows with
  | nil => intro refs r; simp
  | cons a l ih =>
      intro refs r
      rw [List.foldl_cons, ih]
      unfold insertRefNoConflict
      by_cases h : a ∈ refs
      · rw [if_pos h]
        constructor
        · rintro (h1 | h2)
          · exact Or.inl h1
          · exact Or.inr (List.mem_cons_of_mem _ h2)
        · rintro (h1 | h2)
          · exact Or.inl h1
          · rcases List.mem_cons.mp h2 with h3 | h4
            · exact Or.inl (h3 ▸ h)
            · exact Or.inr h4
      · rw [if_neg h]
        constructor
        · rintro (h1 | h2)
          · rcases List.mem_append.mp h1 with h3 | h4
            · exact Or.inl h3
            · exact Or.inr (List.mem_cons.mpr (Or.inl (by simpa using h4)))
          · exact Or.inr (List.mem_cons_of_mem _ h2)
        · rintro (h1 | h2)
          · exact Or.inl (List.mem_append_left _ h1)
          · rcases List.mem_cons.mp h2 with h3 | h4
            · exact Or.inl (List.mem_append_right _ (by simp [h3]))
            · exact Or.inr h4

/-- Rebuilding on a refs table holding nothing for `sid` yields exactly the
clause references. -/
theorem refsMatch_of_clean (refs : List SyncRefRow) (sid : Nat) (sc : Synchronization)
    (hclean : ∀ r ∈ refs, r.syncId ≠ sid) :
    ∀ r : SyncRefRow,
      (r ∈ (syncRefRowsFor sid sc).foldl insertRefNoConflict refs ∧ r.syncId = sid)
        ↔ r ∈ syncRefRowsFor sid sc := by
  intro r
  rw [mem_foldl_insertRef]
  constructor
  · rintro ⟨h1 | h2, hsid⟩
    · exact absurd hsid (hclean r h1)
    · exact h2
  · intro h
    exact ⟨Or.inr h, mem_syncRefRowsFor sid sc r h⟩

/-- buildSyncRefsTx with a found sync row. -/
theorem buildSyncRefsTx_found (db : Store) (sc : Synchronization) (srow : SyncRow)
    (hfind : db.syncs.find? (fun s => s.sync.name == sc.name) = some srow) :
    buildSyncRefsTx db sc = { db with
      syncRefs := (syncRefRowsFor srow.id sc).foldl insertRefNoConflict db.syncRefs } := by
  unfold buildSyncRefsTx
  rw [hfind]

/-- buildSyncRefsTx does nothing when the name lookup fails. -/
theorem buildSyncRefsTx_absent (db : Store) (sc : Synchronization)
    (hfind : db.syncs.find? (fun s => s.sync.name == sc.name) = none) :
    buildSyncRefsTx db sc = db := by
  unfold buildSyncRefsTx
  rw [hfind]

/-- Appending an element with a fresh image keeps a mapped list
duplicate-free. -/
theorem nodup_map_append_singleton {α β : Type} (f : α → β) (l : List α) (x : α)
    (h : (l.map f).Nodup) (hx : f x ∉ l.map f) : ((l ++ [x]).map f).Nodup := by
  rw [List.map_append]
  simp only [List.map_cons, List.map_nil]
  rw [← List.concat_eq_append]
  exact h.concat hx

/-- insertSyncTx on a fresh name: the new row gets the next id, and the refs
are rebuilt with no prior rows for it. -/
theorem insertSyncTx_eq (db : Store) (sc : Synchronization)
    (hfresh : ∀ s ∈ db.syncs, s.sync.name ≠ sc.name) :
    insertSyncTx db sc = some { db with
      syncs := db.syncs ++ [⟨db.nextSyncId, { sc with enabled := true }⟩],
      nextSyncId := db.nextSyncId + 1,
      syncRefs := (syncRefRowsFor db.nextSyncId sc).foldl insertRefNoConflict db.syncRefs } := by
  unfold insertSyncTx
  have hany : (db.syncs.any fun s => s.sync.name == sc.name) = false := by
    rw [List.any_eq_false]
    intro s hs hc
    exact hfresh s hs (eq_of_beq hc)
  rw [if_neg (by rw [hany]; exact Bool.false_ne_true)]
  have hfind : ({ db with
      syncs := db.syncs ++ [⟨db.nextSyncId, { sc with enabled := true }⟩],
      nextSyncId := db.nextSyncId + 1 } : Store).syncs.find?
        (fun s => s.sync.name == sc.name)
      = some ⟨db.nextSyncId, { sc with enabled := true }⟩ := by
    show (db.syncs ++ [(⟨db.nextSyncId, { sc with enabled := true }⟩ : SyncRow)]).find?
        (fun s => s.sync.name == sc.name) = _
    rw [List.find?_append, List.find?_eq_none.mpr ?hn]
    case hn =>
      intro s hs hc
      exact hfresh s hs (eq_of_beq hc)
    simp
  rw [buildSyncRefsTx_found _ sc _ hfind]

/-- Inserting a sync with a fresh name establishes its storage, keeps the
store well-formed, appends its name, and preserves every stored sync. -/
theorem insert_establishes (db : Store) (sc : Synchronization)
    (hWF : StoreWF db) (hfresh : sc.name ∉ db.syncs.map fun s => s.sync.name) :
    ∃ db2, insertSyncTx db sc = some db2 ∧ StoreWF db2 ∧ SyncStored db2 sc ∧
      (db2.syncs.map fun s => s.sync.name)
        = (db.syncs.map fun s => s.sync.name) ++ [sc.name] ∧
      (∀ S, SyncStored db S → SyncStored db2 S) := by
  obtain ⟨hid, hname, hbound, hfk⟩ := hWF
  have hfresh' : ∀ s ∈ db.syncs, s.sync.name ≠ sc.name := by
    intro s hs hc
    exact hfresh (hc ▸ List.mem_map_of_mem _ hs)
  have hclean : ∀ r ∈ db.syncRefs, r.syncId ≠ db.nextSyncId := by
    intro r hr hc
    obtain ⟨s, hs, hsid⟩ := List.mem_map.mp (hfk r hr)
    exact absurd (hsid.symm ▸ hc ▸ hbound s hs) (lt_irrefl _)
  refine ⟨_, insertSyncTx_eq db sc hfresh', ⟨?_, ?_, ?_, ?_⟩, ?_, ?_, ?_⟩
  · -- ids stay unique
    show ((db.syncs ++ [(⟨db.nextSyncId, { sc with enabled := true }⟩ : SyncRow)]).map
      fun s => s.id).Nodup
    refine nodup_map_append_singleton _ _ _ hid ?_
    intro hc
    obtain ⟨s, hs, hsid⟩ := List.mem_map.mp hc
    exact absurd (hsid ▸ hbound s hs) (lt_irrefl _)
  · -- names stay unique
    show ((db.syncs ++ [(⟨db.nextSyncId, { sc with enabled := true }⟩ : SyncRow)]).map
      fun s => s.sync.name).Nodup
    exact nodup_map_append_singleton _ _ _ hname hfresh
  · -- ids stay below the id supply
    intro s hs
    rcases List.mem_append.mp hs with h1 | h2
    · exact Nat.lt_trans (hbound s h1) (Nat.lt_succ_self _)
    · rw [List.mem_singleton.mp h2]
      exact Nat.lt_succ_self _
  · -- foreign key
    intro r hr
    rcases (mem_foldl_insertRef _ _ _).mp hr with h1 | h2
    · show r.syncId ∈ (db.syncs ++ [(⟨db.nextSyncId, { sc with enabled := true }⟩ :
        SyncRow)]).map fun s => s.id
      rw [List.map_append]
      exact List.mem_append_left _ (hfk r h1)
    · show r.syncId ∈ (db.syncs ++ [(⟨db.nextSyncId, { sc with enabled := true }⟩ :
        SyncRow)]).map fun s => s.id
      rw [List.map_append, mem_syncRefRowsFor _ _ _ h2]
      exact List.mem_append_right _ (by simp)
  · -- the new sync is stored
    refine ⟨⟨db.nextSyncId, { sc with enabled := true }⟩,
      List.mem_append_right _ (List.mem_singleton_self _), rfl, rfl, rfl, rfl, ?_⟩
    intro r
    exact refsMatch_of_clean db.syncRefs db.nextSyncId sc hclean r
  · -- name list evolution
    show ((db.syncs ++ [(⟨db.nextSyncId, { sc with enabled := true }⟩ : SyncRow)]).map
      fun s => s.sync.name) = _
    rw [List.map_append]
    rfl
  · -- frame for already stored syncs
    intro S hS
    obtain ⟨row, hrow, hn, hw, hwh, hth, hrm⟩ := hS
    refine ⟨row, List.mem_append_left _ hrow, hn, hw, hwh, hth, ?_⟩
    intro r
    constructor
    · rintro ⟨hrmem, hsid⟩
      rcases (mem_foldl_insertRef _ _ _).mp hrmem with h1 | h2
      · exact (hrm r).mp ⟨h1, hsid⟩
      · exfalso
        have h3 := mem_syncRefRowsFor _ _ _ h2
        rw [hsid] at h3
        exact absurd (h3 ▸ hbound row hrow) (lt_irrefl _)
    · intro h
      have h2 := (hrm r).mpr h
      exact ⟨(mem_foldl_insertRef _ _ _).mpr (Or.inl h2.1), h2.2⟩

/-- The clause UPDATE keeps every row's id and name. -/
theorem updSyncRow_id_name (sc : Synchronization) (s : SyncRow) :
    (updSyncRow sc s).id = s.id ∧ (updSyncRow sc s).sync.name = s.sync.name := by
  unfold updSyncRow
  by_cases h : (s.sync.name == sc.name) = true
  · rw [if_pos h]; exact ⟨rfl, rfl⟩
  · rw [if_neg h]; exact ⟨rfl, rfl⟩

/-- The mapped sync rows keep their ids. -/
theorem updMap_ids (db : Store) (sc : Synchronization) :
    ((db.syncs.map (updSyncRow sc)).map fun s => s.id) = db.syncs.map fun s => s.id := by
  rw [List.map_map]
  exact List.map_congr_left fun s _ => (updSyncRow_id_name sc s).1

/-- The mapped sync rows keep their names. -/
theorem updMap_names (db : Store) (sc : Synchronization) :
    ((db.syncs.map (updSyncRow sc)).map fun s => s.sync.name)
      = db.syncs.map fun s => s.sync.name := by
  rw [List.map_map]
  exact List.map_congr_left fun s _ => (updSyncRow_id_name sc s).2

/-- updateSyncTx on a stored name: the named row gets the new clauses and a
clean rebuild of its refs; well-formedness, the name list and everything
stored under a different name survive. -/
theorem update_present (db : Store) (sc : Synchronization)
    (hWF : StoreWF db) (hmem : sc.name ∈ db.syncs.map fun s => s.sync.name) :
    StoreWF (updateSyncTx db sc) ∧ SyncStored (updateSyncTx db sc) sc ∧
    ((updateSyncTx db sc).syncs.map fun s => s.sync.name)
      = (db.syncs.map fun s => s.sync.name) ∧
    (∀ S, S.name ≠ sc.name → SyncStored db S → SyncStored (updateSyncTx db sc) S) := by
  obtain ⟨hid, hname, hbound, hfk⟩ := hWF
  have hid2 : ((db.syncs.map (updSyncRow sc)).map fun s => s.id).Nodup := by
    rw [updMap_ids]; exact hid
  have hname2 : ((db.syncs.map (updSyncRow sc)).map fun s => s.sync.name).Nodup := by
    rw [updMap_names]; exact hname
  -- the named row is found
  have hsome : ((db.syncs.map (updSyncRow sc)).find?
      (fun s => s.sync.name == sc.name)).isSome := by
    rw [List.find?_isSome]
    obtain ⟨s, hs, hsn⟩ := List.mem_map.mp hmem
    refine ⟨updSyncRow sc s, List.mem_map_of_mem _ hs, ?_⟩
    rw [(updSyncRow_id_name sc s).2, hsn]
    exact beq_self_eq_true _
  obtain ⟨srow, hfind⟩ := Option.isSome_iff_exists.mp hsome
  have hsmem : srow ∈ db.syncs.map (updSyncRow sc) := List.mem_of_find?_eq_some hfind
  have hsn : srow.sync.name = sc.name := eq_of_beq (by simpa using List.find?_some hfind)
  obtain ⟨s0, hs0, hs0eq⟩ := List.mem_map.mp hsmem
  have hs0n : s0.sync.name = sc.name := by
    have := (updSyncRow_id_name sc s0).2
    rw [hs0eq] at this
    rw [← this, hsn]
  have hs0up : updSyncRow sc s0 = { s0 with sync :=
      { s0.sync with whenClause := sc.whenClause, whereClause := sc.whereClause,
                     thenClause := sc.thenClause, description := sc.description } } := by
    unfold updSyncRow
    rw [if_pos (by rw [hs0n]; exact beq_self_eq_true _)]
  -- shape of the result
  have hclear : clearRefsByName ({ db with syncs := db.syncs.map (updSyncRow sc) } : Store)
      sc.name
      = { db with
          syncs := db.syncs.map (updSyncRow sc),
          syncRefs := db.syncRefs.filter fun r => !(r.syncId == srow.id) } := by
    unfold clearRefsByName
    rw [show ({ db with syncs := db.syncs.map (updSyncRow sc) } : Store).syncs.find?
      (fun s => s.sync.name == sc.name) = some srow from hfind]
  have hres : updateSyncTx db sc = { db with
      syncs := db.syncs.map (updSyncRow sc),
      syncRefs := (syncRefRowsFor srow.id sc).foldl insertRefNoConflict
        (db.syncRefs.filter fun r => !(r.syncId == srow.id)) } := by
    unfold updateSyncTx
    rw [hclear]
    rw [buildSyncRefsTx_found _ sc srow (by exact hfind)]
  rw [hres]
  have hclean : ∀ r ∈ (db.syncRefs.filter fun r => !(r.syncId == srow.id)),
      r.syncId ≠ srow.id := by
    intro r hr hc
    have h2 := (List.mem_filter.mp hr).2
    rw [hc] at h2
    simp at h2
  refine ⟨⟨hid2, hname2, ?_, ?_⟩, ?_, ?_, ?_⟩
  · -- bounds
    intro s hs
    obtain ⟨s1, hs1, hs1e⟩ := List.mem_map.mp hs
    rw [← hs1e, (updSyncRow_id_name sc s1).1]
    exact hbound s1 hs1
  · -- foreign key
    intro r hr
    rcases (mem_foldl_insertRef _ _ _).mp hr with h1 | h2
    · have h3 := hfk r (List.mem_filter.mp h1).1
      show r.syncId ∈ (db.syncs.map (updSyncRow sc)).map fun s => s.id
      rw [updMap_ids]
      exact h3
    · show r.syncId ∈ (db.syncs.map (updSyncRow sc)).map fun s => s.id
      rw [mem_syncRefRowsFor _ _ _ h2]
      exact List.mem_map_of_mem _ hsmem
  · -- the modified sync is stored
    refine ⟨srow, hsmem, hsn, ?_, ?_, ?_, ?_⟩
    · rw [← hs0eq, hs0up]
    · rw [← hs0eq, hs0up]
    · rw [← hs0eq, hs0up]
    · intro r
      exact refsMatch_of_clean _ srow.id sc hclean r
  · -- names unchanged
    exact updMap_names db sc
  · -- frame under a different name
    intro S hSn hS
    obtain ⟨row, hrow, hn, hw, hwh, hth, hrm⟩ := hS
    have hrowup : updSyncRow sc row = row := by
      unfold updSyncRow
      rw [if_neg]
      intro hc
      exact hSn (by rw [← hn, eq_of_beq hc])
    have hrid : row.id ≠ srow.id := by
      intro hc
      have h1 : srow ∈ db.syncs.map (updSyncRow sc) := hsmem
      have h2 : row ∈ db.syncs.map (updSyncRow sc) := by
        rw [← hrowup]
        exact List.mem_map_of_mem _ hrow
      have h3 := List.inj_on_of_nodup_map hid2 h2 h1 hc
      rw [h3] at hn
      exact hSn (hn.symm ▸ hsn)
  -- continue frame
    refine ⟨row, by rw [← hrowup]; exact List.mem_map_of_mem _ hrow, hn, hw, hwh, hth, ?_⟩
    intro r
    constructor
    · rintro ⟨hrmem, hsid⟩
      rcases (mem_foldl_insertRef _ _ _).mp hrmem with h1 | h2
      · exact (hrm r).mp ⟨(List.mem_filter.mp h1).1, hsid⟩
      · exfalso
        have h3 := mem_syncRefRowsFor _ _ _ h2
        rw [hsid] at h3
        exact hrid h3
    · intro h
      have h2 := (hrm r).mpr h
      refine ⟨(mem_foldl_insertRef _ _ _).mpr (Or.inl (List.mem_filter.mpr
        ⟨h2.1, ?_⟩)), h2.2⟩
      rw [h2.2]
      simp [hrid]

/-- Deleting by name keeps the store well-formed and preserves every sync
stored under a different name (the cascade only removes the deleted ids'
refs). -/
theorem delete_frame (db : Store) (name : String) (hWF : StoreWF db) :
    StoreWF (deleteSyncTx db name) ∧
    (∀ S, S.name ≠ name → SyncStored db S → SyncStored (deleteSyncTx db name) S) := by
  obtain ⟨hid, hname, hbound, hfk⟩ := hWF
  have hids_of : ∀ (sid : Nat),
      sid ∈ ((db.syncs.filter fun s => s.sync.name == name).map fun s => s.id) →
      ∀ row ∈ db.syncs, row.id = sid → row.sync.name = name := by
    intro sid hsid row hrow hride
    obtain ⟨s, hs, hse⟩ := List.mem_map.mp hsid
    have hsmem := (List.mem_filter.mp hs).1
    have hsnm := (List.mem_filter.mp hs).2
    have heq : row = s := List.inj_on_of_nodup_map hid hrow hsmem (by rw [hride, hse])
    rw [heq]
    exact eq_of_beq hsnm
  constructor
  · refine ⟨?_, ?_, ?_, ?_⟩
    · show (((db.syncs.filter fun s => !(s.sync.name == name)).map fun s => s.id)).Nodup
      exact List.Nodup.sublist ((List.filter_sublist _).map _) hid
    · show (((db.syncs.filter fun s => !(s.sync.name == name)).map
        fun s => s.sync.name)).Nodup
      exact List.Nodup.sublist ((List.filter_sublist _).map _) hname
    · intro s hs
      exact hbound s (List.mem_of_mem_filter hs)
    · intro r hr
      have hrmem := (List.mem_filter.mp hr).1
      have hrpred := (List.mem_filter.mp hr).2
      have hnotin : r.syncId ∉ ((db.syncs.filter fun s => s.sync.name == name).map
          fun s => s.id) := by
        intro hc
        rw [show (((db.syncs.filter fun s => s.sync.name == name).map
          fun s => s.id).contains r.syncId) = true from List.elem_eq_true_of_mem hc]
          at hrpred
        exact absurd hrpred (by simp)
      obtain ⟨s, hs, hse⟩ := List.mem_map.mp (hfk r hrmem)
      have hsname : s.sync.name ≠ name := by
        intro hc
        exact hnotin (hse ▸ List.mem_map_of_mem (fun s => s.id) (List.mem_filter.mpr ⟨hs, by
          rw [hc]; exact beq_self_eq_true _⟩))
      show r.syncId ∈ (db.syncs.filter fun s => !(s.sync.name == name)).map fun s => s.id
      refine List.mem_map.mpr ⟨s, List.mem_filter.mpr ⟨hs, ?_⟩, hse⟩
      simp [hsname]
  · intro S hSn hS
    obtain ⟨row, hrow, hn, hw, hwh, hth, hrm⟩ := hS
    have hrowname : ¬(row.sync.name == name) = true := by
      intro hc
      exact hSn (hn ▸ eq_of_beq hc)
    have hridnot : row.id ∉ ((db.syncs.filter fun s => s.sync.name == name).map
        fun s => s.id) := by
      intro hc
      exact hrowname (by
        rw [hids_of row.id hc row hrow rfl]
        exact beq_self_eq_true _)
    refine ⟨row, List.mem_filter.mpr ⟨hrow, by simpa using hrowname⟩, hn, hw, hwh, hth, ?_⟩
    intro r
    constructor
    · rintro ⟨hrmem, hsid⟩
      exact (hrm r).mp ⟨(List.mem_filter.mp hrmem).1, hsid⟩
    · intro h
      have h2 := (hrm r).mpr h
      refine ⟨List.mem_filter.mpr ⟨h2.1, ?_⟩, h2.2⟩
      have hcf : ¬(((db.syncs.filter fun s => s.sync.name == name).map
          fun s => s.id).contains r.syncId = true) := by
        intro hc
        exact hridnot (h2.2 ▸ List.mem_of_elem_eq_true hc)
      simp only [Bool.not_eq_true] at hcf
      rw [Bool.not_eq_true']
      exact hcf

/-- The added-syncs loop succeeds on fresh, pairwise distinct names; every
added sync ends up stored, prior syncs survive, and the name list grows by
the added names. -/
theorem applyAddedSyncs_spec :
    ∀ (adds : List Synchronization) (db : Store),
      StoreWF db →
      (∀ a ∈ adds, a.name ∉ db.syncs.map fun s => s.sync.name) →
      ((adds.map fun a => a.name).Nodup) →
      ∃ db2, applyAddedSyncs db adds = some db2 ∧ StoreWF db2 ∧
        (∀ a ∈ adds, SyncStored db2 a) ∧
        (∀ S, SyncStored db S → SyncStored db2 S) ∧
        (db2.syncs.map fun s => s.sync.name)
          = (db.syncs.map fun s => s.sync.name) ++ adds.map (fun a => a.name) := by
  intro adds
  induction adds with
  | nil =>
      intro db hWF _ _
      exact ⟨db, rfl, hWF, by simp, fun S h => h, by simp⟩
  | cons a rest ih =>
      intro db hWF hfresh hnodup
      obtain ⟨dbI, heqI, hWFI, hstoredI, hnamesI, hframeI⟩ :=
        insert_establishes db a hWF (hfresh a (List.mem_cons_self a rest))
      have hfreshrest : ∀ b ∈ rest, b.name ∉ dbI.syncs.map fun s => s.sync.name := by
        intro b hb hc
        rw [hnamesI] at hc
        rcases List.mem_append.mp hc with h1 | h2
        · exact hfresh b (List.mem_cons_of_mem _ hb) h1
        · have hba : b.name = a.name := by simpa using h2
          have hmm : b.name ∈ rest.map (fun a => a.name) := List.mem_map_of_mem _ hb
          rw [hba] at hmm
          exact (List.nodup_cons.mp hnodup).1 hmm
      obtain ⟨db2, heq2, hWF2, hstored2, hframe2, hnames2⟩ :=
        ih dbI hWFI hfreshrest (List.nodup_cons.mp hnodup).2
      refine ⟨db2, ?_, hWF2, ?_, fun S hS => hframe2 S (hframeI S hS), ?_⟩
      · show (match insertSyncTx db a with
          | none => none
          | some d => applyAddedSyncs d rest) = some db2
        rw [heqI]
        exact heq2
      · intro b hb
        rcases List.mem_cons.mp hb with h1 | h2
        · exact h1 ▸ hframe2 a hstoredI
        · exact hstored2 b h2
      · rw [hnames2, hnamesI, List.append_assoc]
        rfl

/-- The modified-syncs loop: every modified sync ends up stored with its new
clauses, syncs under other names survive, and the name list is unchanged. -/
theorem updFold_spec :
    ∀ (mods : List Synchronization) (db : Store),
      StoreWF db →
      (∀ m ∈ mods, m.name ∈ db.syncs.map fun s => s.sync.name) →
      ((mods.map fun m => m.name).Nodup) →
      StoreWF (mods.foldl updateSyncTx db) ∧
      (∀ m ∈ mods, SyncStored (mods.foldl updateSyncTx db) m) ∧
      (∀ S, (∀ m ∈ mods, S.name ≠ m.name) → SyncStored db S →
        SyncStored (mods.foldl updateSyncTx db) S) ∧
      ((mods.foldl updateSyncTx db).syncs.map fun s => s.sync.name)
        = (db.syncs.map fun s => s.sync.name) := by
  intro mods
  induction mods with
  | nil =>
      intro db hWF _ _
      exact ⟨hWF, by simp, fun S _ h => h, rfl⟩
  | cons m rest ih =>
      intro db hWF hmem hnodup
      obtain ⟨hWFU, hstoredU, hnamesU, hframeU⟩ :=
        update_present db m hWF (hmem m (List.mem_cons_self m rest))
      have hmemrest : ∀ b ∈ rest, b.name ∈ (updateSyncTx db m).syncs.map
          fun s => s.sync.name := by
        intro b hb
        rw [hnamesU]
        exact hmem b (List.mem_cons_of_mem _ hb)
      obtain ⟨hWF2, hstored2, hframe2, hnames2⟩ :=
        ih (updateSyncTx db m) hWFU hmemrest (List.nodup_cons.mp hnodup).2
      rw [List.foldl_cons]
      refine ⟨hWF2, ?_, ?_, by rw [hnames2, hnamesU]⟩
      · intro b hb
        rcases List.mem_cons.mp hb with h1 | h2
        · refine h1 ▸ hframe2 m ?_ hstoredU
          intro m2 hm2 hc
          have hmm : m2.name ∈ rest.map (fun m => m.name) := List.mem_map_of_mem _ hm2
          rw [← hc] at hmm
          exact (List.nodup_cons.mp hnodup).1 hmm
        · exact hstored2 b h2
      · intro S hSn hS
        exact hframe2 S (fun m2 hm2 => hSn m2 (List.mem_cons_of_mem _ hm2))
          (hframeU S (hSn m (List.mem_cons_self m rest)) hS)

/-- The deleted-syncs loop: well-formedness survives, and so does every
sync whose name is not deleted. -/
theorem delFold_spec :
    ∀ (dels : List String) (db : Store), StoreWF db →
      StoreWF (dels.foldl deleteSyncTx db) ∧
      (∀ S, S.name ∉ dels → SyncStored db S →
        SyncStored (dels.foldl deleteSyncTx db) S) := by
  intro dels
  induction dels with
  | nil => intro db hWF; exact ⟨hWF, fun S _ h => h⟩
  | cons d rest ih =>
      intro db hWF
      obtain ⟨hWFD, hframeD⟩ := delete_frame db d hWF
      obtain ⟨hWF2, hframe2⟩ := ih (deleteSyncTx db d) hWFD
      rw [List.foldl_cons]
      refine ⟨hWF2, ?_⟩
      intro S hSn hS
      refine hframe2 S (fun hc => hSn (List.mem_cons_of_mem _ hc)) ?_
      exact hframeD S (fun hc => hSn (hc ▸ List.mem_cons_self d rest)) hS

/-- The status/region updates of approveProposal touch neither the sync
tables nor the id supply. -/
theorem approveStatusRegion_parts (db : Store) (p : Proposal) :
    (approveStatusRegion db p).syncs = db.syncs ∧
    (approveStatusRegion db p).syncRefs = db.syncRefs ∧
    (approveStatusRegion db p).nextSyncId = db.nextSyncId := by
  simp only [approveStatusRegion]
  split
  · exact ⟨rfl, rfl, rfl⟩
  · exact ⟨rfl, rfl, rfl⟩

/-- StoreWF only depends on the sync tables and the id supply. -/
theorem storeWF_congr (a b : Store) (h1 : a.syncs = b.syncs) (h2 : a.syncRefs = b.syncRefs)
    (h3 : a.nextSyncId = b.nextSyncId) (h : StoreWF b) : StoreWF a := by
  unfold StoreWF
  rw [h1, h2, h3]
  exact h

/-- C3 (amended): approving a proposal whose sync changes add or modify S
commits exactly when no added name collides, and afterwards some stored row
carries S's name and clauses and its sync_refs rows exactly cover the union
of S's when, then and where clause references.  Preconditions: schema
well-formedness, added names fresh, modified names present, the added and
modified names pairwise distinct, and S's name not also deleted. -/
theorem c3_sync_ref_consistency (db : Store) (p : Proposal) (sc : SyncChanges)
    (S : Synchronization)
    (hWF : StoreWF db)
    (hsc : p.syncChanges = some sc)
    (hS : S ∈ sc.added ++ sc.modified)
    (hnodup : ((sc.added ++ sc.modified).map fun s => s.name).Nodup)
    (haddfresh : ∀ a ∈ sc.added, a.name ∉ db.syncs.map fun s => s.sync.name)
    (hmodmem : ∀ m ∈ sc.modified, m.name ∈ db.syncs.map fun s => s.sync.name)
    (hnotdel : S.name ∉ sc.deleted) :
    ∃ db4, approveProposalTx db p = some db4 ∧
      ∃ row ∈ db4.syncs, row.sync.name = S.name ∧
        row.sync.whenClause = S.whenClause ∧ row.sync.whereClause = S.whereClause ∧
        row.sync.thenClause = S.thenClause ∧
        (∀ r : SyncRefRow, (r ∈ db4.syncRefs ∧ r.syncId = row.id)
          ↔ r ∈ syncRefRowsFor row.id S) := by
  obtain ⟨hps, hpr, hpn⟩ := approveStatusRegion_parts db p
  have hWF0 : StoreWF (approveStatusRegion db p) := storeWF_congr _ db hps hpr hpn hWF
  rw [List.map_append] at hnodup
  have hadddisj := List.disjoint_of_nodup_append hnodup
  obtain ⟨db3, heq3, hWF3, hstored3, hframe3, hnames3⟩ :=
    applyAddedSyncs_spec sc.added (approveStatusRegion db p) hWF0
      (by intro a ha; rw [hps]; exact haddfresh a ha) hnodup.of_append_left
  obtain ⟨hWF4, hstored4, hframe4, hnames4⟩ :=
    updFold_spec sc.modified db3 hWF3
      (by
        intro m hm
        rw [hnames3, hps]
        exact List.mem_append_left _ (hmodmem m hm))
      hnodup.of_append_right
  obtain ⟨hWF5, hframe5⟩ :=
    delFold_spec sc.deleted (sc.modified.foldl updateSyncTx db3) hWF4
  have hstored : SyncStored
      (sc.deleted.foldl deleteSyncTx (sc.modified.foldl updateSyncTx db3)) S := by
    rcases List.mem_append.mp hS with hSa | hSm
    · refine hframe5 S hnotdel ?_
      refine hframe4 S ?_ (hstored3 S hSa)
      intro m hm hc
      exact hadddisj (List.mem_map_of_mem (fun s => s.name) hSa)
        (hc ▸ List.mem_map_of_mem (fun s => s.name) hm)
    · exact hframe5 S hnotdel (hstored4 S hSm)
  refine ⟨sc.deleted.foldl deleteSyncTx (sc.modified.foldl updateSyncTx db3), ?_, ?_⟩
  · show (match p.syncChanges with
      | none => some (approveStatusRegion db p)
      | some sc =>
          match applyAddedSyncs (approveStatusRegion db p) sc.added with
          | none => none
          | some db3 =>
              some (sc.deleted.foldl deleteSyncTx (sc.modified.foldl updateSyncTx db3)))
      = _
    rw [hsc]
    show (match applyAddedSyncs (approveStatusRegion db p) sc.added with
      | none => none
      | some db3 =>
          some (sc.deleted.foldl deleteSyncTx (sc.modified.foldl updateSyncTx db3))) = _
    rw [heq3]
  · obtain ⟨row, hrow, hn, hw, hwh, hth, hrm⟩ := hstored
    exact ⟨row, hrow, hn, hw, hwh, hth, hrm⟩

/-- C3 counterexample: modifying a sync whose name is absent commits (the
UPDATE matches no row and the tx proceeds), but afterwards no sync named
Ghost exists, let alone refs covering its clauses — the spec's "upsert for
modified" is really a plain UPDATE. -/
theorem c3_counterexample :
    ¬ c3ClaimAsStated exC3Store exC3Proposal ⟨[], [exC3GhostSync], []⟩ exC3GhostSync := by
  unfold c3ClaimAsStated
  decide

/-- Witness for C3: approving the addition stores ComputeTier with refs
exactly covering its clauses. -/
theorem c3_sync_ref_consistency_witness :
    ∃ db4, approveProposalTx exC3Store exC3WProposal = some db4 ∧
      ∃ row ∈ db4.syncs, row.sync.name = exC3AddSync.name ∧
        row.sync.whenClause = exC3AddSync.whenClause ∧
        row.sync.whereClause = exC3AddSync.whereClause ∧
        row.sync.thenClause = exC3AddSync.thenClause ∧
        (∀ r : SyncRefRow, (r ∈ db4.syncRefs ∧ r.syncId = row.id)
          ↔ r ∈ syncRefRowsFor row.id exC3AddSync) :=
  c3_sync_ref_consistency exC3Store exC3WProposal ⟨[exC3AddSync], [], []⟩ exC3AddSync
    (by unfold StoreWF; decide) rfl (by decide) (by decide) (by decide) (by decide)
    (by decide)

end GamSync
